import Mathlib

/-!
Input event decoder of `i2ckbd.c`.

A shallow embedding of `examples/usb_mass_storage/libs/i2ckbd/i2ckbd.c`:
the event queue (`queue_push`, `queue_pop`), the channel decoders
(`enqueue_direction_keys`, `enqueue_function_keys`, `enqueue_pager_keys`,
`enqueue_pot_keys`) and the poll gate (`i2c_kbd_poll`); and of
`ssd1309_draw_line` from `examples/usb_mass_storage/libs/lcdspi/ssd1309.c`.

Static variables of the C file become fields of explicit state records.
Machine integers are `Nat`/`Int` with explicit wrapping where the C code can
wrap (`uint8_t` increment, `int16_t` cast, `int32_t` accumulator).
-/

namespace I2cKbd

/-! ## Key codes (`keycode_t`) -/

/-- The C enum `keycode_t` is an `int`; its enumerators are the constants below. -/
abbrev keycode_t := Int

def KEY_NONE : keycode_t := -1
def KEY_ENTER : keycode_t := 0x0A
def KEY_PG_UP : keycode_t := 0xB3
def KEY_PG_DOWN : keycode_t := 0xB4
def KEY_POT_DOWN : keycode_t := 0xB5
def KEY_POT_UP : keycode_t := 0xB6
def KEY_LEFT : keycode_t := 0x81
def KEY_RIGHT : keycode_t := 0x82
def KEY_DOWN : keycode_t := 0x83
def KEY_UP : keycode_t := 0x84
def KEY_FIRE_A : keycode_t := 0x85
def KEY_FIRE_B : keycode_t := 0x86
def KEY_LEFT_FAST : keycode_t := 0x91
def KEY_RIGHT_FAST : keycode_t := 0x92
def KEY_DOWN_FAST : keycode_t := 0x93
def KEY_UP_FAST : keycode_t := 0x94

/-- The fifteen enumerators of `keycode_t` other than `KEY_NONE`. -/
def nonNoneKeys : List keycode_t :=
  [KEY_ENTER, KEY_PG_UP, KEY_PG_DOWN, KEY_POT_DOWN, KEY_POT_UP,
   KEY_LEFT, KEY_RIGHT, KEY_DOWN, KEY_UP, KEY_FIRE_A, KEY_FIRE_B,
   KEY_LEFT_FAST, KEY_RIGHT_FAST, KEY_DOWN_FAST, KEY_UP_FAST]

/-! ## Event queue (`queued_keys`, `queue_head`, `queue_tail`) -/

/-- The three statics of the ring buffer: `queued_keys[8]`, `queue_head`, `queue_tail`. -/
structure Queue where
  queued_keys : List keycode_t
  queue_head : Nat
  queue_tail : Nat
deriving DecidableEq, Repr

/-- Static initialisation: the array is zero-filled, both indices are 0. -/
def Queue.init : Queue :=
  { queued_keys := List.replicate 8 0, queue_head := 0, queue_tail := 0 }

/-- The array has its 8 slots and both indices address a slot. -/
def Queue.WF (q : Queue) : Prop :=
  q.queued_keys.length = 8 ∧ q.queue_head < 8 ∧ q.queue_tail < 8

instance (q : Queue) : Decidable q.WF := by
  unfold Queue.WF; exact inferInstance

/-- The function `queue_is_empty`: `queue_head == queue_tail`. -/
def queue_is_empty (q : Queue) : Bool :=
  q.queue_head == q.queue_tail

/-- The function `queue_is_full`: `((queue_head + 1) & 0x7) == queue_tail`. -/
def queue_is_full (q : Queue) : Bool :=
  ((q.queue_head + 1) &&& 0x7) == q.queue_tail

/-- The function `queue_push`: ignore keys `<= KEY_NONE`; when full advance the tail; store at
the head and advance the head. -/
def queue_push (q : Queue) (key : keycode_t) : Queue :=
  if key ≤ KEY_NONE then q
  else
    let q1 : Queue :=
      if queue_is_full q then { q with queue_tail := (q.queue_tail + 1) &&& 0x7 } else q
    { q1 with
      queued_keys := q1.queued_keys.set q1.queue_head key
      queue_head := (q1.queue_head + 1) &&& 0x7 }

/-- The function `queue_pop`: `KEY_NONE` when empty, else the key at the tail, advancing the tail. -/
def queue_pop (q : Queue) : keycode_t × Queue :=
  if queue_is_empty q then (KEY_NONE, q)
  else
    let key := q.queued_keys.getD q.queue_tail 0
    (key, { q with queue_tail := (q.queue_tail + 1) &&& 0x7 })

/-- Successive `queue_push` calls, one per element of `ks`, in order. -/
def pushAll (q : Queue) (ks : List keycode_t) : Queue :=
  ks.foldl queue_push q

/-- The results of `n` successive `queue_pop` calls, and the queue left behind. -/
def popN : Nat → Queue → List keycode_t × Queue
  | 0, q => ([], q)
  | n + 1, q =>
    let r := queue_pop q
    let rest := popN n r.2
    (r.1 :: rest.1, rest.2)

/-- Number of pending events: the distance from tail to head around the ring. -/
def Queue.size (q : Queue) : Nat :=
  (q.queue_head + 8 - q.queue_tail) % 8

/-- The pending events, oldest first: the slots from `queue_tail` up to (not
including) `queue_head`, walking the ring. -/
def Queue.pending (q : Queue) : List keycode_t :=
  (List.range q.size).map (fun i => q.queued_keys.getD ((q.queue_tail + i) % 8) 0)


/-! ## Raw sample (`ui_data_t`) -/

/-- The bus payload `ui_data_t`, field for field. Unsigned fields are `Nat`. -/
structure ui_data_t where
  pot_adc_values : List Nat
  pot_positions : List Nat
  pot_states : List Nat
  d_btns : Nat
  d_btns_long_press : Nat
  f_btns : Nat
  f_btns_long_press : Nat
  mcl_btns : Nat
  mcl_btns_long_press : Nat
  accelerometer : List Int
  systicks : Nat
deriving DecidableEq, Repr

/-! ## Decoder state: the statics of `i2ckbd.c` -/

/-- All static variables of the file. Function-local statics carry the name of
their function as a prefix where two functions use the same name
(`last_btns` exists in `enqueue_direction_keys` and in `enqueue_pager_keys`).
`pushed` is a history variable: the argument of every `queue_push` call made
so far by the decoder, in call order. The program never reads it. -/
@[ext]
structure State where
  i2c_inited : Nat
  last_poll_time : Nat
  pot_accumulator : Int
  latest_mcl_btns : Nat
  latest_mcl_btns_long : Nat
  queue : Queue
  dir_last_btns : Nat
  dir_last_long : Nat
  repeat_ticks : List Nat
  last_long_fn : Nat
  pager_last_btns : Nat
  last_position : Nat
  initialized : Bool
  pushed : List keycode_t
deriving DecidableEq, Repr

/-- The state after static initialisation (everything zero). -/
def State.init : State :=
  { i2c_inited := 0, last_poll_time := 0, pot_accumulator := 0,
    latest_mcl_btns := 0, latest_mcl_btns_long := 0, queue := Queue.init,
    dir_last_btns := 0, dir_last_long := 0, repeat_ticks := [0, 0, 0, 0],
    last_long_fn := 0, pager_last_btns := 0, last_position := 0,
    initialized := false, pushed := [] }

/-- A `queue_push(key)` call made by the decoder: updates the queue and records
the call in the history variable. -/
def State.push (s : State) (key : keycode_t) : State :=
  { s with queue := queue_push s.queue key, pushed := s.pushed ++ [key] }

/-- A `queue_pop()` call on the decoder state. -/
def State.pop (s : State) : keycode_t × State :=
  let r := queue_pop s.queue
  (r.1, { s with queue := r.2 })

/-- The C test `(v & (1u << bit)) != 0`. -/
def bit_set (v bit : Nat) : Bool :=
  (v &&& (1 <<< bit)) != 0

/-! ## `enqueue_direction_keys` -/

/-- One row of the `mapping[]` table. -/
structure DirMap where
  bit : Nat
  key : keycode_t
  fast_key : keycode_t
deriving DecidableEq, Repr

instance : Inhabited DirMap := ⟨⟨0, KEY_NONE, KEY_NONE⟩⟩

/-- The `mapping[]` table of `enqueue_direction_keys`. -/
def mapping : List DirMap :=
  [⟨0, KEY_LEFT, KEY_LEFT_FAST⟩,
   ⟨1, KEY_DOWN, KEY_DOWN_FAST⟩,
   ⟨2, KEY_RIGHT, KEY_RIGHT_FAST⟩,
   ⟨3, KEY_UP, KEY_UP_FAST⟩,
   ⟨4, KEY_FIRE_A, KEY_NONE⟩,
   ⟨5, KEY_FIRE_B, KEY_NONE⟩]

/-- The constant `repeat_threshold`. -/
def repeat_threshold : Nat := 4

/-- Body of the first loop of `enqueue_direction_keys` (press edge, then
long-press edge, for one table row). -/
def direction_edge_step (btns long_btns : Nat) (s : State) (m : DirMap) : State :=
  let bit := m.bit
  let pressed := bit_set btns bit
  let was_pressed := bit_set s.dir_last_btns bit
  let s1 := if pressed && !was_pressed then s.push m.key else s
  let long_pressed := bit_set long_btns bit
  let was_long := bit_set s1.dir_last_long bit
  if long_pressed && !was_long then s1.push m.key else s1

/-- Body of the second loop of `enqueue_direction_keys` (auto-repeat for index
`idx`). The pre-increment of the `uint8_t` counter wraps modulo 256. -/
def direction_repeat_step (long_btns : Nat) (s : State) (idx : Nat) : State :=
  let is_long := bit_set long_btns idx
  if is_long then
    let t := (s.repeat_ticks.getD idx 0 + 1) % 256
    let s1 := { s with repeat_ticks := s.repeat_ticks.set idx t }
    if t ≥ repeat_threshold then
      let s2 := s1.push (mapping.getD idx default).fast_key
      { s2 with repeat_ticks := s2.repeat_ticks.set idx 0 }
    else s1
  else
    { s with repeat_ticks := s.repeat_ticks.set idx 0 }

/-- The function `enqueue_direction_keys`: the edge loop over the six table rows, the
auto-repeat loop over indices 0..3, then the two history stores. -/
def enqueue_direction_keys (s : State) (buff : ui_data_t) : State :=
  let btns := buff.mcl_btns
  let long_btns := buff.mcl_btns_long_press
  let s1 := mapping.foldl (direction_edge_step btns long_btns) s
  let s2 := (List.range 4).foldl (direction_repeat_step long_btns) s1
  { s2 with dir_last_btns := btns, dir_last_long := long_btns }

/-! ## `enqueue_function_keys` and `enqueue_pager_keys` -/

/-- The `fn_mapping[]` table: (bit, key). -/
def fn_mapping : List (Nat × keycode_t) := [(2, KEY_ENTER)]

/-- Body of the loop of `enqueue_function_keys`. -/
def function_step (long_fn : Nat) (s : State) (m : Nat × keycode_t) : State :=
  let pressed := bit_set long_fn m.1
  let was_pressed := bit_set s.last_long_fn m.1
  if pressed && !was_pressed then s.push m.2 else s

/-- The function `enqueue_function_keys`. -/
def enqueue_function_keys (s : State) (buff : ui_data_t) : State :=
  let long_fn := buff.f_btns_long_press
  let s1 := fn_mapping.foldl (function_step long_fn) s
  { s1 with last_long_fn := long_fn }

/-- The `map[]` table of `enqueue_pager_keys`: (bit, key). -/
def pager_map : List (Nat × keycode_t) := [(3, KEY_PG_UP), (1, KEY_PG_DOWN)]

/-- Body of the loop of `enqueue_pager_keys`. -/
def pager_step (btns : Nat) (s : State) (m : Nat × keycode_t) : State :=
  let pressed := bit_set btns m.1
  let was_pressed := bit_set s.pager_last_btns m.1
  if pressed && !was_pressed then s.push m.2 else s

/-- The function `enqueue_pager_keys`. -/
def enqueue_pager_keys (s : State) (buff : ui_data_t) : State :=
  let btns := buff.mcl_btns
  let s1 := pager_map.foldl (pager_step btns) s
  { s1 with pager_last_btns := btns }

/-! ## `enqueue_pot_keys` -/

/-- Conversion to `int16_t` (two's complement wrap). -/
def toInt16 (x : Int) : Int := (x + 32768) % 65536 - 32768

/-- Conversion to `int32_t` (two's complement wrap). -/
def toInt32 (x : Int) : Int := (x + 2147483648) % 4294967296 - 2147483648

/-- The corrected delta, lines 178-180: the difference of the two `uint16_t`
positions cast to `int16_t`, then the two wraparound corrections. -/
def pot_diff (cur last : Nat) : Int :=
  let diff := toInt16 ((cur : Int) - (last : Int))
  if diff > 512 then toInt16 (diff - 1024)
  else if diff < -512 then toInt16 (diff + 1024)
  else diff

/-- The step `threshold`. -/
def threshold : Int := 25

/-- The loop `while (pot_accumulator >= threshold)`; `fuel` bounds the number
of iterations. -/
def pot_up_loop : Nat → State → State
  | 0, s => s
  | fuel + 1, s =>
    if s.pot_accumulator ≥ threshold then
      let s1 := s.push KEY_POT_UP
      pot_up_loop fuel { s1 with pot_accumulator := s1.pot_accumulator - threshold }
    else s

/-- The loop `while (pot_accumulator <= -threshold)`; `fuel` bounds the number
of iterations. -/
def pot_down_loop : Nat → State → State
  | 0, s => s
  | fuel + 1, s =>
    if s.pot_accumulator ≤ -threshold then
      let s1 := s.push KEY_POT_DOWN
      pot_down_loop fuel { s1 with pot_accumulator := s1.pot_accumulator + threshold }
    else s

/-- The function `enqueue_pot_keys`. Each loop is run with the magnitude of the accumulator
on entry as fuel, which is more than the number of iterations it can make. -/
def enqueue_pot_keys (s : State) (buff : ui_data_t) : State :=
  let pos := buff.pot_positions.getD 0 0
  if !s.initialized then
    { s with last_position := pos, initialized := true }
  else
    let diff := pot_diff pos s.last_position
    let s1 := { s with pot_accumulator := toInt32 (s.pot_accumulator + diff) }
    let s2 := pot_up_loop s1.pot_accumulator.natAbs s1
    let s3 := pot_down_loop s2.pot_accumulator.natAbs s2
    { s3 with last_position := pos }

/-! ## Poll gate and public operations -/

/-- SDK error code `PICO_ERROR_TIMEOUT` (pico-sdk `pico/error.h`). -/
def PICO_ERROR_TIMEOUT : Int := -1

/-- SDK error code `PICO_ERROR_GENERIC` (pico-sdk `pico/error.h`). -/
def PICO_ERROR_GENERIC : Int := -2

/-- Conversion to `int64_t` (two's complement wrap). -/
def toInt64 (x : Int) : Int := (x + 2 ^ 63) % 2 ^ 64 - 2 ^ 63

/-- SDK `absolute_time_diff_us(from, to)`: the signed difference of two
microsecond timestamps. -/
def absolute_time_diff_us (t_from t_to : Nat) : Int :=
  toInt64 ((t_to : Int) - (t_from : Int))

/-- Lines 213-218 of `i2c_kbd_poll`: what a successful poll does with the
sample it has read (store the two latest masks, then the four decoders). -/
def decode_sample (s : State) (buf : ui_data_t) : State :=
  let s2 := { s with latest_mcl_btns := buf.mcl_btns,
                     latest_mcl_btns_long := buf.mcl_btns_long_press }
  let s3 := enqueue_direction_keys s2 buf
  let s4 := enqueue_function_keys s3 buf
  let s5 := enqueue_pager_keys s4 buf
  enqueue_pot_keys s5 buf

/-- The function `i2c_kbd_poll`. The environment supplies `now` (the value returned by
`get_absolute_time()`), `retval` (the return value of `i2c_read_timeout_us`) and
`buf` (the buffer contents after the read); the last two are only looked at on
the path that performs the read. -/
def i2c_kbd_poll (s : State) (now : Nat) (retval : Int) (buf : ui_data_t) : State :=
  if s.i2c_inited = 0 then s
  else if absolute_time_diff_us s.last_poll_time now < 2500 then s
  else if retval = PICO_ERROR_GENERIC ∨ retval = PICO_ERROR_TIMEOUT then s
  else decode_sample { s with last_poll_time := now } buf

/-- The function `get_key_from_queue`: poll, then pop. -/
def get_key_from_queue (s : State) (now : Nat) (retval : Int) (buf : ui_data_t) :
    keycode_t × State :=
  (i2c_kbd_poll s now retval buf).pop

/-- The function `init_i2c_kbd`: of the decoder statics only `i2c_inited` is written. -/
def init_i2c_kbd (s : State) : State :=
  { s with i2c_inited := 1 }

/-- The function `deinit_i2c_kbd`. -/
def deinit_i2c_kbd (s : State) : State :=
  if s.i2c_inited = 0 then s else { s with i2c_inited := 0 }

/-- The function `read_i2c_kbd`: `key == KEY_NONE ? -1 : key`. -/
def read_i2c_kbd (s : State) (now : Nat) (retval : Int) (buf : ui_data_t) : Int × State :=
  let r := get_key_from_queue s now retval buf
  (if r.1 = KEY_NONE then -1 else r.1, r.2)

/-- The function `i2c_kbd_get_mcl_state` with both pointers non-null: poll, then report the
two latest masks. -/
def i2c_kbd_get_mcl_state (s : State) (now : Nat) (retval : Int) (buf : ui_data_t) :
    (Nat × Nat) × State :=
  let s1 := i2c_kbd_poll s now retval buf
  ((s1.latest_mcl_btns, s1.latest_mcl_btns_long), s1)

/-- States the program can be in: static initialisation followed by any
sequence of `init_i2c_kbd`, `deinit_i2c_kbd`, `i2c_kbd_poll` (any time, any bus
outcome, any sample) and `queue_pop` calls. -/
inductive Reachable : State → Prop
  | start : Reachable State.init
  | init_kbd (s : State) : Reachable s → Reachable (init_i2c_kbd s)
  | deinit_kbd (s : State) : Reachable s → Reachable (deinit_i2c_kbd s)
  | poll (s : State) (now : Nat) (retval : Int) (buf : ui_data_t) :
      Reachable s → Reachable (i2c_kbd_poll s now retval buf)
  | pop (s : State) : Reachable s → Reachable s.pop.2

/-- A sample with the given masks and channel-0 position, all other fields zero. -/
def mkSample (btns long_btns long_fn pos0 : Nat) : ui_data_t :=
  { pot_adc_values := List.replicate 8 0, pot_positions := [pos0, 0, 0, 0],
    pot_states := [0, 0, 0, 0], d_btns := 0, d_btns_long_press := 0,
    f_btns := 0, f_btns_long_press := long_fn, mcl_btns := btns,
    mcl_btns_long_press := long_btns, accelerometer := [0, 0, 0], systicks := 0 }

/-! ## Event lists of one decode pass

Closed forms of what each `enqueue_*` function passes to `queue_push`; the
lemmas `enqueue_*_eq` below prove that the functions above push exactly these. -/

/-- The state after `queue_push` calls with the keys `ks`, in order. -/
def State.pushes (s : State) (ks : List keycode_t) : State :=
  { s with queue := pushAll s.queue ks, pushed := s.pushed ++ ks }

/-- Concatenation of the event lists `f a` for `a` running through a list. -/
def eventsOf {α : Type} (f : α → List keycode_t) : List α → List keycode_t
  | [] => []
  | a :: l => f a ++ eventsOf f l

/-- Keys pushed by one iteration of the edge loop. -/
def edge_events (btns long_btns last_btns last_long : Nat) (m : DirMap) : List keycode_t :=
  (if bit_set btns m.bit && !bit_set last_btns m.bit then [m.key] else []) ++
  (if bit_set long_btns m.bit && !bit_set last_long m.bit then [m.key] else [])

/-- Counter value left by one iteration of the auto-repeat loop. -/
def repeat_tick (is_long : Bool) (t : Nat) : Nat :=
  if is_long then (if (t + 1) % 256 ≥ repeat_threshold then 0 else (t + 1) % 256) else 0

/-- Keys pushed by one iteration of the auto-repeat loop. -/
def repeat_events (is_long : Bool) (t idx : Nat) : List keycode_t :=
  if is_long && decide ((t + 1) % 256 ≥ repeat_threshold) then
    [(mapping.getD idx default).fast_key] else []

/-- Keys pushed by `enqueue_direction_keys`. -/
def direction_events (s : State) (buff : ui_data_t) : List keycode_t :=
  eventsOf (edge_events buff.mcl_btns buff.mcl_btns_long_press
    s.dir_last_btns s.dir_last_long) mapping
  ++ eventsOf (fun idx => repeat_events (bit_set buff.mcl_btns_long_press idx)
    (s.repeat_ticks.getD idx 0) idx) [0, 1, 2, 3]

/-- Counters left by `enqueue_direction_keys`. -/
def direction_ticks (s : State) (buff : ui_data_t) : List Nat :=
  [0, 1, 2, 3].map (fun idx => repeat_tick (bit_set buff.mcl_btns_long_press idx)
    (s.repeat_ticks.getD idx 0))

/-- Keys pushed by `enqueue_function_keys`. -/
def function_events (s : State) (buff : ui_data_t) : List keycode_t :=
  if bit_set buff.f_btns_long_press 2 && !bit_set s.last_long_fn 2 then [KEY_ENTER] else []

/-- Keys pushed by `enqueue_pager_keys`. -/
def pager_events (s : State) (buff : ui_data_t) : List keycode_t :=
  (if bit_set buff.mcl_btns 3 && !bit_set s.pager_last_btns 3 then [KEY_PG_UP] else []) ++
  (if bit_set buff.mcl_btns 1 && !bit_set s.pager_last_btns 1 then [KEY_PG_DOWN] else [])

/-- Number of iterations of the loop `while (pot_accumulator >= threshold)`
entered with accumulator `acc`. -/
def pot_up_count (acc : Int) : Nat := (acc / 25).toNat

/-- Number of iterations of the loop `while (pot_accumulator <= -threshold)`
entered with accumulator `acc`. -/
def pot_down_count (acc : Int) : Nat := ((-acc) / 25).toNat

/-- Keys pushed by `enqueue_pot_keys`. -/
def pot_events (s : State) (buff : ui_data_t) : List keycode_t :=
  if !s.initialized then []
  else
    let a := toInt32 (s.pot_accumulator + pot_diff (buff.pot_positions.getD 0 0) s.last_position)
    let a2 := a - 25 * (pot_up_count a : Int)
    List.replicate (pot_up_count a) KEY_POT_UP ++ List.replicate (pot_down_count a2) KEY_POT_DOWN

/-- Accumulator left by `enqueue_pot_keys`. -/
def pot_acc_after (s : State) (buff : ui_data_t) : Int :=
  if !s.initialized then s.pot_accumulator
  else
    let a := toInt32 (s.pot_accumulator + pot_diff (buff.pot_positions.getD 0 0) s.last_position)
    let a2 := a - 25 * (pot_up_count a : Int)
    a2 + 25 * (pot_down_count a2 : Int)

/-- Keys pushed by one decode pass, in call order. -/
def decode_events (s : State) (buf : ui_data_t) : List keycode_t :=
  direction_events s buf ++ function_events s buf ++ pager_events s buf ++ pot_events s buf

/-- The invariant of reachable states used below: array sizes and index
ranges, both `last_btns` histories equal, the accumulator strictly inside
(-25, 25), and only key codes other than `KEY_NONE` pending and pushed. -/
def State.Inv (s : State) : Prop :=
  s.queue.WF ∧ s.repeat_ticks.length = 4
  ∧ s.pager_last_btns = s.dir_last_btns
  ∧ (-25 < s.pot_accumulator ∧ s.pot_accumulator < 25)
  ∧ (∀ k ∈ s.queue.pending, k ∈ nonNoneKeys)
  ∧ (∀ k ∈ s.pushed, k ∈ nonNoneKeys)

/-- Successive decode passes, one per sample of `bufs`, in order. -/
def decode_samples (s : State) (bufs : List ui_data_t) : State :=
  bufs.foldl decode_sample s

/-- A state used in examples: initialised, one all-zero sample decoded at time 2500. -/
def demoState : State :=
  i2c_kbd_poll (init_i2c_kbd State.init) 2500 38 (mkSample 0 0 0 0)

/-- Successive passes of `enqueue_pot_keys`, one per sample of `bufs`, in order. -/
def pot_passes (s : State) (bufs : List ui_data_t) : State :=
  bufs.foldl enqueue_pot_keys s

/-- The corrected deltas computed by successive passes over `bufs` when the
recorded position before the first of them is `last`. -/
def pot_deltas (last : Nat) : List ui_data_t → List Int
  | [] => []
  | buf :: bufs =>
    pot_diff (buf.pot_positions.getD 0 0) last :: pot_deltas (buf.pot_positions.getD 0 0) bufs

/-- The function `i2c_kbd_poll` with a flag telling whether control reached the
call of `i2c_read_timeout_us` (line 207). -/
def i2c_kbd_poll_traced (s : State) (now : Nat) (retval : Int) (buf : ui_data_t) :
    State × Bool :=
  if s.i2c_inited = 0 then (s, false)
  else if absolute_time_diff_us s.last_poll_time now < 2500 then (s, false)
  else if retval = PICO_ERROR_GENERIC ∨ retval = PICO_ERROR_TIMEOUT then (s, true)
  else (decode_sample { s with last_poll_time := now } buf, true)

/-- The function `i2c_kbd_poll` run against a clock: `clock` is the time at
which the function is entered (the value `get_absolute_time()` returns on line
202) and `read_us` is the time for which the call of `i2c_read_timeout_us`
blocks. The result is the new state and the time at which the read, when it is
reached, has completed. -/
def i2c_kbd_poll_clocked (s : State) (clock read_us : Nat) (retval : Int) (buf : ui_data_t) :
    State × Nat :=
  if s.i2c_inited = 0 then (s, clock)
  else
    let now := clock
    if absolute_time_diff_us s.last_poll_time now < 2500 then (s, clock)
    else
      let done := clock + read_us
      if retval = PICO_ERROR_GENERIC ∨ retval = PICO_ERROR_TIMEOUT then (s, done)
      else (decode_sample { s with last_poll_time := now } buf, done)

/-- Specification side of the refinement: a list that keeps the 7 most recent
events. A key at or below `KEY_NONE` is ignored; otherwise it is appended and
the oldest events beyond the last 7 are dropped. -/
def bounded_push (l : List keycode_t) (k : keycode_t) : List keycode_t :=
  if k ≤ KEY_NONE then l else (l ++ [k]).drop ((l ++ [k]).length - 7)

/-- The bounded list after the keys `ks` in order, starting from `l`. -/
def bounded_pushAll (l : List keycode_t) (ks : List keycode_t) : List keycode_t :=
  ks.foldl bounded_push l

/-- Calls of `queue_pop` until the queue is empty, at most `fuel` of them; the
keys returned, in order. -/
def pop_until_empty : Nat → Queue → List keycode_t
  | 0, _ => []
  | fuel + 1, q =>
    if queue_is_empty q then []
    else (queue_pop q).1 :: pop_until_empty fuel (queue_pop q).2

/-- Successive `read_i2c_kbd` calls, one per element of `calls` (time, bus
return value, buffer contents), in order: the values returned and the final
state. -/
def read_seq (s : State) : List (Nat × Int × ui_data_t) → List Int × State
  | [] => ([], s)
  | c :: rest =>
    let r := read_i2c_kbd s c.1 c.2.1 c.2.2
    let rr := read_seq r.2 rest
    (r.1 :: rr.1, rr.2)

/-! ## `ssd1309_draw_line` (`ssd1309.c`) -/

/-- The C library function `abs` on an `int`. -/
def c_abs (x : Int) : Int := if x < 0 then -x else x

/-- The loop `while (1)` of `ssd1309_draw_line`, with `dx`, `dy`, `sx`, `sy` as
computed before it and the current `x1`, `y1`, `err`. The result is the list of
points passed to `ssd1309_set_pixel`, in call order, when `break` is reached
within `fuel` iterations, and `none` otherwise. Updates of `int` variables wrap
to 32 bits. -/
def draw_line_loop (x2 y2 dx dy sx sy : Int) :
    Nat → Int → Int → Int → Option (List (Int × Int))
  | 0, _, _, _ => none
  | fuel + 1, x1, y1, err =>
    if x1 = x2 ∧ y1 = y2 then some [(x1, y1)]
    else
      let e2 := err
      let err1 := if e2 > -dx then toInt32 (err - dy) else err
      let x1n := if e2 > -dx then toInt32 (x1 + sx) else x1
      let err2 := if e2 < dy then toInt32 (err1 + dx) else err1
      let y1n := if e2 < dy then toInt32 (y1 + sy) else y1
      (draw_line_loop x2 y2 dx dy sx sy fuel x1n y1n err2).map (fun pts => (x1, y1) :: pts)

/-- The function `ssd1309_draw_line` (the colour is passed on unchanged and is
left out): the points passed to `ssd1309_set_pixel`, in call order. -/
def ssd1309_draw_line (fuel : Nat) (x1 y1 x2 y2 : Int) : Option (List (Int × Int)) :=
  let dx := c_abs (toInt32 (x2 - x1))
  let sx : Int := if x1 < x2 then 1 else -1
  let dy := c_abs (toInt32 (y2 - y1))
  let sy : Int := if y1 < y2 then 1 else -1
  let err := Int.tdiv (if dx > dy then dx else -dy) 2
  draw_line_loop x2 y2 dx dy sx sy fuel x1 y1 err

/-! ## Lemmas on the event queue -/

theorem and7_eq_mod (n : Nat) : n &&& 0x7 = n % 8 :=
  Nat.and_pow_two_sub_one_eq_mod n 3

theorem list_len8 {α : Type} (l : List α) (h : l.length = 8) :
    ∃ a0 a1 a2 a3 a4 a5 a6 a7, l = [a0, a1, a2, a3, a4, a5, a6, a7] := by
  match l, h with
  | [a0, a1, a2, a3, a4, a5, a6, a7], _ => exact ⟨a0, a1, a2, a3, a4, a5, a6, a7, rfl⟩

theorem Queue.init_WF : Queue.init.WF := by decide

theorem queue_push_WF (q : Queue) (k : keycode_t) (hq : q.WF) : (queue_push q k).WF := by
  obtain ⟨hl, hh, ht⟩ := hq
  unfold queue_push queue_is_full Queue.WF
  simp only [and7_eq_mod]
  split
  · exact ⟨hl, hh, ht⟩
  · split <;> simp [hl] <;> omega

theorem queue_pop_WF (q : Queue) (hq : q.WF) : (queue_pop q).2.WF := by
  obtain ⟨hl, hh, ht⟩ := hq
  unfold queue_pop Queue.WF
  simp only [and7_eq_mod]
  split
  · exact ⟨hl, hh, ht⟩
  · simp [hl, hh]; omega

theorem Queue.size_le (q : Queue) : q.size ≤ 7 := by
  unfold Queue.size; omega

theorem Queue.pending_length (q : Queue) : q.pending.length = q.size := by
  simp [Queue.pending]

theorem queue_is_full_iff (q : Queue) (hq : q.WF) : queue_is_full q = true ↔ q.size = 7 := by
  obtain ⟨_, hh, ht⟩ := hq
  simp only [queue_is_full, and7_eq_mod, Queue.size, beq_iff_eq]
  omega

theorem queue_is_empty_iff (q : Queue) (hq : q.WF) : queue_is_empty q = true ↔ q.size = 0 := by
  obtain ⟨_, hh, ht⟩ := hq
  simp only [queue_is_empty, Queue.size, beq_iff_eq]
  omega

theorem queue_push_none (q : Queue) (k : keycode_t) (hk : k ≤ KEY_NONE) : queue_push q k = q := by
  simp [queue_push, hk]

/-- Pushing a key above `KEY_NONE` onto a queue that is not full appends it. -/
theorem pending_push_of_not_full (q : Queue) (k : keycode_t) (hq : q.WF)
    (hk : KEY_NONE < k) (hf : queue_is_full q = false) :
    (queue_push q k).pending = q.pending ++ [k] := by
  obtain ⟨keys, h, t⟩ := q
  obtain ⟨hl, hh, ht⟩ := hq
  simp only at hl hh ht
  obtain ⟨a0, a1, a2, a3, a4, a5, a6, a7, rfl⟩ := list_len8 keys hl
  have hk2 : ¬ k ≤ KEY_NONE := not_le.mpr hk
  simp only [queue_push, if_neg hk2, hf, Queue.pending, Queue.size, and7_eq_mod]
  simp only [queue_is_full, and7_eq_mod] at hf
  interval_cases h <;> interval_cases t <;>
    first
    | (exfalso; revert hf; decide)
    | simp [List.range, List.range.loop]

/-- Pushing a key above `KEY_NONE` onto a full queue drops the oldest pending
event and appends the key. -/
theorem pending_push_of_full (q : Queue) (k : keycode_t) (hq : q.WF)
    (hk : KEY_NONE < k) (hf : queue_is_full q = true) :
    (queue_push q k).pending = q.pending.tail ++ [k] := by
  obtain ⟨keys, h, t⟩ := q
  obtain ⟨hl, hh, ht⟩ := hq
  simp only at hl hh ht
  obtain ⟨a0, a1, a2, a3, a4, a5, a6, a7, rfl⟩ := list_len8 keys hl
  have hk2 : ¬ k ≤ KEY_NONE := not_le.mpr hk
  simp only [queue_push, if_neg hk2, hf, Queue.pending, Queue.size, and7_eq_mod]
  simp only [queue_is_full, and7_eq_mod] at hf
  interval_cases h <;> interval_cases t <;>
    first
    | (exfalso; revert hf; decide)
    | simp [List.range, List.range.loop]

/-- A pop from a non-empty queue returns the first pending event and leaves the rest. -/
theorem pending_pop_of_not_empty (q : Queue) (hq : q.WF) (he : queue_is_empty q = false) :
    q.pending = (queue_pop q).1 :: (queue_pop q).2.pending := by
  obtain ⟨keys, h, t⟩ := q
  obtain ⟨hl, hh, ht⟩ := hq
  simp only at hl hh ht
  obtain ⟨a0, a1, a2, a3, a4, a5, a6, a7, rfl⟩ := list_len8 keys hl
  simp only [queue_pop, he, Queue.pending, Queue.size, and7_eq_mod]
  simp only [queue_is_empty] at he
  interval_cases h <;> interval_cases t <;>
    first
    | (exfalso; revert he; decide)
    | simp [List.range, List.range.loop]

theorem pushAll_WF (ks : List keycode_t) (q : Queue) (hq : q.WF) : (pushAll q ks).WF := by
  induction ks generalizing q with
  | nil => exact hq
  | cons k ks ih => exact ih (queue_push q k) (queue_push_WF q k hq)

/-- While there is room, pushed keys are appended to the pending events. -/
theorem pushAll_pending_of_room (ks : List keycode_t) (q : Queue) (hq : q.WF)
    (hk : ∀ k ∈ ks, KEY_NONE < k) (hroom : q.size + ks.length ≤ 7) :
    (pushAll q ks).pending = q.pending ++ ks := by
  induction ks generalizing q with
  | nil => simp [pushAll]
  | cons k ks ih =>
    have hnf : queue_is_full q = false := by
      cases hf : queue_is_full q with
      | false => rfl
      | true =>
        have := (queue_is_full_iff q hq).mp hf
        simp only [List.length_cons] at hroom
        omega
    have hp := pending_push_of_not_full q k hq (hk k (List.mem_cons_self k ks)) hnf
    have hsz : (queue_push q k).size = q.size + 1 := by
      rw [← Queue.pending_length, hp, List.length_append, Queue.pending_length]
      rfl
    have hroom2 : (queue_push q k).size + ks.length ≤ 7 := by
      simp only [List.length_cons] at hroom
      omega
    have := ih (queue_push q k) (queue_push_WF q k hq)
      (fun x hx => hk x (List.mem_cons_of_mem k hx)) hroom2
    simp only [pushAll, List.foldl_cons] at this ⊢
    rw [this, hp, List.append_assoc]
    rfl

/-- Popping as many times as there are pending events returns them in order. -/
theorem popN_pending (n : Nat) (q : Queue) (hq : q.WF) (hn : q.size = n) :
    (popN n q).1 = q.pending := by
  induction n generalizing q with
  | zero =>
    have : q.pending.length = 0 := by rw [Queue.pending_length, hn]
    simp [popN, List.length_eq_zero.mp this]
  | succ n ih =>
    have hne : queue_is_empty q = false := by
      cases he : queue_is_empty q with
      | false => rfl
      | true =>
        have := (queue_is_empty_iff q hq).mp he
        omega
    have hp := pending_pop_of_not_empty q hq hne
    have hsz : (queue_pop q).2.size = n := by
      have h1 : q.pending.length = n + 1 := by rw [Queue.pending_length, hn]
      rw [hp, List.length_cons, Queue.pending_length] at h1
      omega
    have := ih (queue_pop q).2 (queue_pop_WF q hq) hsz
    simp only [popN]
    rw [this, hp]

theorem Queue.init_pending : Queue.init.pending = [] := by decide

theorem Queue.init_size : Queue.init.size = 0 := by decide

/-! ## C1: FIFO order and capacity -/

/-- C1 (as stated, refuted): eight accepted key codes pushed onto the empty queue
are not all returned by eight pops. The first code is dropped by the eighth
push and the eighth pop finds the queue empty. -/
theorem C1_eight_pushes_drop_first :
    (popN 8 (pushAll Queue.init
        [KEY_LEFT, KEY_RIGHT, KEY_DOWN, KEY_UP, KEY_FIRE_A, KEY_FIRE_B, KEY_ENTER, KEY_PG_UP])).1
      = [KEY_RIGHT, KEY_DOWN, KEY_UP, KEY_FIRE_A, KEY_FIRE_B, KEY_ENTER, KEY_PG_UP, KEY_NONE]
    ∧ ¬ (∀ ks : List keycode_t, ks.length ≤ 8 → (∀ k ∈ ks, KEY_NONE < k) →
          (popN ks.length (pushAll Queue.init ks)).1 = ks) := by
  refine ⟨by decide, fun h => ?_⟩
  have := h [KEY_LEFT, KEY_RIGHT, KEY_DOWN, KEY_UP, KEY_FIRE_A, KEY_FIRE_B, KEY_ENTER, KEY_PG_UP]
    (by decide) (by decide)
  revert this
  decide

/-- C1 (amended): for every list of at most 7 key codes above `KEY_NONE` pushed
with `queue_push` onto the empty queue, as many `queue_pop` calls return exactly
those codes in push order. -/
theorem C1_fifo_up_to_seven (ks : List keycode_t) (hlen : ks.length ≤ 7)
    (hk : ∀ k ∈ ks, KEY_NONE < k) :
    (popN ks.length (pushAll Queue.init ks)).1 = ks := by
  have hp := pushAll_pending_of_room ks Queue.init Queue.init_WF hk
    (by rw [Queue.init_size]; omega)
  rw [Queue.init_pending, List.nil_append] at hp
  have hsz : (pushAll Queue.init ks).size = ks.length := by
    rw [← Queue.pending_length, hp]
  rw [popN_pending ks.length _ (pushAll_WF ks _ Queue.init_WF) hsz, hp]

theorem C1_fifo_up_to_seven_witness :
    [KEY_LEFT, KEY_ENTER, KEY_POT_UP, KEY_LEFT, KEY_UP_FAST, KEY_FIRE_B, KEY_PG_DOWN].length ≤ 7
    ∧ (∀ k ∈ [KEY_LEFT, KEY_ENTER, KEY_POT_UP, KEY_LEFT, KEY_UP_FAST, KEY_FIRE_B, KEY_PG_DOWN],
        KEY_NONE < k)
    ∧ (popN 7 (pushAll Queue.init
        [KEY_LEFT, KEY_ENTER, KEY_POT_UP, KEY_LEFT, KEY_UP_FAST, KEY_FIRE_B, KEY_PG_DOWN])).1
      = [KEY_LEFT, KEY_ENTER, KEY_POT_UP, KEY_LEFT, KEY_UP_FAST, KEY_FIRE_B, KEY_PG_DOWN] :=
  ⟨by decide, by decide,
   C1_fifo_up_to_seven
     [KEY_LEFT, KEY_ENTER, KEY_POT_UP, KEY_LEFT, KEY_UP_FAST, KEY_FIRE_B, KEY_PG_DOWN]
     (by decide) (by decide)⟩

/-! ## C2: capacity invariant and drop-oldest -/

/-- C2: after any sequence of `queue_push` calls from the empty queue the number
of pending events is at most 8, and a `queue_push` of a key above `KEY_NONE`
onto a queue for which `queue_is_full` holds leaves the old pending sequence
without its first element, followed by the new key. -/
theorem C2_capacity_and_drop_oldest (ks : List keycode_t) (q : Queue) (k : keycode_t)
    (hq : q.WF) (hfull : queue_is_full q = true) (hk : KEY_NONE < k) :
    (pushAll Queue.init ks).pending.length ≤ 8
    ∧ (queue_push q k).pending = q.pending.tail ++ [k] := by
  refine ⟨?_, pending_push_of_full q k hq hk hfull⟩
  rw [Queue.pending_length]
  have := Queue.size_le (pushAll Queue.init ks)
  omega

theorem C2_capacity_and_drop_oldest_witness :
    (pushAll Queue.init
      [KEY_LEFT, KEY_RIGHT, KEY_DOWN, KEY_UP, KEY_FIRE_A, KEY_FIRE_B, KEY_ENTER]).WF
    ∧ queue_is_full (pushAll Queue.init
      [KEY_LEFT, KEY_RIGHT, KEY_DOWN, KEY_UP, KEY_FIRE_A, KEY_FIRE_B, KEY_ENTER]) = true
    ∧ KEY_NONE < KEY_PG_UP
    ∧ (pushAll Queue.init [KEY_LEFT, KEY_NONE, KEY_UP]).pending.length ≤ 8
    ∧ (queue_push (pushAll Queue.init
        [KEY_LEFT, KEY_RIGHT, KEY_DOWN, KEY_UP, KEY_FIRE_A, KEY_FIRE_B, KEY_ENTER])
        KEY_PG_UP).pending
      = (pushAll Queue.init
        [KEY_LEFT, KEY_RIGHT, KEY_DOWN, KEY_UP, KEY_FIRE_A, KEY_FIRE_B, KEY_ENTER]).pending.tail
        ++ [KEY_PG_UP] :=
  ⟨by decide, by decide, by decide,
   C2_capacity_and_drop_oldest [KEY_LEFT, KEY_NONE, KEY_UP]
     (pushAll Queue.init
       [KEY_LEFT, KEY_RIGHT, KEY_DOWN, KEY_UP, KEY_FIRE_A, KEY_FIRE_B, KEY_ENTER])
     KEY_PG_UP (by decide) (by decide) (by decide)⟩

/-! ## C3: `queue_pop` -/

/-- C3: on an empty queue `queue_pop` returns `KEY_NONE` and leaves the state
unchanged; otherwise it returns the oldest pending event and the pending events
afterwards are the remaining ones in the same order. -/
theorem C3_pop (q : Queue) (hq : q.WF) :
    (queue_is_empty q = true ↔ q.pending = [])
    ∧ (queue_is_empty q = true → queue_pop q = (KEY_NONE, q))
    ∧ (queue_is_empty q = false →
        ∃ x rest, q.pending = x :: rest ∧ (queue_pop q).1 = x
          ∧ (queue_pop q).2.pending = rest
          ∧ (queue_pop q).2.queued_keys = q.queued_keys
          ∧ (queue_pop q).2.queue_head = q.queue_head) := by
  refine ⟨?_, ?_, ?_⟩
  · rw [queue_is_empty_iff q hq, ← Queue.pending_length, List.length_eq_zero]
  · intro he
    simp [queue_pop, he]
  · intro he
    refine ⟨(queue_pop q).1, (queue_pop q).2.pending,
      pending_pop_of_not_empty q hq he, rfl, rfl, ?_, ?_⟩ <;> simp [queue_pop, he]

theorem C3_pop_witness :
    (pushAll Queue.init [KEY_LEFT, KEY_UP]).WF
    ∧ ((queue_is_empty (pushAll Queue.init [KEY_LEFT, KEY_UP]) = true
          ↔ (pushAll Queue.init [KEY_LEFT, KEY_UP]).pending = [])
      ∧ (queue_is_empty (pushAll Queue.init [KEY_LEFT, KEY_UP]) = true →
          queue_pop (pushAll Queue.init [KEY_LEFT, KEY_UP])
            = (KEY_NONE, pushAll Queue.init [KEY_LEFT, KEY_UP]))
      ∧ (queue_is_empty (pushAll Queue.init [KEY_LEFT, KEY_UP]) = false →
          ∃ x rest, (pushAll Queue.init [KEY_LEFT, KEY_UP]).pending = x :: rest
            ∧ (queue_pop (pushAll Queue.init [KEY_LEFT, KEY_UP])).1 = x
            ∧ (queue_pop (pushAll Queue.init [KEY_LEFT, KEY_UP])).2.pending = rest
            ∧ (queue_pop (pushAll Queue.init [KEY_LEFT, KEY_UP])).2.queued_keys
                = (pushAll Queue.init [KEY_LEFT, KEY_UP]).queued_keys
            ∧ (queue_pop (pushAll Queue.init [KEY_LEFT, KEY_UP])).2.queue_head
                = (pushAll Queue.init [KEY_LEFT, KEY_UP]).queue_head)) :=
  ⟨by decide, C3_pop (pushAll Queue.init [KEY_LEFT, KEY_UP]) (by decide)⟩

/-! ## Lemmas on the decoder -/

theorem State.push_eq_pushes (s : State) (k : keycode_t) : s.push k = s.pushes [k] := rfl

theorem State.pushes_nil (s : State) : s.pushes [] = s := by
  cases s; simp [State.pushes, pushAll]

theorem State.pushes_pushes (s : State) (a b : List keycode_t) :
    (s.pushes a).pushes b = s.pushes (a ++ b) := by
  simp [State.pushes, pushAll, List.foldl_append]

theorem State.ite_push (s : State) (c : Bool) (k : keycode_t) :
    (if c = true then s.push k else s) = s.pushes (if c = true then [k] else []) := by
  cases c
  · simp [State.pushes_nil]
  · simp [State.push_eq_pushes]

theorem direction_edge_step_eq (btns long_btns : Nat) (s : State) (m : DirMap) :
    direction_edge_step btns long_btns s m
      = s.pushes (edge_events btns long_btns s.dir_last_btns s.dir_last_long m) := by
  simp only [direction_edge_step, edge_events, State.ite_push, State.pushes_pushes]
  rfl

theorem edge_loop_eq (btns long_btns : Nat) (l : List DirMap) (s : State) :
    l.foldl (direction_edge_step btns long_btns) s
      = s.pushes (eventsOf (edge_events btns long_btns s.dir_last_btns s.dir_last_long) l) := by
  induction l generalizing s with
  | nil => simp [eventsOf, State.pushes_nil]
  | cons m l ih =>
    rw [List.foldl_cons, direction_edge_step_eq, ih, State.pushes_pushes]
    rfl

theorem direction_repeat_step_eq (long_btns : Nat) (s : State) (idx : Nat) :
    direction_repeat_step long_btns s idx
      = { s.pushes (repeat_events (bit_set long_btns idx) (s.repeat_ticks.getD idx 0) idx) with
          repeat_ticks := s.repeat_ticks.set idx
            (repeat_tick (bit_set long_btns idx) (s.repeat_ticks.getD idx 0)) } := by
  simp only [direction_repeat_step, repeat_events, repeat_tick, ge_iff_le]
  generalize s.repeat_ticks.getD idx 0 = t
  cases bit_set long_btns idx
  · simp [State.pushes_nil]
  · by_cases h : repeat_threshold ≤ (t + 1) % 256
    · simp [h, State.push_eq_pushes, State.pushes, List.set_set]
    · simp [h, State.pushes_nil]

theorem list_len4 {α : Type} (l : List α) (h : l.length = 4) :
    ∃ a0 a1 a2 a3, l = [a0, a1, a2, a3] := by
  match l, h with
  | [a0, a1, a2, a3], _ => exact ⟨a0, a1, a2, a3, rfl⟩

/-- The function `enqueue_direction_keys` pushes `direction_events`, leaves `direction_ticks`
in the counters and stores the two masks. -/
theorem enqueue_direction_keys_eq (s : State) (buff : ui_data_t)
    (hlen : s.repeat_ticks.length = 4) :
    enqueue_direction_keys s buff
      = { s.pushes (direction_events s buff) with
          repeat_ticks := direction_ticks s buff
          dir_last_btns := buff.mcl_btns
          dir_last_long := buff.mcl_btns_long_press } := by
  obtain ⟨t0, t1, t2, t3, ht⟩ := list_len4 s.repeat_ticks hlen
  have hr : List.range 4 = [0, 1, 2, 3] := by decide
  unfold enqueue_direction_keys direction_events direction_ticks
  simp only [edge_loop_eq, hr, List.foldl_cons, List.foldl_nil, direction_repeat_step_eq]
  simp [State.pushes, pushAll, ht, eventsOf, List.foldl_append]

theorem enqueue_function_keys_eq (s : State) (buff : ui_data_t) :
    enqueue_function_keys s buff
      = { s.pushes (function_events s buff) with last_long_fn := buff.f_btns_long_press } := by
  simp only [enqueue_function_keys, fn_mapping, List.foldl_cons, List.foldl_nil, function_step,
    State.ite_push, function_events]

theorem enqueue_pager_keys_eq (s : State) (buff : ui_data_t) :
    enqueue_pager_keys s buff
      = { s.pushes (pager_events s buff) with pager_last_btns := buff.mcl_btns } := by
  simp only [enqueue_pager_keys, pager_map, List.foldl_cons, List.foldl_nil, pager_step,
    State.ite_push, pager_events, State.pushes_pushes]
  rfl

theorem State.pushes_cons (s : State) (k : keycode_t) (ks : List keycode_t) :
    s.pushes (k :: ks) = (s.push k).pushes ks := by
  rw [State.push_eq_pushes, State.pushes_pushes]
  rfl

/-- The first loop of `enqueue_pot_keys` leaves by its condition when the fuel
exceeds `pot_accumulator / 25`, after `pot_up_count` iterations. -/
theorem pot_up_loop_eq (fuel : Nat) (s : State)
    (h : s.pot_accumulator < 25 * ((fuel : Int) + 1)) :
    pot_up_loop fuel s
      = { s.pushes (List.replicate (pot_up_count s.pot_accumulator) KEY_POT_UP) with
          pot_accumulator := s.pot_accumulator - 25 * (pot_up_count s.pot_accumulator : Int) } := by
  induction fuel generalizing s with
  | zero =>
    have h0 : pot_up_count s.pot_accumulator = 0 := by
      unfold pot_up_count; omega
    simp [pot_up_loop, h0, State.pushes_nil]
  | succ fuel ih =>
    by_cases hc : s.pot_accumulator ≥ threshold
    · have hc2 : (25 : Int) ≤ s.pot_accumulator := hc
      have hn : pot_up_count s.pot_accumulator = pot_up_count (s.pot_accumulator - 25) + 1 := by
        unfold pot_up_count; omega
      simp only [pot_up_loop, if_pos hc]
      rw [ih]
      · rw [hn, List.replicate_succ, State.pushes_cons]
        apply State.ext <;> simp [State.pushes, State.push, threshold]
        omega
      · simp only [State.push, threshold]
        push_cast at h ⊢
        omega
    · have hc2 : s.pot_accumulator < 25 := not_le.mp hc
      have h0 : pot_up_count s.pot_accumulator = 0 := by
        unfold pot_up_count; omega
      simp [pot_up_loop, hc, h0, State.pushes_nil]

/-- The second loop of `enqueue_pot_keys` leaves by its condition when the fuel
exceeds `-pot_accumulator / 25`, after `pot_down_count` iterations. -/
theorem pot_down_loop_eq (fuel : Nat) (s : State)
    (h : -s.pot_accumulator < 25 * ((fuel : Int) + 1)) :
    pot_down_loop fuel s
      = { s.pushes (List.replicate (pot_down_count s.pot_accumulator) KEY_POT_DOWN) with
          pot_accumulator :=
            s.pot_accumulator + 25 * (pot_down_count s.pot_accumulator : Int) } := by
  induction fuel generalizing s with
  | zero =>
    have h0 : pot_down_count s.pot_accumulator = 0 := by
      unfold pot_down_count; omega
    simp [pot_down_loop, h0, State.pushes_nil]
  | succ fuel ih =>
    by_cases hc : s.pot_accumulator ≤ -threshold
    · have hc2 : s.pot_accumulator ≤ -25 := hc
      have hn : pot_down_count s.pot_accumulator
          = pot_down_count (s.pot_accumulator + 25) + 1 := by
        unfold pot_down_count; omega
      simp only [pot_down_loop, if_pos hc]
      rw [ih]
      · rw [hn, List.replicate_succ, State.pushes_cons]
        apply State.ext <;> simp [State.pushes, State.push, threshold]
        omega
      · simp only [State.push, threshold]
        push_cast at h ⊢
        omega
    · have hc2 : -25 < s.pot_accumulator := not_le.mp hc
      have h0 : pot_down_count s.pot_accumulator = 0 := by
        unfold pot_down_count; omega
      simp [pot_down_loop, hc, h0, State.pushes_nil]

/-- The function `enqueue_pot_keys` pushes `pot_events`, leaves `pot_acc_after` in the
accumulator, records the position and sets `initialized`. -/
theorem enqueue_pot_keys_eq (s : State) (buff : ui_data_t) :
    enqueue_pot_keys s buff
      = { s.pushes (pot_events s buff) with
          pot_accumulator := pot_acc_after s buff
          last_position := buff.pot_positions.getD 0 0
          initialized := true } := by
  unfold enqueue_pot_keys pot_events pot_acc_after
  cases hi : s.initialized
  · simp [State.pushes_nil]
  · simp only [Bool.not_true, Bool.false_eq_true, if_false]
    rw [pot_up_loop_eq _ _ (by dsimp only; omega)]
    rw [pot_down_loop_eq _ _ (by dsimp only; omega)]
    apply State.ext <;> simp [State.pushes, pushAll, List.foldl_append, hi]

/-- One decode pass pushes `decode_events` and rewrites the histories. -/
theorem decode_sample_eq (s : State) (buf : ui_data_t) (hlen : s.repeat_ticks.length = 4) :
    decode_sample s buf
      = { s.pushes (decode_events s buf) with
          latest_mcl_btns := buf.mcl_btns
          latest_mcl_btns_long := buf.mcl_btns_long_press
          repeat_ticks := direction_ticks s buf
          dir_last_btns := buf.mcl_btns
          dir_last_long := buf.mcl_btns_long_press
          last_long_fn := buf.f_btns_long_press
          pager_last_btns := buf.mcl_btns
          pot_accumulator := pot_acc_after s buf
          last_position := buf.pot_positions.getD 0 0
          initialized := true } := by
  unfold decode_sample
  simp only []
  rw [enqueue_direction_keys_eq
      { s with latest_mcl_btns := buf.mcl_btns,
               latest_mcl_btns_long := buf.mcl_btns_long_press } buf hlen,
    enqueue_function_keys_eq, enqueue_pager_keys_eq, enqueue_pot_keys_eq]
  apply State.ext <;>
    simp [State.pushes, pushAll, List.foldl_append, decode_events, direction_events,
      function_events, pager_events, pot_events, pot_acc_after, direction_ticks]

theorem i2c_kbd_poll_success (s : State) (now : Nat) (retval : Int) (buf : ui_data_t)
    (hinit : s.i2c_inited ≠ 0) (hgate : 2500 ≤ absolute_time_diff_us s.last_poll_time now)
    (hok : retval ≠ PICO_ERROR_GENERIC ∧ retval ≠ PICO_ERROR_TIMEOUT) :
    i2c_kbd_poll s now retval buf = decode_sample { s with last_poll_time := now } buf := by
  unfold i2c_kbd_poll
  rw [if_neg hinit, if_neg (not_lt.mpr hgate), if_neg (by tauto)]

theorem i2c_kbd_poll_cases (s : State) (now : Nat) (retval : Int) (buf : ui_data_t) :
    i2c_kbd_poll s now retval buf = s
    ∨ i2c_kbd_poll s now retval buf = decode_sample { s with last_poll_time := now } buf := by
  unfold i2c_kbd_poll
  split
  · exact Or.inl rfl
  · split
    · exact Or.inl rfl
    · split
      · exact Or.inl rfl
      · exact Or.inr rfl

theorem nonNoneKeys_gt (k : keycode_t) (h : k ∈ nonNoneKeys) : KEY_NONE < k := by
  revert k
  decide

theorem mem_eventsOf {α : Type} (f : α → List keycode_t) (l : List α) (x : keycode_t) :
    x ∈ eventsOf f l ↔ ∃ a ∈ l, x ∈ f a := by
  induction l with
  | nil => simp [eventsOf]
  | cons a l ih => simp [eventsOf, ih]

theorem mem_edge_events (btns long_btns last_btns last_long : Nat) (m : DirMap) (x : keycode_t)
    (h : x ∈ edge_events btns long_btns last_btns last_long m) : x = m.key := by
  unfold edge_events at h
  rw [List.mem_append] at h
  rcases h with h | h <;> split at h <;> simp_all

theorem mapping_key_mem : ∀ m ∈ mapping, m.key ∈ nonNoneKeys := by decide

theorem mapping_fast_key_mem :
    ∀ idx ∈ [0, 1, 2, 3], (mapping.getD idx default).fast_key ∈ nonNoneKeys := by decide

theorem direction_events_mem (s : State) (buff : ui_data_t) (x : keycode_t)
    (h : x ∈ direction_events s buff) : x ∈ nonNoneKeys := by
  unfold direction_events at h
  rw [List.mem_append, mem_eventsOf, mem_eventsOf] at h
  rcases h with ⟨m, hm, hx⟩ | ⟨idx, hidx, hx⟩
  · rw [mem_edge_events _ _ _ _ _ _ hx]
    exact mapping_key_mem m hm
  · unfold repeat_events at hx
    split at hx
    · rw [List.mem_singleton] at hx
      rw [hx]
      exact mapping_fast_key_mem idx hidx
    · simp at hx

theorem function_events_mem (s : State) (buff : ui_data_t) (x : keycode_t)
    (h : x ∈ function_events s buff) : x ∈ nonNoneKeys := by
  unfold function_events at h
  split at h
  · rw [List.mem_singleton] at h
    rw [h]
    decide
  · simp at h

theorem pager_events_mem (s : State) (buff : ui_data_t) (x : keycode_t)
    (h : x ∈ pager_events s buff) : x ∈ nonNoneKeys := by
  unfold pager_events at h
  rw [List.mem_append] at h
  rcases h with h | h <;> split at h
  · rw [List.mem_singleton] at h; rw [h]; decide
  · simp at h
  · rw [List.mem_singleton] at h; rw [h]; decide
  · simp at h

theorem pot_events_mem (s : State) (buff : ui_data_t) (x : keycode_t)
    (h : x ∈ pot_events s buff) : x ∈ nonNoneKeys := by
  unfold pot_events at h
  split at h
  · simp at h
  · simp only [List.mem_append, List.mem_replicate] at h
    rcases h with ⟨_, h⟩ | ⟨_, h⟩ <;> rw [h] <;> decide

theorem decode_events_mem (s : State) (buff : ui_data_t) (x : keycode_t)
    (h : x ∈ decode_events s buff) : x ∈ nonNoneKeys := by
  unfold decode_events at h
  simp only [List.mem_append] at h
  rcases h with ((h | h) | h) | h
  · exact direction_events_mem s buff x h
  · exact function_events_mem s buff x h
  · exact pager_events_mem s buff x h
  · exact pot_events_mem s buff x h

/-- Every event pending after a push was pending before or is the pushed key. -/
theorem queue_push_pending_mem (q : Queue) (k : keycode_t) (hq : q.WF) (x : keycode_t)
    (hx : x ∈ (queue_push q k).pending) : x ∈ q.pending ∨ x = k := by
  by_cases hk : k ≤ KEY_NONE
  · rw [queue_push_none q k hk] at hx
    exact Or.inl hx
  · have hk2 : KEY_NONE < k := not_le.mp hk
    cases hf : queue_is_full q with
    | false =>
      rw [pending_push_of_not_full q k hq hk2 hf] at hx
      simpa using hx
    | true =>
      rw [pending_push_of_full q k hq hk2 hf, List.mem_append, List.mem_singleton] at hx
      exact hx.imp_left List.mem_of_mem_tail

theorem pushAll_pending_mem (ks : List keycode_t) (q : Queue) (hq : q.WF) (x : keycode_t)
    (hx : x ∈ (pushAll q ks).pending) : x ∈ q.pending ∨ x ∈ ks := by
  induction ks generalizing q with
  | nil => exact Or.inl hx
  | cons k ks ih =>
    rcases ih (queue_push q k) (queue_push_WF q k hq) hx with h | h
    · rcases queue_push_pending_mem q k hq x h with h | h
      · exact Or.inl h
      · exact Or.inr (h ▸ List.mem_cons_self k ks)
    · exact Or.inr (List.mem_cons_of_mem k h)

theorem queue_pop_pending_mem (q : Queue) (hq : q.WF) (x : keycode_t)
    (hx : x ∈ (queue_pop q).2.pending) : x ∈ q.pending := by
  cases he : queue_is_empty q with
  | true =>
    have : queue_pop q = (KEY_NONE, q) := by simp [queue_pop, he]
    rw [this] at hx
    exact hx
  | false =>
    rw [pending_pop_of_not_empty q hq he]
    exact List.mem_cons_of_mem _ hx

/-- After the two loops the accumulator is strictly inside (-25, 25), whatever
the value the loops were entered with. -/
theorem pot_settle_bounds (a : Int) :
    -25 < a - 25 * (pot_up_count a : Int)
          + 25 * (pot_down_count (a - 25 * (pot_up_count a : Int)) : Int)
    ∧ a - 25 * (pot_up_count a : Int)
          + 25 * (pot_down_count (a - 25 * (pot_up_count a : Int)) : Int) < 25 := by
  unfold pot_up_count pot_down_count
  omega

theorem pot_acc_after_bounds (s : State) (buff : ui_data_t)
    (h : -25 < s.pot_accumulator ∧ s.pot_accumulator < 25) :
    -25 < pot_acc_after s buff ∧ pot_acc_after s buff < 25 := by
  unfold pot_acc_after
  split
  · exact h
  · exact pot_settle_bounds _

theorem State.init_Inv : State.init.Inv := by
  refine ⟨by decide, rfl, rfl, by decide, ?_, ?_⟩
  · intro k hk
    have : State.init.queue.pending = [] := by decide
    rw [this] at hk
    simp at hk
  · intro k hk
    simp [State.init] at hk

theorem State.pushes_Inv (s : State) (ks : List keycode_t) (hs : s.Inv)
    (hks : ∀ k ∈ ks, k ∈ nonNoneKeys) : (s.pushes ks).Inv := by
  obtain ⟨hq, hlen, hh, hacc, hpend, hpushed⟩ := hs
  refine ⟨pushAll_WF ks s.queue hq, hlen, hh, hacc, ?_, ?_⟩
  · intro k hk
    rcases pushAll_pending_mem ks s.queue hq k hk with h | h
    · exact hpend k h
    · exact hks k h
  · intro k hk
    simp only [State.pushes, List.mem_append] at hk
    rcases hk with h | h
    · exact hpushed k h
    · exact hks k h

theorem decode_sample_Inv (s : State) (buf : ui_data_t) (hs : s.Inv) :
    (decode_sample s buf).Inv := by
  have hp := State.pushes_Inv s (decode_events s buf) hs (decode_events_mem s buf)
  rw [decode_sample_eq s buf hs.2.1]
  obtain ⟨hq, _, _, _, hpend, hpushed⟩ := hp
  exact ⟨hq, rfl, rfl, pot_acc_after_bounds s buf hs.2.2.2.1, hpend, hpushed⟩

theorem i2c_kbd_poll_Inv (s : State) (now : Nat) (retval : Int) (buf : ui_data_t)
    (hs : s.Inv) : (i2c_kbd_poll s now retval buf).Inv := by
  rcases i2c_kbd_poll_cases s now retval buf with h | h
  · rw [h]; exact hs
  · rw [h]; exact decode_sample_Inv _ buf hs

theorem State.pop_Inv (s : State) (hs : s.Inv) : s.pop.2.Inv := by
  obtain ⟨hq, hlen, hh, hacc, hpend, hpushed⟩ := hs
  exact ⟨queue_pop_WF s.queue hq, hlen, hh, hacc,
    fun k hk => hpend k (queue_pop_pending_mem s.queue hq k hk), hpushed⟩

theorem deinit_i2c_kbd_Inv (s : State) (hs : s.Inv) : (deinit_i2c_kbd s).Inv := by
  unfold deinit_i2c_kbd
  split
  · exact hs
  · exact hs

/-- Every reachable state satisfies the invariant. -/
theorem Reachable.inv {s : State} (h : Reachable s) : s.Inv := by
  induction h with
  | start => exact State.init_Inv
  | init_kbd s _ ih => exact ih
  | deinit_kbd s _ ih => exact deinit_i2c_kbd_Inv s ih
  | poll s now retval buf _ ih => exact i2c_kbd_poll_Inv s now retval buf ih
  | pop s _ ih => exact State.pop_Inv s ih

/-! ## C4: `KEY_NONE` is never enqueued -/

/-- C4: `queue_push(KEY_NONE)` leaves every queue unchanged; in every state
reachable by `init_i2c_kbd`, `deinit_i2c_kbd`, polls (any time, bus outcome and
sample) and pops, every pending event and every key ever passed to `queue_push`
is one of the fifteen key codes other than `KEY_NONE`; and an iteration of the
auto-repeat loop (indices 0..3) passes nothing to `queue_push` but one of the
four fast codes, so the `KEY_NONE` fast codes of rows 4 and 5 are never used. -/
theorem C4_none_never_enqueued (s : State) (hr : Reachable s) :
    (∀ q : Queue, queue_push q KEY_NONE = q)
    ∧ (∀ k ∈ s.queue.pending, k ∈ nonNoneKeys)
    ∧ (∀ k ∈ s.pushed, k ∈ nonNoneKeys)
    ∧ KEY_NONE ∉ nonNoneKeys
    ∧ (∀ (t : State) (long_btns idx : Nat), idx < 4 →
        ∃ ev, (direction_repeat_step long_btns t idx).pushed = t.pushed ++ ev
          ∧ ∀ k ∈ ev, k ∈ [KEY_LEFT_FAST, KEY_DOWN_FAST, KEY_RIGHT_FAST, KEY_UP_FAST]) := by
  have hinv := hr.inv
  refine ⟨fun q => queue_push_none q KEY_NONE (le_refl _), hinv.2.2.2.2.1, hinv.2.2.2.2.2,
    by decide, ?_⟩
  intro t long_btns idx hidx
  refine ⟨repeat_events (bit_set long_btns idx) (t.repeat_ticks.getD idx 0) idx, ?_, ?_⟩
  · rw [direction_repeat_step_eq]
    rfl
  · intro k hk
    unfold repeat_events at hk
    split at hk
    · rw [List.mem_singleton] at hk
      rw [hk]
      interval_cases idx <;> decide
    · simp at hk

theorem C4_none_never_enqueued_witness :
    Reachable (i2c_kbd_poll (init_i2c_kbd State.init) 2500 38 (mkSample 3 1 4 0))
    ∧ ((∀ q : Queue, queue_push q KEY_NONE = q)
      ∧ (∀ k ∈ (i2c_kbd_poll (init_i2c_kbd State.init) 2500 38
            (mkSample 3 1 4 0)).queue.pending, k ∈ nonNoneKeys)
      ∧ (∀ k ∈ (i2c_kbd_poll (init_i2c_kbd State.init) 2500 38 (mkSample 3 1 4 0)).pushed,
            k ∈ nonNoneKeys)
      ∧ KEY_NONE ∉ nonNoneKeys
      ∧ (∀ (t : State) (long_btns idx : Nat), idx < 4 →
          ∃ ev, (direction_repeat_step long_btns t idx).pushed = t.pushed ++ ev
            ∧ ∀ k ∈ ev, k ∈ [KEY_LEFT_FAST, KEY_DOWN_FAST, KEY_RIGHT_FAST, KEY_UP_FAST])) :=
  ⟨Reachable.poll _ _ _ _ (Reachable.init_kbd _ Reachable.start),
   C4_none_never_enqueued _ (Reachable.poll _ _ _ _ (Reachable.init_kbd _ Reachable.start))⟩

/-! ## C5: edge-only firing -/

theorem bit_set_zero (j : Nat) : bit_set 0 j = false := by
  simp [bit_set]

theorem decode_sample_pushed (s : State) (buf : ui_data_t) (hlen : s.repeat_ticks.length = 4) :
    (decode_sample s buf).pushed = s.pushed ++ decode_events s buf := by
  rw [decode_sample_eq s buf hlen]
  rfl

theorem pot_diff_self (p : Nat) : pot_diff p p = 0 := by
  simp [pot_diff, toInt16]

/-- No potentiometer event when the position is the recorded one and the
accumulator is inside (-25, 25). -/
theorem pot_events_of_unchanged (s : State) (buf : ui_data_t)
    (hpot : s.initialized = true → buf.pot_positions.getD 0 0 = s.last_position)
    (hacc : -25 < s.pot_accumulator ∧ s.pot_accumulator < 25) :
    pot_events s buf = [] := by
  unfold pot_events
  cases hi : s.initialized
  · simp
  · have h0 : toInt32 (s.pot_accumulator + pot_diff (buf.pot_positions.getD 0 0) s.last_position)
        = s.pot_accumulator := by
      rw [hpot hi, pot_diff_self]
      unfold toInt32
      omega
    have hu : pot_up_count s.pot_accumulator = 0 := by unfold pot_up_count; omega
    have hd : pot_down_count s.pot_accumulator = 0 := by unfold pot_down_count; omega
    simp only [Bool.not_true, Bool.false_eq_true, if_false, h0, hu, Nat.cast_zero, mul_zero,
      sub_zero, hd, List.replicate_zero, List.append_nil]

/-- C5 (as stated, refuted): with all histories zero and one sample already
decoded, a successful poll of a sample whose only set bit is bit 1 of the
pressed mask (long-press and function masks zero, position unchanged) pushes two
events for that bit, `KEY_DOWN` and `KEY_PG_DOWN`, not one. -/
theorem C5_bit1_press_pushes_two :
    (i2c_kbd_poll (init_i2c_kbd State.init) 2500 38 (mkSample 0 0 0 0)).pushed = []
    ∧ (i2c_kbd_poll (i2c_kbd_poll (init_i2c_kbd State.init) 2500 38 (mkSample 0 0 0 0))
        5000 38 (mkSample 2 0 0 0)).pushed = [KEY_DOWN, KEY_PG_DOWN]
    ∧ (i2c_kbd_poll (i2c_kbd_poll (init_i2c_kbd State.init) 2500 38 (mkSample 0 0 0 0))
        5000 38 (mkSample 2 0 0 0)).queue.pending = [KEY_DOWN, KEY_PG_DOWN]
    ∧ (i2c_kbd_poll (i2c_kbd_poll (init_i2c_kbd State.init) 2500 38 (mkSample 0 0 0 0))
        5000 38 (mkSample 2 0 0 0)).pushed.length ≠ 1 := by
  decide

/-- With the long-press and function masks zero, the position unchanged and the
accumulator settled, a decode pass pushes only what the two press-edge rules
(directional rows 0..5, pager rows 3 and 1) push. -/
theorem decode_events_press_only (s : State) (buf : ui_data_t)
    (hlong : buf.mcl_btns_long_press = 0) (hfn : buf.f_btns_long_press = 0)
    (hpot : s.initialized = true → buf.pot_positions.getD 0 0 = s.last_position)
    (hacc : -25 < s.pot_accumulator ∧ s.pot_accumulator < 25) :
    decode_events s buf
      = (if bit_set buf.mcl_btns 0 && !bit_set s.dir_last_btns 0 then [KEY_LEFT] else [])
        ++ (if bit_set buf.mcl_btns 1 && !bit_set s.dir_last_btns 1 then [KEY_DOWN] else [])
        ++ (if bit_set buf.mcl_btns 2 && !bit_set s.dir_last_btns 2 then [KEY_RIGHT] else [])
        ++ (if bit_set buf.mcl_btns 3 && !bit_set s.dir_last_btns 3 then [KEY_UP] else [])
        ++ (if bit_set buf.mcl_btns 4 && !bit_set s.dir_last_btns 4 then [KEY_FIRE_A] else [])
        ++ (if bit_set buf.mcl_btns 5 && !bit_set s.dir_last_btns 5 then [KEY_FIRE_B] else [])
        ++ (if bit_set buf.mcl_btns 3 && !bit_set s.pager_last_btns 3 then [KEY_PG_UP] else [])
        ++ (if bit_set buf.mcl_btns 1 && !bit_set s.pager_last_btns 1 then [KEY_PG_DOWN]
            else []) := by
  unfold decode_events
  rw [pot_events_of_unchanged s buf hpot hacc]
  simp [direction_events, function_events, pager_events, eventsOf, edge_events, mapping,
    repeat_events, hlong, hfn, bit_set_zero]

/-- C5 (amended): a successful poll of a sample whose long-press and function
long-press masks are zero and whose position is the recorded one, in a state
whose two pressed-mask histories agree and whose accumulator is settled, where
no bit other than `b` (0..5) differs from the previous pressed mask: if bit `b`
went 0 to 1 the poll pushes the base key of `b`, followed by `KEY_PG_UP` when
`b = 3` or `KEY_PG_DOWN` when `b = 1` (the pager group reads the same bits), and
nothing else; if bit `b` was 1 before (stays 1 or goes to 0) it pushes
nothing. -/
theorem C5_edge_only (s : State) (now : Nat) (retval : Int) (buf : ui_data_t) (b : Nat)
    (hlen : s.repeat_ticks.length = 4)
    (hinit : s.i2c_inited ≠ 0) (hgate : 2500 ≤ absolute_time_diff_us s.last_poll_time now)
    (hok : retval ≠ PICO_ERROR_GENERIC ∧ retval ≠ PICO_ERROR_TIMEOUT)
    (hb : b < 6)
    (hhist : s.pager_last_btns = s.dir_last_btns)
    (hacc : -25 < s.pot_accumulator ∧ s.pot_accumulator < 25)
    (hlong : buf.mcl_btns_long_press = 0) (hfn : buf.f_btns_long_press = 0)
    (hpot : s.initialized = true → buf.pot_positions.getD 0 0 = s.last_position)
    (hother : ∀ j, j ≠ b → bit_set buf.mcl_btns j = bit_set s.dir_last_btns j) :
    (bit_set buf.mcl_btns b = true → bit_set s.dir_last_btns b = false →
      (i2c_kbd_poll s now retval buf).pushed
        = s.pushed ++ ((mapping.getD b default).key ::
            (if b = 3 then [KEY_PG_UP] else if b = 1 then [KEY_PG_DOWN] else [])))
    ∧ (bit_set s.dir_last_btns b = true →
      (i2c_kbd_poll s now retval buf).pushed = s.pushed) := by
  rw [i2c_kbd_poll_success s now retval buf hinit hgate hok,
    decode_sample_pushed { s with last_poll_time := now } buf hlen,
    decode_events_press_only { s with last_poll_time := now } buf hlong hfn hpot hacc]
  simp only [hhist]
  have h0 := hother 0
  have h1 := hother 1
  have h2 := hother 2
  have h3 := hother 3
  have h4 := hother 4
  have h5 := hother 5
  constructor
  · intro hp hw
    interval_cases b <;> simp_all [mapping]
  · intro hw
    interval_cases b <;> simp_all

theorem bit_set_eq_testBit (v j : Nat) : bit_set v j = v.testBit j := by
  unfold bit_set
  rw [Nat.one_shiftLeft, Nat.and_two_pow]
  cases v.testBit j <;> simp

theorem bit_set_one (j : Nat) (hj : j ≠ 0) : bit_set 1 j = false := by
  rw [bit_set_eq_testBit]
  have := @Nat.testBit_two_pow_of_ne 0 j (Ne.symm hj)
  simpa using this

theorem C5_edge_only_witness :
    demoState.repeat_ticks.length = 4
    ∧ demoState.i2c_inited ≠ 0
    ∧ 2500 ≤ absolute_time_diff_us demoState.last_poll_time 5000
    ∧ ((38 : Int) ≠ PICO_ERROR_GENERIC ∧ (38 : Int) ≠ PICO_ERROR_TIMEOUT)
    ∧ 0 < 6
    ∧ demoState.pager_last_btns = demoState.dir_last_btns
    ∧ (-25 < demoState.pot_accumulator ∧ demoState.pot_accumulator < 25)
    ∧ (mkSample 1 0 0 0).mcl_btns_long_press = 0
    ∧ (mkSample 1 0 0 0).f_btns_long_press = 0
    ∧ (demoState.initialized = true →
        (mkSample 1 0 0 0).pot_positions.getD 0 0 = demoState.last_position)
    ∧ (∀ j, j ≠ 0 → bit_set (mkSample 1 0 0 0).mcl_btns j = bit_set demoState.dir_last_btns j)
    ∧ ((bit_set (mkSample 1 0 0 0).mcl_btns 0 = true → bit_set demoState.dir_last_btns 0 = false →
        (i2c_kbd_poll demoState 5000 38 (mkSample 1 0 0 0)).pushed
          = demoState.pushed ++ ((mapping.getD 0 default).key ::
              (if 0 = 3 then [KEY_PG_UP] else if 0 = 1 then [KEY_PG_DOWN] else [])))
      ∧ (bit_set demoState.dir_last_btns 0 = true →
        (i2c_kbd_poll demoState 5000 38 (mkSample 1 0 0 0)).pushed = demoState.pushed)) :=
  have hother : ∀ j, j ≠ 0 →
      bit_set (mkSample 1 0 0 0).mcl_btns j = bit_set demoState.dir_last_btns j := by
    intro j hj
    have h1 : (mkSample 1 0 0 0).mcl_btns = 1 := rfl
    have h2 : demoState.dir_last_btns = 0 := by decide
    rw [h1, h2, bit_set_one j hj, bit_set_zero]
  ⟨by decide, by decide, by decide, by decide, by decide, by decide, by decide, rfl, rfl,
   by decide, hother,
   C5_edge_only demoState 5000 38 (mkSample 1 0 0 0) 0 (by decide) (by decide) (by decide)
     (by decide) (by decide) (by decide) (by decide) rfl rfl (by decide) hother⟩

/-! ## C6, C7: auto-repeat timing -/

theorem count_ite_single (c : Prop) [Decidable c] (k x : keycode_t) :
    List.count x (if c then [k] else []) = if c ∧ k = x then 1 else 0 := by
  by_cases hc : c <;> by_cases hk : k = x <;> simp [hc, hk, List.count_singleton]

theorem decode_sample_ticks (s : State) (buf : ui_data_t) (hlen : s.repeat_ticks.length = 4) :
    (decode_sample s buf).repeat_ticks = direction_ticks s buf := by
  rw [decode_sample_eq s buf hlen]

theorem direction_ticks_getD (s : State) (buf : ui_data_t) (b : Nat) (hb : b < 4) :
    (direction_ticks s buf).getD b 0
      = repeat_tick (bit_set buf.mcl_btns_long_press b) (s.repeat_ticks.getD b 0) := by
  interval_cases b <;> simp [direction_ticks]

theorem mem_pot_events (s : State) (buff : ui_data_t) (x : keycode_t)
    (h : x ∈ pot_events s buff) : x = KEY_POT_UP ∨ x = KEY_POT_DOWN := by
  unfold pot_events at h
  split at h
  · simp at h
  · simp only [List.mem_append, List.mem_replicate] at h
    exact h.imp (fun h => h.2) (fun h => h.2)

theorem pot_events_count_zero (s : State) (buff : ui_data_t) (x : keycode_t)
    (h1 : x ≠ KEY_POT_UP) (h2 : x ≠ KEY_POT_DOWN) : List.count x (pot_events s buff) = 0 := by
  apply List.count_eq_zero_of_not_mem
  intro h
  rcases mem_pot_events s buff x h with h | h
  · exact h1 h
  · exact h2 h

/-- In one decode pass the only pushes of the fast code of index `b` are those
of iteration `b` of the auto-repeat loop. -/
theorem decode_events_count_fast (s : State) (buf : ui_data_t) (b : Nat) (hb : b < 4) :
    List.count (mapping.getD b default).fast_key (decode_events s buf)
      = (repeat_events (bit_set buf.mcl_btns_long_press b) (s.repeat_ticks.getD b 0) b).length := by
  unfold decode_events
  rw [List.count_append, pot_events_count_zero s buf _
    (by interval_cases b <;> decide) (by interval_cases b <;> decide)]
  interval_cases b <;>
    simp [direction_events, function_events, pager_events, eventsOf, edge_events, mapping,
      repeat_events, count_ite_single, List.count_append,
      KEY_LEFT, KEY_RIGHT, KEY_DOWN, KEY_UP, KEY_FIRE_A, KEY_FIRE_B, KEY_LEFT_FAST,
      KEY_RIGHT_FAST, KEY_DOWN_FAST, KEY_UP_FAST, KEY_ENTER, KEY_PG_UP, KEY_PG_DOWN] <;>
    split <;> simp

/-- One decode pass, seen from index `b` of the auto-repeat loop: the counter
becomes `repeat_tick`, and the fast code of `b` is pushed as often as
`repeat_events` says (once or not at all). -/
theorem decode_sample_repeat (s : State) (buf : ui_data_t) (b : Nat)
    (hlen : s.repeat_ticks.length = 4) (hb : b < 4) :
    (decode_sample s buf).repeat_ticks.length = 4
    ∧ (decode_sample s buf).repeat_ticks.getD b 0
        = repeat_tick (bit_set buf.mcl_btns_long_press b) (s.repeat_ticks.getD b 0)
    ∧ List.count (mapping.getD b default).fast_key (decode_sample s buf).pushed
        = List.count (mapping.getD b default).fast_key s.pushed
          + (repeat_events (bit_set buf.mcl_btns_long_press b)
              (s.repeat_ticks.getD b 0) b).length := by
  refine ⟨?_, ?_, ?_⟩
  · rw [decode_sample_ticks s buf hlen]; rfl
  · rw [decode_sample_ticks s buf hlen, direction_ticks_getD s buf b hb]
  · rw [decode_sample_pushed s buf hlen, List.count_append, decode_events_count_fast s buf b hb]

theorem repeat_tick_long (t : Nat) (ht : t ≤ 3) : repeat_tick true t = (t + 1) % 4 := by
  unfold repeat_tick repeat_threshold
  interval_cases t <;> decide

theorem repeat_events_long (t b : Nat) (ht : t ≤ 3) :
    (repeat_events true t b).length = (t + 1) / 4 := by
  unfold repeat_events repeat_threshold
  interval_cases t <;> simp

/-- A run of samples that all have long-press bit `b` set, entered with counter
`t <= 3`: the counter ends at `(t + n) % 4` and `(t + n) / 4` fast codes of `b`
are pushed. -/
theorem repeat_run (b : Nat) (hb : b < 4) (bufs : List ui_data_t) (s : State)
    (hlen : s.repeat_ticks.length = 4) (ht : s.repeat_ticks.getD b 0 ≤ 3)
    (hlong : ∀ buf ∈ bufs, bit_set buf.mcl_btns_long_press b = true) :
    (decode_samples s bufs).repeat_ticks.length = 4
    ∧ (decode_samples s bufs).repeat_ticks.getD b 0
        = (s.repeat_ticks.getD b 0 + bufs.length) % 4
    ∧ List.count (mapping.getD b default).fast_key (decode_samples s bufs).pushed
        = List.count (mapping.getD b default).fast_key s.pushed
          + (s.repeat_ticks.getD b 0 + bufs.length) / 4 := by
  induction bufs generalizing s with
  | nil =>
    refine ⟨hlen, ?_, ?_⟩
    · simp only [decode_samples, List.foldl_nil, List.length_nil]; omega
    · simp only [decode_samples, List.foldl_nil, List.length_nil]; omega
  | cons buf bufs ih =>
    obtain ⟨h1, h2, h3⟩ := decode_sample_repeat s buf b hlen hb
    rw [hlong buf (List.mem_cons_self buf bufs), repeat_tick_long _ ht] at h2
    rw [hlong buf (List.mem_cons_self buf bufs), repeat_events_long _ b ht] at h3
    have ht2 : (decode_sample s buf).repeat_ticks.getD b 0 ≤ 3 := by omega
    obtain ⟨k1, k2, k3⟩ := ih (decode_sample s buf) h1 ht2
      (fun x hx => hlong x (List.mem_cons_of_mem buf hx))
    have e : decode_samples s (buf :: bufs) = decode_samples (decode_sample s buf) bufs := rfl
    rw [e]
    refine ⟨k1, ?_, ?_⟩
    · rw [k2, h2, List.length_cons]; omega
    · rw [k3, h3, h2, List.length_cons]; omega

/-- C6: for every index `b` in 0..3 whose repeat counter is 0, decoding `n`
consecutive samples that all have long-press bit `b` set pushes the fast code of
`b` exactly `n / 4` times (and leaves the counter at `n % 4`); as this holds for
every `n`, the pushes fall on every 4th sample. -/
theorem C6_repeat_timing (s : State) (b : Nat) (bufs : List ui_data_t)
    (hlen : s.repeat_ticks.length = 4) (hb : b < 4)
    (h0 : s.repeat_ticks.getD b 0 = 0)
    (hlong : ∀ buf ∈ bufs, bit_set buf.mcl_btns_long_press b = true) :
    List.count (mapping.getD b default).fast_key (decode_samples s bufs).pushed
      = List.count (mapping.getD b default).fast_key s.pushed + bufs.length / 4
    ∧ (decode_samples s bufs).repeat_ticks.getD b 0 = bufs.length % 4 := by
  obtain ⟨_, h2, h3⟩ := repeat_run b hb bufs s hlen (by omega) hlong
  rw [h0, Nat.zero_add] at h2 h3
  exact ⟨h3, h2⟩

theorem C6_repeat_timing_witness :
    demoState.repeat_ticks.length = 4 ∧ 1 < 4
    ∧ demoState.repeat_ticks.getD 1 0 = 0
    ∧ (∀ buf ∈ List.replicate 9 (mkSample 2 2 0 0), bit_set buf.mcl_btns_long_press 1 = true)
    ∧ (List.count (mapping.getD 1 default).fast_key
          (decode_samples demoState (List.replicate 9 (mkSample 2 2 0 0))).pushed
        = List.count (mapping.getD 1 default).fast_key demoState.pushed
          + (List.replicate 9 (mkSample 2 2 0 0)).length / 4
      ∧ (decode_samples demoState (List.replicate 9 (mkSample 2 2 0 0))).repeat_ticks.getD 1 0
        = (List.replicate 9 (mkSample 2 2 0 0)).length % 4) :=
  ⟨by decide, by decide, by decide, by decide,
   C6_repeat_timing demoState 1 (List.replicate 9 (mkSample 2 2 0 0))
     (by decide) (by decide) (by decide) (by decide)⟩

/-! ## C7: no carry-over between long-press episodes -/

/-- C7: for every index `b` in 0..3 and every state (any counter value),
decoding a sample with long-press bit `b` clear sets the counter of `b` to 0 and
pushes no fast code of `b`; a following episode of fewer than 4 samples with
long-press bit `b` set pushes no fast code of `b` either. -/
theorem C7_no_carry_over (s : State) (b : Nat) (gap : ui_data_t) (ep : List ui_data_t)
    (hlen : s.repeat_ticks.length = 4) (hb : b < 4)
    (hgap : bit_set gap.mcl_btns_long_press b = false)
    (hep : ∀ buf ∈ ep, bit_set buf.mcl_btns_long_press b = true)
    (hm : ep.length < 4) :
    (decode_sample s gap).repeat_ticks.getD b 0 = 0
    ∧ List.count (mapping.getD b default).fast_key
        (decode_samples (decode_sample s gap) ep).pushed
      = List.count (mapping.getD b default).fast_key s.pushed := by
  obtain ⟨h1, h2, h3⟩ := decode_sample_repeat s gap b hlen hb
  rw [hgap] at h2 h3
  have h2' : (decode_sample s gap).repeat_ticks.getD b 0 = 0 := by
    rw [h2]; rfl
  have h3' : List.count (mapping.getD b default).fast_key (decode_sample s gap).pushed
      = List.count (mapping.getD b default).fast_key s.pushed := by
    rw [h3]; rfl
  obtain ⟨_, _, k3⟩ := repeat_run b hb ep (decode_sample s gap) h1 (by omega) hep
  refine ⟨h2', ?_⟩
  rw [k3, h2', h3']
  omega

set_option maxRecDepth 8000 in
theorem C7_no_carry_over_witness :
    (decode_samples demoState (List.replicate 3 (mkSample 1 1 0 0))).repeat_ticks.length = 4
    ∧ 0 < 4
    ∧ bit_set (mkSample 0 0 0 0).mcl_btns_long_press 0 = false
    ∧ (∀ buf ∈ List.replicate 3 (mkSample 1 1 0 0), bit_set buf.mcl_btns_long_press 0 = true)
    ∧ (List.replicate 3 (mkSample 1 1 0 0)).length < 4
    ∧ (decode_samples demoState (List.replicate 3 (mkSample 1 1 0 0))).repeat_ticks.getD 0 0 = 3
    ∧ ((decode_sample (decode_samples demoState (List.replicate 3 (mkSample 1 1 0 0)))
          (mkSample 0 0 0 0)).repeat_ticks.getD 0 0 = 0
      ∧ List.count (mapping.getD 0 default).fast_key
          (decode_samples
            (decode_sample (decode_samples demoState (List.replicate 3 (mkSample 1 1 0 0)))
              (mkSample 0 0 0 0))
            (List.replicate 3 (mkSample 1 1 0 0))).pushed
        = List.count (mapping.getD 0 default).fast_key
            (decode_samples demoState (List.replicate 3 (mkSample 1 1 0 0))).pushed) :=
  ⟨by decide, by decide, by decide, by decide, by decide, by decide,
   C7_no_carry_over (decode_samples demoState (List.replicate 3 (mkSample 1 1 0 0))) 0
     (mkSample 0 0 0 0) (List.replicate 3 (mkSample 1 1 0 0))
     (by decide) (by decide) (by decide) (by decide) (by decide)⟩

/-! ## C8: dual fire -/

theorem enqueue_direction_keys_pushed (s : State) (buff : ui_data_t)
    (hlen : s.repeat_ticks.length = 4) :
    (enqueue_direction_keys s buff).pushed = s.pushed ++ direction_events s buff := by
  rw [enqueue_direction_keys_eq s buff hlen]
  rfl

/-- C8: for every row `b` in 0..5, when a sample has bit `b` set in both the
pressed and the long-pressed mask and the histories have it clear in both,
`enqueue_direction_keys` pushes the base key of `b` exactly twice. -/
theorem C8_dual_fire (s : State) (buff : ui_data_t) (b : Nat)
    (hlen : s.repeat_ticks.length = 4) (hb : b < 6)
    (hp : bit_set buff.mcl_btns b = true) (hl : bit_set buff.mcl_btns_long_press b = true)
    (hwp : bit_set s.dir_last_btns b = false) (hwl : bit_set s.dir_last_long b = false) :
    List.count (mapping.getD b default).key (enqueue_direction_keys s buff).pushed
      = List.count (mapping.getD b default).key s.pushed + 2 := by
  rw [enqueue_direction_keys_pushed s buff hlen, List.count_append]
  congr 1
  interval_cases b <;>
    simp [direction_events, eventsOf, edge_events, mapping, repeat_events, count_ite_single,
      List.count_append, hp, hl, hwp, hwl,
      KEY_LEFT, KEY_RIGHT, KEY_DOWN, KEY_UP, KEY_FIRE_A, KEY_FIRE_B, KEY_LEFT_FAST,
      KEY_RIGHT_FAST, KEY_DOWN_FAST, KEY_UP_FAST, KEY_NONE]

theorem C8_dual_fire_witness :
    demoState.repeat_ticks.length = 4 ∧ 4 < 6
    ∧ bit_set (mkSample 16 16 0 0).mcl_btns 4 = true
    ∧ bit_set (mkSample 16 16 0 0).mcl_btns_long_press 4 = true
    ∧ bit_set demoState.dir_last_btns 4 = false
    ∧ bit_set demoState.dir_last_long 4 = false
    ∧ List.count (mapping.getD 4 default).key
        (enqueue_direction_keys demoState (mkSample 16 16 0 0)).pushed
      = List.count (mapping.getD 4 default).key demoState.pushed + 2 :=
  ⟨by decide, by decide, by decide, by decide, by decide, by decide,
   C8_dual_fire demoState (mkSample 16 16 0 0) 4
     (by decide) (by decide) (by decide) (by decide) (by decide) (by decide)⟩

/-! ## C9, C10: wraparound correction -/

theorem pot_diff_range (p c : Nat) (hp : p ≤ 1023) (hc : c ≤ 1023) :
    -512 ≤ pot_diff c p ∧ pot_diff c p ≤ 512 := by
  unfold pot_diff toInt16
  simp only []
  split
  · omega
  · split <;> omega

theorem pot_diff_mod (p c : Nat) :
    pot_diff c p % 1024 = ((c : Int) - (p : Int)) % 1024 := by
  unfold pot_diff toInt16
  simp only []
  split
  · omega
  · split <;> omega

/-- C9 (as stated, refuted): from previous position 0 to current position 512 the
corrected delta is 512, outside -512..511. -/
theorem C9_delta_512 :
    pot_diff 512 0 = 512 ∧ ¬ (-512 ≤ pot_diff 512 0 ∧ pot_diff 512 0 ≤ 511) := by
  decide

/-- C9 (amended): for previous and current positions in 0..1023 the corrected
delta lies in -512..512. -/
theorem C9_delta_range (p c : Nat) (hp : p ≤ 1023) (hc : c ≤ 1023) :
    -512 ≤ pot_diff c p ∧ pot_diff c p ≤ 512 :=
  pot_diff_range p c hp hc

theorem C9_delta_range_witness :
    513 ≤ 1023 ∧ 0 ≤ 1023 ∧ (-512 ≤ pot_diff 0 513 ∧ pot_diff 0 513 ≤ 512) :=
  ⟨by decide, by decide, C9_delta_range 513 0 (by decide) (by decide)⟩

/-- C10: for previous position `p` and current position `c` in 0..1023 the
corrected delta is congruent to `c - p` modulo 1024, has magnitude at most 512
and no integer congruent to `c - p` has a smaller magnitude; the sequence
1020 then 5 gives +9. -/
theorem C10_wraparound (p c : Nat) (hp : p ≤ 1023) (hc : c ≤ 1023) :
    pot_diff c p % 1024 = ((c : Int) - (p : Int)) % 1024
    ∧ |pot_diff c p| ≤ 512
    ∧ (∀ r : Int, r % 1024 = ((c : Int) - (p : Int)) % 1024 → |pot_diff c p| ≤ |r|)
    ∧ pot_diff 5 1020 = 9 := by
  have hr := pot_diff_range p c hp hc
  have hmod := pot_diff_mod p c
  refine ⟨hmod, abs_le.mpr hr, ?_, by decide⟩
  intro r hrm
  rw [← hmod] at hrm
  have h1 : |pot_diff c p| ≤ 512 := abs_le.mpr hr
  rcases abs_cases r with ⟨e, _⟩ | ⟨e, _⟩ <;> rcases abs_cases (pot_diff c p) with ⟨f, _⟩ | ⟨f, _⟩ <;>
    rw [e, f] <;> omega

theorem C10_wraparound_witness :
    1020 ≤ 1023 ∧ 5 ≤ 1023
    ∧ (pot_diff 5 1020 % 1024 = (((5 : Nat) : Int) - ((1020 : Nat) : Int)) % 1024
      ∧ |pot_diff 5 1020| ≤ 512
      ∧ (∀ r : Int, r % 1024 = (((5 : Nat) : Int) - ((1020 : Nat) : Int)) % 1024 →
          |pot_diff 5 1020| ≤ |r|)
      ∧ pot_diff 5 1020 = 9) :=
  ⟨by decide, by decide, C10_wraparound 1020 5 (by decide) (by decide)⟩

/-! ## C11: accumulator invariant -/

theorem enqueue_pot_keys_acc (s : State) (buff : ui_data_t) :
    (enqueue_pot_keys s buff).pot_accumulator = pot_acc_after s buff := by
  rw [enqueue_pot_keys_eq]

theorem enqueue_pot_keys_pushed (s : State) (buff : ui_data_t) :
    (enqueue_pot_keys s buff).pushed = s.pushed ++ pot_events s buff := by
  rw [enqueue_pot_keys_eq]
  rfl

/-- More fuel than the magnitude of the accumulator does not change what the
first loop does, and it leaves with its condition false. -/
theorem pot_up_loop_total (t : State) (k : Nat) :
    pot_up_loop (t.pot_accumulator.natAbs + k) t = pot_up_loop t.pot_accumulator.natAbs t
    ∧ (pot_up_loop t.pot_accumulator.natAbs t).pot_accumulator < threshold := by
  rw [pot_up_loop_eq _ t (by omega), pot_up_loop_eq _ t (by omega)]
  refine ⟨rfl, ?_⟩
  show t.pot_accumulator - 25 * (pot_up_count t.pot_accumulator : Int) < 25
  unfold pot_up_count
  omega

/-- More fuel than the magnitude of the accumulator does not change what the
second loop does, and it leaves with its condition false. -/
theorem pot_down_loop_total (t : State) (k : Nat) :
    pot_down_loop (t.pot_accumulator.natAbs + k) t = pot_down_loop t.pot_accumulator.natAbs t
    ∧ -threshold < (pot_down_loop t.pot_accumulator.natAbs t).pot_accumulator := by
  rw [pot_down_loop_eq _ t (by omega), pot_down_loop_eq _ t (by omega)]
  refine ⟨rfl, ?_⟩
  show -25 < t.pot_accumulator + 25 * (pot_down_count t.pot_accumulator : Int)
  unfold pot_down_count
  omega

/-- C11: for every accumulator value and every sample, a pass of
`enqueue_pot_keys` that reaches the accumulation (the position has been
initialised), or that starts with the accumulator inside (-25, 25), leaves the
accumulator strictly between -25 and 25; both loops terminate: with any fuel
above the magnitude of the accumulator they do the same and leave by their own
condition. -/
theorem C11_accumulator_invariant (s : State) (buff : ui_data_t)
    (h : s.initialized = true ∨ (-25 < s.pot_accumulator ∧ s.pot_accumulator < 25)) :
    (-25 < (enqueue_pot_keys s buff).pot_accumulator
      ∧ (enqueue_pot_keys s buff).pot_accumulator < 25)
    ∧ (∀ (t : State) (k : Nat),
        pot_up_loop (t.pot_accumulator.natAbs + k) t = pot_up_loop t.pot_accumulator.natAbs t
        ∧ (pot_up_loop t.pot_accumulator.natAbs t).pot_accumulator < threshold)
    ∧ (∀ (t : State) (k : Nat),
        pot_down_loop (t.pot_accumulator.natAbs + k) t
          = pot_down_loop t.pot_accumulator.natAbs t
        ∧ -threshold < (pot_down_loop t.pot_accumulator.natAbs t).pot_accumulator) := by
  refine ⟨?_, pot_up_loop_total, pot_down_loop_total⟩
  rw [enqueue_pot_keys_acc]
  unfold pot_acc_after
  cases hi : s.initialized
  · rcases h with h | h
    · rw [hi] at h; cases h
    · simpa using h
  · simpa using pot_settle_bounds _

theorem C11_accumulator_invariant_witness :
    ((decode_sample demoState (mkSample 0 0 0 0)).initialized = true
      ∨ (-25 < (decode_sample demoState (mkSample 0 0 0 0)).pot_accumulator
        ∧ (decode_sample demoState (mkSample 0 0 0 0)).pot_accumulator < 25))
    ∧ ((-25 < (enqueue_pot_keys (decode_sample demoState (mkSample 0 0 0 0))
          (mkSample 0 0 0 300)).pot_accumulator
        ∧ (enqueue_pot_keys (decode_sample demoState (mkSample 0 0 0 0))
          (mkSample 0 0 0 300)).pot_accumulator < 25)
      ∧ (∀ (t : State) (k : Nat),
          pot_up_loop (t.pot_accumulator.natAbs + k) t = pot_up_loop t.pot_accumulator.natAbs t
          ∧ (pot_up_loop t.pot_accumulator.natAbs t).pot_accumulator < threshold)
      ∧ (∀ (t : State) (k : Nat),
          pot_down_loop (t.pot_accumulator.natAbs + k) t
            = pot_down_loop t.pot_accumulator.natAbs t
          ∧ -threshold < (pot_down_loop t.pot_accumulator.natAbs t).pot_accumulator)) :=
  ⟨by decide,
   C11_accumulator_invariant (decode_sample demoState (mkSample 0 0 0 0)) (mkSample 0 0 0 300)
     (by decide)⟩

/-! ## C12: lossless accumulation -/

theorem pot_diff_bound (c p : Nat) : -31744 ≤ pot_diff c p ∧ pot_diff c p ≤ 31743 := by
  unfold pot_diff toInt16
  simp only []
  split
  · omega
  · split <;> omega

theorem toInt32_of_range (x : Int) (h : -2147483648 ≤ x ∧ x < 2147483648) : toInt32 x = x := by
  unfold toInt32
  omega

theorem pot_events_counts (s : State) (buff : ui_data_t) (hi : s.initialized = true) :
    List.count KEY_POT_UP (pot_events s buff)
      = pot_up_count (toInt32 (s.pot_accumulator
          + pot_diff (buff.pot_positions.getD 0 0) s.last_position))
    ∧ List.count KEY_POT_DOWN (pot_events s buff)
      = pot_down_count (toInt32 (s.pot_accumulator
            + pot_diff (buff.pot_positions.getD 0 0) s.last_position)
          - 25 * (pot_up_count (toInt32 (s.pot_accumulator
            + pot_diff (buff.pot_positions.getD 0 0) s.last_position)) : Int)) := by
  unfold pot_events
  simp only [hi, Bool.not_true, Bool.false_eq_true, if_false, List.count_append,
    List.count_replicate]
  constructor <;> simp [KEY_POT_UP, KEY_POT_DOWN]

/-- Balance of one pass: 25 times the net number of steps pushed, plus the
accumulator left, is the (wrapped) sum of the old accumulator and the delta. -/
theorem pot_pass_balance (s : State) (buff : ui_data_t) (hi : s.initialized = true) :
    25 * ((List.count KEY_POT_UP (pot_events s buff) : Int)
        - (List.count KEY_POT_DOWN (pot_events s buff) : Int))
      + pot_acc_after s buff
      = toInt32 (s.pot_accumulator + pot_diff (buff.pot_positions.getD 0 0) s.last_position) := by
  obtain ⟨h1, h2⟩ := pot_events_counts s buff hi
  rw [h1, h2]
  unfold pot_acc_after
  simp only [hi, Bool.not_true, Bool.false_eq_true, if_false]
  ring

theorem mapping_key_not_pot :
    ∀ m ∈ mapping, m.key ≠ KEY_POT_UP ∧ m.key ≠ KEY_POT_DOWN := by decide

theorem mapping_fast_key_not_pot :
    ∀ idx ∈ [0, 1, 2, 3], (mapping.getD idx default).fast_key ≠ KEY_POT_UP
      ∧ (mapping.getD idx default).fast_key ≠ KEY_POT_DOWN := by decide

theorem decode_events_count_pot (s : State) (buf : ui_data_t) (x : keycode_t)
    (hx : x = KEY_POT_UP ∨ x = KEY_POT_DOWN) :
    List.count x (decode_events s buf) = List.count x (pot_events s buf) := by
  unfold decode_events
  rw [List.count_append, List.count_append, List.count_append]
  have h1 : List.count x (direction_events s buf) = 0 := by
    apply List.count_eq_zero_of_not_mem
    intro h
    unfold direction_events at h
    rw [List.mem_append, mem_eventsOf, mem_eventsOf] at h
    rcases h with ⟨m, hm, hm2⟩ | ⟨idx, hidx, hm2⟩
    · have := mem_edge_events _ _ _ _ _ _ hm2
      subst this
      have hk := mapping_key_not_pot m hm
      rcases hx with hx | hx
      · exact hk.1 hx
      · exact hk.2 hx
    · unfold repeat_events at hm2
      split at hm2
      · rw [List.mem_singleton] at hm2
        subst hm2
        have hk := mapping_fast_key_not_pot idx hidx
        rcases hx with hx | hx
        · exact hk.1 hx
        · exact hk.2 hx
      · simp at hm2
  have h2 : List.count x (function_events s buf) = 0 := by
    rcases hx with rfl | rfl <;>
      simp [function_events, count_ite_single, KEY_POT_UP, KEY_POT_DOWN, KEY_ENTER]
  have h3 : List.count x (pager_events s buf) = 0 := by
    rcases hx with rfl | rfl <;>
      simp [pager_events, count_ite_single, KEY_POT_UP, KEY_POT_DOWN, KEY_PG_UP, KEY_PG_DOWN]
  omega


/-- One decode pass from a state with the position initialised and the
accumulator settled: both properties persist, the position is recorded, and the
pass is balanced. -/
theorem decode_sample_pot_step (s : State) (buf : ui_data_t)
    (hlen : s.repeat_ticks.length = 4) (hi : s.initialized = true)
    (hacc : -25 < s.pot_accumulator ∧ s.pot_accumulator < 25) :
    (decode_sample s buf).repeat_ticks.length = 4
    ∧ (decode_sample s buf).initialized = true
    ∧ (-25 < (decode_sample s buf).pot_accumulator ∧ (decode_sample s buf).pot_accumulator < 25)
    ∧ (decode_sample s buf).last_position = buf.pot_positions.getD 0 0
    ∧ 25 * (((List.count KEY_POT_UP (decode_sample s buf).pushed : Int)
              - (List.count KEY_POT_UP s.pushed : Int))
            - ((List.count KEY_POT_DOWN (decode_sample s buf).pushed : Int)
              - (List.count KEY_POT_DOWN s.pushed : Int)))
        + (decode_sample s buf).pot_accumulator
      = s.pot_accumulator + pot_diff (buf.pot_positions.getD 0 0) s.last_position := by
  have hb := pot_diff_bound (buf.pot_positions.getD 0 0) s.last_position
  have hbal := pot_pass_balance s buf hi
  rw [toInt32_of_range _ (by omega)] at hbal
  have hU := decode_events_count_pot s buf KEY_POT_UP (Or.inl rfl)
  have hD := decode_events_count_pot s buf KEY_POT_DOWN (Or.inr rfl)
  have hp := decode_sample_pushed s buf hlen
  have ha : (decode_sample s buf).pot_accumulator = pot_acc_after s buf := by
    rw [decode_sample_eq s buf hlen]
  refine ⟨?_, ?_, ?_, ?_, ?_⟩
  · rw [decode_sample_ticks s buf hlen]; rfl
  · rw [decode_sample_eq s buf hlen]
  · rw [ha]; exact pot_acc_after_bounds s buf hacc
  · rw [decode_sample_eq s buf hlen]
  · rw [hp, List.count_append, List.count_append, hU, hD, ha]
    push_cast
    omega

/-- Balance over a run of decode passes. -/
theorem decode_samples_pot_balance (bufs : List ui_data_t) (s : State)
    (hlen : s.repeat_ticks.length = 4) (hi : s.initialized = true)
    (hacc : -25 < s.pot_accumulator ∧ s.pot_accumulator < 25) :
    25 * (((List.count KEY_POT_UP (decode_samples s bufs).pushed : Int)
              - (List.count KEY_POT_UP s.pushed : Int))
            - ((List.count KEY_POT_DOWN (decode_samples s bufs).pushed : Int)
              - (List.count KEY_POT_DOWN s.pushed : Int)))
        + (decode_samples s bufs).pot_accumulator
      = s.pot_accumulator + (pot_deltas s.last_position bufs).sum := by
  induction bufs generalizing s with
  | nil => simp [decode_samples, pot_deltas]
  | cons buf bufs ih =>
    obtain ⟨h1, h2, h3, h4, h5⟩ := decode_sample_pot_step s buf hlen hi hacc
    have e : decode_samples s (buf :: bufs) = decode_samples (decode_sample s buf) bufs := rfl
    have := ih (decode_sample s buf) h1 h2 h3
    rw [h4] at this
    rw [e]
    simp only [pot_deltas, List.sum_cons]
    omega

/-- C12: for a pass of `enqueue_pot_keys` after the first sample (position
initialised, accumulator settled as after every pass), 25 times (pot-up events
pushed minus pot-down events pushed) plus the accumulator afterwards equals the
accumulator before plus the corrected delta; and over any sequence of decode
passes 25 times the net step count plus the final accumulator equals the
initial accumulator plus the sum of all corrected deltas. -/
theorem C12_lossless_accumulation (s : State) (buff : ui_data_t) (bufs : List ui_data_t)
    (hlen : s.repeat_ticks.length = 4) (hi : s.initialized = true)
    (hacc : -25 < s.pot_accumulator ∧ s.pot_accumulator < 25) :
    25 * (((List.count KEY_POT_UP (enqueue_pot_keys s buff).pushed : Int)
              - (List.count KEY_POT_UP s.pushed : Int))
            - ((List.count KEY_POT_DOWN (enqueue_pot_keys s buff).pushed : Int)
              - (List.count KEY_POT_DOWN s.pushed : Int)))
        + (enqueue_pot_keys s buff).pot_accumulator
      = s.pot_accumulator + pot_diff (buff.pot_positions.getD 0 0) s.last_position
    ∧ 25 * (((List.count KEY_POT_UP (decode_samples s bufs).pushed : Int)
              - (List.count KEY_POT_UP s.pushed : Int))
            - ((List.count KEY_POT_DOWN (decode_samples s bufs).pushed : Int)
              - (List.count KEY_POT_DOWN s.pushed : Int)))
        + (decode_samples s bufs).pot_accumulator
      = s.pot_accumulator + (pot_deltas s.last_position bufs).sum := by
  refine ⟨?_, decode_samples_pot_balance bufs s hlen hi hacc⟩
  have hb := pot_diff_bound (buff.pot_positions.getD 0 0) s.last_position
  have hbal := pot_pass_balance s buff hi
  rw [toInt32_of_range _ (by omega)] at hbal
  rw [enqueue_pot_keys_pushed, enqueue_pot_keys_acc, List.count_append, List.count_append]
  push_cast
  omega

set_option maxRecDepth 8000 in
theorem C12_lossless_accumulation_witness :
    (decode_sample demoState (mkSample 0 0 0 1000)).repeat_ticks.length = 4
    ∧ (decode_sample demoState (mkSample 0 0 0 1000)).initialized = true
    ∧ (-25 < (decode_sample demoState (mkSample 0 0 0 1000)).pot_accumulator
      ∧ (decode_sample demoState (mkSample 0 0 0 1000)).pot_accumulator < 25)
    ∧ (pot_deltas (decode_sample demoState (mkSample 0 0 0 1000)).last_position
        [mkSample 0 0 0 1010, mkSample 1 0 0 1020, mkSample 1 0 0 5]).sum = 29
    ∧ (25 * (((List.count KEY_POT_UP (enqueue_pot_keys
                (decode_sample demoState (mkSample 0 0 0 1000)) (mkSample 0 0 0 40)).pushed : Int)
              - (List.count KEY_POT_UP
                  (decode_sample demoState (mkSample 0 0 0 1000)).pushed : Int))
            - ((List.count KEY_POT_DOWN (enqueue_pot_keys
                (decode_sample demoState (mkSample 0 0 0 1000)) (mkSample 0 0 0 40)).pushed : Int)
              - (List.count KEY_POT_DOWN
                  (decode_sample demoState (mkSample 0 0 0 1000)).pushed : Int)))
        + (enqueue_pot_keys (decode_sample demoState (mkSample 0 0 0 1000))
            (mkSample 0 0 0 40)).pot_accumulator
      = (decode_sample demoState (mkSample 0 0 0 1000)).pot_accumulator
        + pot_diff ((mkSample 0 0 0 40).pot_positions.getD 0 0)
            (decode_sample demoState (mkSample 0 0 0 1000)).last_position
      ∧ 25 * (((List.count KEY_POT_UP (decode_samples
                (decode_sample demoState (mkSample 0 0 0 1000))
                [mkSample 0 0 0 1010, mkSample 1 0 0 1020, mkSample 1 0 0 5]).pushed : Int)
              - (List.count KEY_POT_UP
                  (decode_sample demoState (mkSample 0 0 0 1000)).pushed : Int))
            - ((List.count KEY_POT_DOWN (decode_samples
                (decode_sample demoState (mkSample 0 0 0 1000))
                [mkSample 0 0 0 1010, mkSample 1 0 0 1020, mkSample 1 0 0 5]).pushed : Int)
              - (List.count KEY_POT_DOWN
                  (decode_sample demoState (mkSample 0 0 0 1000)).pushed : Int)))
        + (decode_samples (decode_sample demoState (mkSample 0 0 0 1000))
            [mkSample 0 0 0 1010, mkSample 1 0 0 1020, mkSample 1 0 0 5]).pot_accumulator
      = (decode_sample demoState (mkSample 0 0 0 1000)).pot_accumulator
        + (pot_deltas (decode_sample demoState (mkSample 0 0 0 1000)).last_position
            [mkSample 0 0 0 1010, mkSample 1 0 0 1020, mkSample 1 0 0 5]).sum) :=
  ⟨by decide, by decide, by decide, by decide,
   C12_lossless_accumulation (decode_sample demoState (mkSample 0 0 0 1000))
     (mkSample 0 0 0 40) [mkSample 0 0 0 1010, mkSample 1 0 0 1020, mkSample 1 0 0 5]
     (by decide) (by decide) (by decide)⟩

/-! ## C13: first potentiometer sample -/

theorem enqueue_pot_keys_first (s : State) (buff : ui_data_t) (hi : s.initialized = false) :
    enqueue_pot_keys s buff
      = { s with last_position := buff.pot_positions.getD 0 0, initialized := true } := by
  unfold enqueue_pot_keys
  simp [hi]

/-- C13: from the initial potentiometer state (position not initialised,
accumulator 0, as after static initialisation), for every position the first
pass of `enqueue_pot_keys` pushes nothing, leaves the queue and the accumulator
(0) as they were, and records the position; the next pass computes its delta
from that recorded position. -/
theorem C13_first_pot_sample (s : State) (buff buff2 : ui_data_t)
    (hi : s.initialized = false) (h0 : s.pot_accumulator = 0) :
    State.init.initialized = false ∧ State.init.pot_accumulator = 0
    ∧ (enqueue_pot_keys s buff).pushed = s.pushed
    ∧ (enqueue_pot_keys s buff).queue = s.queue
    ∧ (enqueue_pot_keys s buff).pot_accumulator = 0
    ∧ (enqueue_pot_keys s buff).last_position = buff.pot_positions.getD 0 0
    ∧ (enqueue_pot_keys s buff).initialized = true
    ∧ 25 * (((List.count KEY_POT_UP
                (enqueue_pot_keys (enqueue_pot_keys s buff) buff2).pushed : Int)
              - (List.count KEY_POT_UP s.pushed : Int))
            - ((List.count KEY_POT_DOWN
                (enqueue_pot_keys (enqueue_pot_keys s buff) buff2).pushed : Int)
              - (List.count KEY_POT_DOWN s.pushed : Int)))
        + (enqueue_pot_keys (enqueue_pot_keys s buff) buff2).pot_accumulator
      = pot_diff (buff2.pot_positions.getD 0 0) (buff.pot_positions.getD 0 0) := by
  rw [enqueue_pot_keys_first s buff hi]
  refine ⟨rfl, rfl, rfl, rfl, h0, rfl, rfl, ?_⟩
  have hb := pot_diff_bound (buff2.pot_positions.getD 0 0) (buff.pot_positions.getD 0 0)
  have hbal := pot_pass_balance
    { s with last_position := buff.pot_positions.getD 0 0, initialized := true } buff2 rfl
  have hz : toInt32 (s.pot_accumulator
      + pot_diff (buff2.pot_positions.getD 0 0) (buff.pot_positions.getD 0 0))
      = pot_diff (buff2.pot_positions.getD 0 0) (buff.pot_positions.getD 0 0) := by
    rw [h0, zero_add, toInt32_of_range _ (by omega)]
  rw [hz] at hbal
  rw [enqueue_pot_keys_pushed, enqueue_pot_keys_acc, List.count_append, List.count_append]
  push_cast
  omega

theorem C13_first_pot_sample_witness :
    (init_i2c_kbd State.init).initialized = false
    ∧ (init_i2c_kbd State.init).pot_accumulator = 0
    ∧ (State.init.initialized = false ∧ State.init.pot_accumulator = 0
      ∧ (enqueue_pot_keys (init_i2c_kbd State.init) (mkSample 0 0 0 700)).pushed
          = (init_i2c_kbd State.init).pushed
      ∧ (enqueue_pot_keys (init_i2c_kbd State.init) (mkSample 0 0 0 700)).queue
          = (init_i2c_kbd State.init).queue
      ∧ (enqueue_pot_keys (init_i2c_kbd State.init) (mkSample 0 0 0 700)).pot_accumulator = 0
      ∧ (enqueue_pot_keys (init_i2c_kbd State.init) (mkSample 0 0 0 700)).last_position
          = (mkSample 0 0 0 700).pot_positions.getD 0 0
      ∧ (enqueue_pot_keys (init_i2c_kbd State.init) (mkSample 0 0 0 700)).initialized = true
      ∧ 25 * (((List.count KEY_POT_UP
                  (enqueue_pot_keys (enqueue_pot_keys (init_i2c_kbd State.init)
                    (mkSample 0 0 0 700)) (mkSample 0 0 0 760)).pushed : Int)
                - (List.count KEY_POT_UP (init_i2c_kbd State.init).pushed : Int))
              - ((List.count KEY_POT_DOWN
                  (enqueue_pot_keys (enqueue_pot_keys (init_i2c_kbd State.init)
                    (mkSample 0 0 0 700)) (mkSample 0 0 0 760)).pushed : Int)
                - (List.count KEY_POT_DOWN (init_i2c_kbd State.init).pushed : Int)))
          + (enqueue_pot_keys (enqueue_pot_keys (init_i2c_kbd State.init)
              (mkSample 0 0 0 700)) (mkSample 0 0 0 760)).pot_accumulator
        = pot_diff ((mkSample 0 0 0 760).pot_positions.getD 0 0)
            ((mkSample 0 0 0 700).pot_positions.getD 0 0)) :=
  ⟨by decide, by decide,
   C13_first_pot_sample (init_i2c_kbd State.init) (mkSample 0 0 0 700) (mkSample 0 0 0 760)
     (by decide) (by decide)⟩

/-! ## C14: scenario B -/

/-- C14: starting from the initial potentiometer state, passes of
`enqueue_pot_keys` over channel-0 positions 1000, 1010, 1020, 5 compute the
corrected deltas +10, +10, +9, push exactly one `KEY_POT_UP` and no
`KEY_POT_DOWN`, and leave the accumulator at 4. -/
theorem C14_scenario_B (s : State) (b1 b2 b3 b4 : ui_data_t)
    (hi : s.initialized = false) (h0 : s.pot_accumulator = 0)
    (h1 : b1.pot_positions.getD 0 0 = 1000) (h2 : b2.pot_positions.getD 0 0 = 1010)
    (h3 : b3.pot_positions.getD 0 0 = 1020) (h4 : b4.pot_positions.getD 0 0 = 5) :
    pot_deltas (b1.pot_positions.getD 0 0) [b2, b3, b4] = [10, 10, 9]
    ∧ (pot_passes s [b1, b2, b3, b4]).pushed = s.pushed ++ [KEY_POT_UP]
    ∧ (pot_passes s [b1, b2, b3, b4]).pot_accumulator = 4 := by
  have d1 : pot_diff 1010 1000 = 10 := by decide
  have d2 : pot_diff 1020 1010 = 10 := by decide
  have d3 : pot_diff 5 1020 = 9 := by decide
  have e1 : toInt32 10 = 10 := by decide
  have e2 : toInt32 20 = 20 := by decide
  have e3 : toInt32 29 = 29 := by decide
  have u1 : pot_up_count 10 = 0 := by decide
  have u2 : pot_up_count 20 = 0 := by decide
  have u3 : pot_up_count 29 = 1 := by decide
  have w1 : pot_down_count 10 = 0 := by decide
  have w2 : pot_down_count 20 = 0 := by decide
  have w3 : pot_down_count 4 = 0 := by decide
  refine ⟨?_, ?_, ?_⟩
  · simp only [pot_deltas, h1, h2, h3, h4, d1, d2, d3]
  · simp only [pot_passes, List.foldl_cons, List.foldl_nil]
    rw [enqueue_pot_keys_first s b1 hi]
    simp only [enqueue_pot_keys_pushed, pot_events, enqueue_pot_keys_acc, pot_acc_after,
      enqueue_pot_keys_eq, State.pushes]
    simp only [h0, h1, h2, h3, h4]
    simp [d1, d2, d3, e1, e2, e3, u1, u2, u3, w1, w2, w3]
  · simp only [pot_passes, List.foldl_cons, List.foldl_nil]
    rw [enqueue_pot_keys_first s b1 hi]
    simp only [enqueue_pot_keys_pushed, pot_events, enqueue_pot_keys_acc, pot_acc_after,
      enqueue_pot_keys_eq, State.pushes]
    simp only [h0, h1, h2, h3, h4]
    simp [d1, d2, d3, e1, e2, e3, u1, u2, u3, w1, w2, w3]

theorem C14_scenario_B_witness :
    (init_i2c_kbd State.init).initialized = false
    ∧ (init_i2c_kbd State.init).pot_accumulator = 0
    ∧ (mkSample 0 0 0 1000).pot_positions.getD 0 0 = 1000
    ∧ (mkSample 0 0 0 1010).pot_positions.getD 0 0 = 1010
    ∧ (mkSample 0 0 0 1020).pot_positions.getD 0 0 = 1020
    ∧ (mkSample 0 0 0 5).pot_positions.getD 0 0 = 5
    ∧ (pot_deltas ((mkSample 0 0 0 1000).pot_positions.getD 0 0)
          [mkSample 0 0 0 1010, mkSample 0 0 0 1020, mkSample 0 0 0 5] = [10, 10, 9]
      ∧ (pot_passes (init_i2c_kbd State.init)
          [mkSample 0 0 0 1000, mkSample 0 0 0 1010, mkSample 0 0 0 1020,
           mkSample 0 0 0 5]).pushed = (init_i2c_kbd State.init).pushed ++ [KEY_POT_UP]
      ∧ (pot_passes (init_i2c_kbd State.init)
          [mkSample 0 0 0 1000, mkSample 0 0 0 1010, mkSample 0 0 0 1020,
           mkSample 0 0 0 5]).pot_accumulator = 4) :=
  ⟨by decide, by decide, by decide, by decide, by decide, by decide,
   C14_scenario_B (init_i2c_kbd State.init) (mkSample 0 0 0 1000) (mkSample 0 0 0 1010)
     (mkSample 0 0 0 1020) (mkSample 0 0 0 5)
     (by decide) (by decide) (by decide) (by decide) (by decide) (by decide)⟩

/-! ## C15: bus failure -/

theorem i2c_kbd_poll_failure (s : State) (now : Nat) (retval : Int) (buf : ui_data_t)
    (herr : retval = PICO_ERROR_TIMEOUT ∨ retval = PICO_ERROR_GENERIC) :
    i2c_kbd_poll s now retval buf = s := by
  unfold i2c_kbd_poll
  split
  · rfl
  · split
    · rfl
    · rw [if_pos herr.symm]

/-- C15: when the bus read returns `PICO_ERROR_TIMEOUT` or `PICO_ERROR_GENERIC`,
`i2c_kbd_poll` returns the state it was given (timestamp, histories, counters,
potentiometer state, accumulator, latest masks, queue and push history all
unchanged); so a following poll behaves exactly as if the failed attempt had
not taken place. -/
theorem C15_bus_failure_atomic (s : State) (now : Nat) (retval : Int) (buf : ui_data_t)
    (now2 : Nat) (retval2 : Int) (buf2 : ui_data_t)
    (herr : retval = PICO_ERROR_TIMEOUT ∨ retval = PICO_ERROR_GENERIC) :
    i2c_kbd_poll s now retval buf = s
    ∧ i2c_kbd_poll (i2c_kbd_poll s now retval buf) now2 retval2 buf2
        = i2c_kbd_poll s now2 retval2 buf2 := by
  rw [i2c_kbd_poll_failure s now retval buf herr]
  exact ⟨rfl, rfl⟩

theorem C15_bus_failure_atomic_witness :
    (PICO_ERROR_TIMEOUT = PICO_ERROR_TIMEOUT ∨ PICO_ERROR_TIMEOUT = PICO_ERROR_GENERIC)
    ∧ (i2c_kbd_poll demoState 6000 PICO_ERROR_TIMEOUT (mkSample 1 1 4 300) = demoState
      ∧ i2c_kbd_poll (i2c_kbd_poll demoState 6000 PICO_ERROR_TIMEOUT (mkSample 1 1 4 300))
          9000 38 (mkSample 1 0 0 0)
        = i2c_kbd_poll demoState 9000 38 (mkSample 1 0 0 0)) :=
  ⟨Or.inl rfl,
   C15_bus_failure_atomic demoState 6000 PICO_ERROR_TIMEOUT (mkSample 1 1 4 300)
     9000 38 (mkSample 1 0 0 0) (Or.inl rfl)⟩

/-! ## C16: rate gate -/

theorem i2c_kbd_poll_traced_fst (s : State) (now : Nat) (retval : Int) (buf : ui_data_t) :
    (i2c_kbd_poll_traced s now retval buf).1 = i2c_kbd_poll s now retval buf := by
  unfold i2c_kbd_poll_traced i2c_kbd_poll
  split
  · rfl
  · split
    · rfl
    · split <;> rfl

/-- C16: for every state, bus outcome and time `now1` less than 2500
microseconds after `last_poll_time`, `i2c_kbd_poll` does not reach the bus read
and returns the state unchanged; at a time `now2` 2500 microseconds or more
after it, the bus read is reached exactly when the device is initialised. -/
theorem C16_rate_gate (s : State) (now1 now2 : Nat) (retval : Int) (buf : ui_data_t)
    (h1 : absolute_time_diff_us s.last_poll_time now1 < 2500)
    (h2 : 2500 ≤ absolute_time_diff_us s.last_poll_time now2) :
    i2c_kbd_poll_traced s now1 retval buf = (s, false)
    ∧ i2c_kbd_poll s now1 retval buf = s
    ∧ (i2c_kbd_poll_traced s now2 retval buf).2 = (s.i2c_inited != 0)
    ∧ (i2c_kbd_poll_traced s now2 retval buf).1 = i2c_kbd_poll s now2 retval buf := by
  have e1 : i2c_kbd_poll_traced s now1 retval buf = (s, false) := by
    unfold i2c_kbd_poll_traced
    rw [if_pos h1]
    split <;> rfl
  refine ⟨e1, ?_, ?_, i2c_kbd_poll_traced_fst s now2 retval buf⟩
  · rw [← i2c_kbd_poll_traced_fst, e1]
  · unfold i2c_kbd_poll_traced
    by_cases hi : s.i2c_inited = 0
    · simp [hi]
    · rw [if_neg hi, if_neg (not_lt.mpr h2)]
      split <;> simp [hi]

theorem C16_rate_gate_witness :
    absolute_time_diff_us demoState.last_poll_time 4999 < 2500
    ∧ 2500 ≤ absolute_time_diff_us demoState.last_poll_time 5000
    ∧ (i2c_kbd_poll_traced demoState 4999 38 (mkSample 1 0 0 0) = (demoState, false)
      ∧ i2c_kbd_poll demoState 4999 38 (mkSample 1 0 0 0) = demoState
      ∧ (i2c_kbd_poll_traced demoState 5000 38 (mkSample 1 0 0 0)).2
          = (demoState.i2c_inited != 0)
      ∧ (i2c_kbd_poll_traced demoState 5000 38 (mkSample 1 0 0 0)).1
          = i2c_kbd_poll demoState 5000 38 (mkSample 1 0 0 0)) :=
  ⟨by decide, by decide,
   C16_rate_gate demoState 4999 5000 38 (mkSample 1 0 0 0) (by decide) (by decide)⟩

/-! ## C17: re-decoding an unchanged sample -/

/-- The histories a decode pass leaves behind. -/
theorem decode_sample_fields (s : State) (buf : ui_data_t) (hlen : s.repeat_ticks.length = 4) :
    (decode_sample s buf).dir_last_btns = buf.mcl_btns
    ∧ (decode_sample s buf).dir_last_long = buf.mcl_btns_long_press
    ∧ (decode_sample s buf).last_long_fn = buf.f_btns_long_press
    ∧ (decode_sample s buf).pager_last_btns = buf.mcl_btns
    ∧ (decode_sample s buf).last_position = buf.pot_positions.getD 0 0
    ∧ (decode_sample s buf).initialized = true
    ∧ (decode_sample s buf).pot_accumulator = pot_acc_after s buf
    ∧ (decode_sample s buf).repeat_ticks.length = 4 := by
  rw [decode_sample_eq s buf hlen]
  exact ⟨rfl, rfl, rfl, rfl, rfl, rfl, rfl, rfl⟩

/-- When every history already holds the values of the sample, the position is
the recorded one and the accumulator is settled, a decode pass pushes only
what the auto-repeat loop pushes. -/
theorem decode_events_of_unchanged (s : State) (buf : ui_data_t)
    (h1 : s.dir_last_btns = buf.mcl_btns) (h2 : s.dir_last_long = buf.mcl_btns_long_press)
    (h3 : s.last_long_fn = buf.f_btns_long_press) (h4 : s.pager_last_btns = buf.mcl_btns)
    (hpot : s.initialized = true → buf.pot_positions.getD 0 0 = s.last_position)
    (hacc : -25 < s.pot_accumulator ∧ s.pot_accumulator < 25) :
    decode_events s buf
      = eventsOf (fun idx => repeat_events (bit_set buf.mcl_btns_long_press idx)
          (s.repeat_ticks.getD idx 0) idx) [0, 1, 2, 3] := by
  unfold decode_events direction_events
  rw [pot_events_of_unchanged s buf hpot hacc]
  simp [function_events, pager_events, edge_events, eventsOf, mapping, h1, h2, h3, h4]

theorem repeat_tick_le (l : Bool) (t : Nat) : repeat_tick l t ≤ 3 := by
  unfold repeat_tick repeat_threshold
  split
  · split <;> omega
  · omega

theorem direction_ticks_le (s : State) (buf : ui_data_t) (idx : Nat) :
    (direction_ticks s buf).getD idx 0 ≤ 3 := by
  by_cases h : idx < 4
  · rw [direction_ticks_getD s buf idx h]
    exact repeat_tick_le _ _
  · have : (direction_ticks s buf).length ≤ idx := by
      simp [direction_ticks]; omega
    rw [List.getD_eq_default _ _ this]
    omega

/-- With a counter of at most 3 the increment does not wrap: iteration `idx` of
the auto-repeat loop pushes the fast code of row `idx` exactly when the
long-press bit is set and the incremented counter is 4. -/
theorem repeat_events_of_le (l : Bool) (t idx : Nat) (ht : t ≤ 3) :
    repeat_events l t idx
      = if l = true ∧ t + 1 = 4 then [(mapping.getD idx default).fast_key] else [] := by
  unfold repeat_events repeat_threshold
  cases l
  · simp
  · interval_cases t <;> simp

/-- With a counter of at most 3 the counter left by iteration `idx` of the
auto-repeat loop. -/
theorem repeat_tick_of_le (l : Bool) (t : Nat) (ht : t ≤ 3) :
    repeat_tick l t = if l = true then (if t + 1 = 4 then 0 else t + 1) else 0 := by
  unfold repeat_tick repeat_threshold
  cases l
  · simp
  · interval_cases t <;> simp

/-- C17 (as stated, refuted): four successful polls of the same sample, whose
pressed and long-pressed masks have bit 0 set. The fourth poll re-decodes a
sample that was decoded before and is unchanged, and pushes `KEY_LEFT_FAST`. -/
theorem C17_redecode_pushes_repeat :
    (i2c_kbd_poll (i2c_kbd_poll (i2c_kbd_poll (i2c_kbd_poll (init_i2c_kbd State.init)
        2500 38 (mkSample 1 1 0 0)) 5000 38 (mkSample 1 1 0 0)) 7500 38 (mkSample 1 1 0 0))
        10000 38 (mkSample 1 1 0 0)).pushed
      = (i2c_kbd_poll (i2c_kbd_poll (i2c_kbd_poll (init_i2c_kbd State.init)
          2500 38 (mkSample 1 1 0 0)) 5000 38 (mkSample 1 1 0 0))
          7500 38 (mkSample 1 1 0 0)).pushed ++ [KEY_LEFT_FAST]
    ∧ (i2c_kbd_poll (i2c_kbd_poll (i2c_kbd_poll (init_i2c_kbd State.init)
          2500 38 (mkSample 1 1 0 0)) 5000 38 (mkSample 1 1 0 0))
          7500 38 (mkSample 1 1 0 0)).pushed = [KEY_LEFT, KEY_LEFT] := by
  decide

/-- C17 (amended): for every state (counters array of size 4; position
initialised or accumulator settled, as in every reachable state) and every
sample S, after S has been decoded once every repeat counter is at most 3, and
decoding the unchanged S again pushes exactly this, in this order, and nothing
else: `KEY_LEFT_FAST` if long-press bit 0 of S is set and counter 0 is 3 (its
increment reaches 4), then `KEY_DOWN_FAST` likewise for bit and counter 1,
`KEY_RIGHT_FAST` for 2 and `KEY_UP_FAST` for 3. The counter of an index whose
long-press bit is set goes to 0 when it pushes and up by one otherwise; the
counter of an index whose bit is clear goes to 0. When bits 0..3 of the
long-pressed mask of S are clear, zero additional events are pushed. -/
theorem C17_idempotence (s : State) (S : ui_data_t)
    (hlen : s.repeat_ticks.length = 4)
    (hpot : s.initialized = true ∨ (-25 < s.pot_accumulator ∧ s.pot_accumulator < 25)) :
    (decode_sample (decode_sample s S) S).pushed
      = (decode_sample s S).pushed
        ++ (if bit_set S.mcl_btns_long_press 0 = true
              ∧ (decode_sample s S).repeat_ticks.getD 0 0 + 1 = 4 then [KEY_LEFT_FAST] else [])
        ++ (if bit_set S.mcl_btns_long_press 1 = true
              ∧ (decode_sample s S).repeat_ticks.getD 1 0 + 1 = 4 then [KEY_DOWN_FAST] else [])
        ++ (if bit_set S.mcl_btns_long_press 2 = true
              ∧ (decode_sample s S).repeat_ticks.getD 2 0 + 1 = 4 then [KEY_RIGHT_FAST] else [])
        ++ (if bit_set S.mcl_btns_long_press 3 = true
              ∧ (decode_sample s S).repeat_ticks.getD 3 0 + 1 = 4 then [KEY_UP_FAST] else [])
    ∧ (∀ idx, (decode_sample s S).repeat_ticks.getD idx 0 ≤ 3)
    ∧ (∀ idx, idx < 4 →
        (decode_sample (decode_sample s S) S).repeat_ticks.getD idx 0
          = if bit_set S.mcl_btns_long_press idx = true then
              (if (decode_sample s S).repeat_ticks.getD idx 0 + 1 = 4 then 0
               else (decode_sample s S).repeat_ticks.getD idx 0 + 1)
            else 0)
    ∧ ((∀ idx, idx < 4 → bit_set S.mcl_btns_long_press idx = false) →
        (decode_sample (decode_sample s S) S).pushed = (decode_sample s S).pushed) := by
  obtain ⟨f1, f2, f3, f4, f5, f6, f7, f8⟩ := decode_sample_fields s S hlen
  have hacc : -25 < (decode_sample s S).pot_accumulator
      ∧ (decode_sample s S).pot_accumulator < 25 := by
    rw [f7]
    unfold pot_acc_after
    cases hi : s.initialized
    · rcases hpot with h | h
      · rw [hi] at h; cases h
      · simpa using h
    · simpa using pot_settle_bounds _
  have ht : ∀ idx, (decode_sample s S).repeat_ticks.getD idx 0 ≤ 3 := by
    intro idx
    rw [decode_sample_ticks s S hlen]
    exact direction_ticks_le s S idx
  have hev := decode_events_of_unchanged (decode_sample s S) S f1 f2 f3 f4
    (fun _ => f5.symm) hacc
  have hpush : (decode_sample (decode_sample s S) S).pushed
      = (decode_sample s S).pushed
        ++ (if bit_set S.mcl_btns_long_press 0 = true
              ∧ (decode_sample s S).repeat_ticks.getD 0 0 + 1 = 4 then [KEY_LEFT_FAST] else [])
        ++ (if bit_set S.mcl_btns_long_press 1 = true
              ∧ (decode_sample s S).repeat_ticks.getD 1 0 + 1 = 4 then [KEY_DOWN_FAST] else [])
        ++ (if bit_set S.mcl_btns_long_press 2 = true
              ∧ (decode_sample s S).repeat_ticks.getD 2 0 + 1 = 4 then [KEY_RIGHT_FAST] else [])
        ++ (if bit_set S.mcl_btns_long_press 3 = true
              ∧ (decode_sample s S).repeat_ticks.getD 3 0 + 1 = 4 then [KEY_UP_FAST] else []) := by
    rw [decode_sample_pushed _ S f8, hev]
    simp only [eventsOf, repeat_events_of_le _ _ _ (ht 0), repeat_events_of_le _ _ _ (ht 1),
      repeat_events_of_le _ _ _ (ht 2), repeat_events_of_le _ _ _ (ht 3), List.append_nil,
      List.append_assoc]
    rfl
  refine ⟨hpush, ht, ?_, ?_⟩
  · intro idx hidx
    rw [decode_sample_ticks _ S f8, direction_ticks_getD _ S idx hidx,
      repeat_tick_of_le _ _ (ht idx)]
  · intro hall
    rw [hpush]
    simp [hall 0 (by decide), hall 1 (by decide), hall 2 (by decide), hall 3 (by decide)]

set_option maxRecDepth 8000 in
theorem C17_idempotence_witness :
    (decode_samples demoState (List.replicate 2 (mkSample 3 1 4 700))).repeat_ticks.length = 4
    ∧ ((decode_samples demoState (List.replicate 2 (mkSample 3 1 4 700))).initialized = true
        ∨ (-25 < (decode_samples demoState
              (List.replicate 2 (mkSample 3 1 4 700))).pot_accumulator
          ∧ (decode_samples demoState
              (List.replicate 2 (mkSample 3 1 4 700))).pot_accumulator < 25))
    ∧ (decode_sample (decode_sample (decode_samples demoState
          (List.replicate 2 (mkSample 3 1 4 700))) (mkSample 3 1 4 700))
          (mkSample 3 1 4 700)).pushed
        = (decode_sample (decode_samples demoState (List.replicate 2 (mkSample 3 1 4 700)))
            (mkSample 3 1 4 700)).pushed ++ [KEY_LEFT_FAST]
    ∧ ((decode_sample (decode_sample (decode_samples demoState
          (List.replicate 2 (mkSample 3 1 4 700))) (mkSample 3 1 4 700))
          (mkSample 3 1 4 700)).pushed
        = (decode_sample (decode_samples demoState (List.replicate 2 (mkSample 3 1 4 700)))
            (mkSample 3 1 4 700)).pushed
          ++ (if bit_set (mkSample 3 1 4 700).mcl_btns_long_press 0 = true
                ∧ (decode_sample (decode_samples demoState
                    (List.replicate 2 (mkSample 3 1 4 700)))
                    (mkSample 3 1 4 700)).repeat_ticks.getD 0 0 + 1 = 4
              then [KEY_LEFT_FAST] else [])
          ++ (if bit_set (mkSample 3 1 4 700).mcl_btns_long_press 1 = true
                ∧ (decode_sample (decode_samples demoState
                    (List.replicate 2 (mkSample 3 1 4 700)))
                    (mkSample 3 1 4 700)).repeat_ticks.getD 1 0 + 1 = 4
              then [KEY_DOWN_FAST] else [])
          ++ (if bit_set (mkSample 3 1 4 700).mcl_btns_long_press 2 = true
                ∧ (decode_sample (decode_samples demoState
                    (List.replicate 2 (mkSample 3 1 4 700)))
                    (mkSample 3 1 4 700)).repeat_ticks.getD 2 0 + 1 = 4
              then [KEY_RIGHT_FAST] else [])
          ++ (if bit_set (mkSample 3 1 4 700).mcl_btns_long_press 3 = true
                ∧ (decode_sample (decode_samples demoState
                    (List.replicate 2 (mkSample 3 1 4 700)))
                    (mkSample 3 1 4 700)).repeat_ticks.getD 3 0 + 1 = 4
              then [KEY_UP_FAST] else [])
      ∧ (∀ idx, (decode_sample (decode_samples demoState
            (List.replicate 2 (mkSample 3 1 4 700)))
            (mkSample 3 1 4 700)).repeat_ticks.getD idx 0 ≤ 3)
      ∧ (∀ idx, idx < 4 →
          (decode_sample (decode_sample (decode_samples demoState
              (List.replicate 2 (mkSample 3 1 4 700))) (mkSample 3 1 4 700))
              (mkSample 3 1 4 700)).repeat_ticks.getD idx 0
            = if bit_set (mkSample 3 1 4 700).mcl_btns_long_press idx = true then
                (if (decode_sample (decode_samples demoState
                      (List.replicate 2 (mkSample 3 1 4 700)))
                      (mkSample 3 1 4 700)).repeat_ticks.getD idx 0 + 1 = 4 then 0
                 else (decode_sample (decode_samples demoState
                      (List.replicate 2 (mkSample 3 1 4 700)))
                      (mkSample 3 1 4 700)).repeat_ticks.getD idx 0 + 1)
              else 0)
      ∧ ((∀ idx, idx < 4 → bit_set (mkSample 3 1 4 700).mcl_btns_long_press idx = false) →
          (decode_sample (decode_sample (decode_samples demoState
              (List.replicate 2 (mkSample 3 1 4 700))) (mkSample 3 1 4 700))
              (mkSample 3 1 4 700)).pushed
            = (decode_sample (decode_samples demoState (List.replicate 2 (mkSample 3 1 4 700)))
                (mkSample 3 1 4 700)).pushed)) :=
  ⟨by decide, by decide, by decide,
   C17_idempotence (decode_samples demoState (List.replicate 2 (mkSample 3 1 4 700)))
     (mkSample 3 1 4 700) (by decide) (by decide)⟩

/-! ## C18: scenario A -/

theorem bit_set_one_zero : bit_set 1 0 = true := by decide

/-- Pushing one key above `KEY_NONE` onto an empty queue and popping returns
that key and leaves an empty queue. -/
theorem push_pop_of_empty (q : Queue) (k : keycode_t) (hq : q.WF)
    (he : queue_is_empty q = true) (hk : KEY_NONE < k) :
    (queue_pop (queue_push q k)).1 = k
    ∧ queue_is_empty (queue_pop (queue_push q k)).2 = true := by
  have hsz : q.size = 0 := (queue_is_empty_iff q hq).mp he
  have hnf : queue_is_full q = false := by
    cases hf : queue_is_full q with
    | false => rfl
    | true => have := (queue_is_full_iff q hq).mp hf; omega
  have hp0 : q.pending = [] := by
    rw [← List.length_eq_zero, Queue.pending_length, hsz]
  have hp := pending_push_of_not_full q k hq hk hnf
  rw [hp0, List.nil_append] at hp
  have hq2 := queue_push_WF q k hq
  have hne : queue_is_empty (queue_push q k) = false := by
    cases hx : queue_is_empty (queue_push q k) with
    | false => rfl
    | true =>
      have h0 := (queue_is_empty_iff _ hq2).mp hx
      rw [← Queue.pending_length, hp] at h0
      simp at h0
  have hpop := pending_pop_of_not_empty _ hq2 hne
  rw [hp] at hpop
  have h1 : k = (queue_pop (queue_push q k)).1 := (List.cons.inj hpop).1
  have h2 : [] = (queue_pop (queue_push q k)).2.pending := (List.cons.inj hpop).2
  refine ⟨h1.symm, ?_⟩
  rw [queue_is_empty_iff _ (queue_pop_WF _ hq2), ← Queue.pending_length, ← h2]
  rfl

theorem i2c_kbd_poll_gated (t : State) (now : Nat) (retval : Int) (buf : ui_data_t)
    (hg : absolute_time_diff_us t.last_poll_time now < 2500) :
    i2c_kbd_poll t now retval buf = t := by
  unfold i2c_kbd_poll
  rw [if_pos hg]
  split <;> rfl

/-- A read whose poll is rate-gated, on an empty queue, returns -1. -/
theorem read_i2c_kbd_gated_empty (t : State) (now : Nat) (retval : Int) (buf : ui_data_t)
    (he : queue_is_empty t.queue = true)
    (hg : absolute_time_diff_us t.last_poll_time now < 2500) :
    (read_i2c_kbd t now retval buf).1 = -1 := by
  unfold read_i2c_kbd get_key_from_queue
  rw [i2c_kbd_poll_gated t now retval buf hg]
  simp [State.pop, queue_pop, he]

/-- C18: from a state with an empty queue and zero pressed-mask histories
(position not moved, accumulator settled), when the poll made by `read_i2c_kbd`
is successful and decodes a sample whose only set bit is bit 0 of the pressed
mask, that call returns `KEY_LEFT` (0x81); a second `read_i2c_kbd` call less than
2500 microseconds later returns -1. -/
theorem C18_scenario_A (s : State) (now : Nat) (retval : Int) (buf : ui_data_t)
    (now2 : Nat) (retval2 : Int) (buf2 : ui_data_t)
    (hq : s.queue.WF) (hempty : queue_is_empty s.queue = true)
    (hlen : s.repeat_ticks.length = 4)
    (hinit : s.i2c_inited ≠ 0) (hgate : 2500 ≤ absolute_time_diff_us s.last_poll_time now)
    (hok : retval ≠ PICO_ERROR_GENERIC ∧ retval ≠ PICO_ERROR_TIMEOUT)
    (hd : s.dir_last_btns = 0) (hp : s.pager_last_btns = 0)
    (hpot : s.initialized = true → buf.pot_positions.getD 0 0 = s.last_position)
    (hacc : -25 < s.pot_accumulator ∧ s.pot_accumulator < 25)
    (hb : buf.mcl_btns = 1) (hl : buf.mcl_btns_long_press = 0)
    (hf : buf.f_btns_long_press = 0)
    (hgate2 : absolute_time_diff_us now now2 < 2500) :
    (read_i2c_kbd s now retval buf).1 = 0x81
    ∧ (read_i2c_kbd (read_i2c_kbd s now retval buf).2 now2 retval2 buf2).1 = -1 := by
  have hev : decode_events { s with last_poll_time := now } buf = [KEY_LEFT] := by
    rw [decode_events_press_only { s with last_poll_time := now } buf hl hf hpot hacc]
    simp [hb, hd, hp, bit_set_zero, bit_set_one, bit_set_one_zero]
  have hpoll : i2c_kbd_poll s now retval buf
      = { (State.pushes { s with last_poll_time := now } [KEY_LEFT]) with
          latest_mcl_btns := buf.mcl_btns
          latest_mcl_btns_long := buf.mcl_btns_long_press
          repeat_ticks := direction_ticks { s with last_poll_time := now } buf
          dir_last_btns := buf.mcl_btns
          dir_last_long := buf.mcl_btns_long_press
          last_long_fn := buf.f_btns_long_press
          pager_last_btns := buf.mcl_btns
          pot_accumulator := pot_acc_after { s with last_poll_time := now } buf
          last_position := buf.pot_positions.getD 0 0
          initialized := true } := by
    rw [i2c_kbd_poll_success s now retval buf hinit hgate hok,
      decode_sample_eq { s with last_poll_time := now } buf hlen, hev]
  obtain ⟨hk, he2⟩ := push_pop_of_empty s.queue KEY_LEFT hq hempty (by decide)
  have hq1 : (i2c_kbd_poll s now retval buf).queue = queue_push s.queue KEY_LEFT := by
    rw [hpoll]; rfl
  have ht1 : (i2c_kbd_poll s now retval buf).last_poll_time = now := by
    rw [hpoll]; rfl
  have hr1 : (read_i2c_kbd s now retval buf).1 = 0x81 := by
    show (if (queue_pop (i2c_kbd_poll s now retval buf).queue).1 = KEY_NONE then (-1 : Int)
      else (queue_pop (i2c_kbd_poll s now retval buf).queue).1) = 0x81
    rw [hq1, hk]
    decide
  have hs2q : queue_is_empty (read_i2c_kbd s now retval buf).2.queue = true := by
    show queue_is_empty (queue_pop (i2c_kbd_poll s now retval buf).queue).2 = true
    rw [hq1]
    exact he2
  have hs2t : absolute_time_diff_us (read_i2c_kbd s now retval buf).2.last_poll_time now2
      < 2500 := by
    show absolute_time_diff_us (i2c_kbd_poll s now retval buf).last_poll_time now2 < 2500
    rw [ht1]
    exact hgate2
  exact ⟨hr1, read_i2c_kbd_gated_empty _ now2 retval2 buf2 hs2q hs2t⟩

theorem C18_scenario_A_witness :
    (init_i2c_kbd State.init).queue.WF
    ∧ queue_is_empty (init_i2c_kbd State.init).queue = true
    ∧ (init_i2c_kbd State.init).repeat_ticks.length = 4
    ∧ (init_i2c_kbd State.init).i2c_inited ≠ 0
    ∧ 2500 ≤ absolute_time_diff_us (init_i2c_kbd State.init).last_poll_time 2500
    ∧ ((38 : Int) ≠ PICO_ERROR_GENERIC ∧ (38 : Int) ≠ PICO_ERROR_TIMEOUT)
    ∧ (init_i2c_kbd State.init).dir_last_btns = 0
    ∧ (init_i2c_kbd State.init).pager_last_btns = 0
    ∧ ((init_i2c_kbd State.init).initialized = true →
        (mkSample 1 0 0 321).pot_positions.getD 0 0 = (init_i2c_kbd State.init).last_position)
    ∧ (-25 < (init_i2c_kbd State.init).pot_accumulator
        ∧ (init_i2c_kbd State.init).pot_accumulator < 25)
    ∧ (mkSample 1 0 0 321).mcl_btns = 1
    ∧ (mkSample 1 0 0 321).mcl_btns_long_press = 0
    ∧ (mkSample 1 0 0 321).f_btns_long_press = 0
    ∧ absolute_time_diff_us 2500 3000 < 2500
    ∧ ((read_i2c_kbd (init_i2c_kbd State.init) 2500 38 (mkSample 1 0 0 321)).1 = 0x81
      ∧ (read_i2c_kbd (read_i2c_kbd (init_i2c_kbd State.init) 2500 38 (mkSample 1 0 0 321)).2
          3000 38 (mkSample 2 0 0 0)).1 = -1) :=
  ⟨by decide, by decide, by decide, by decide, by decide, by decide, by decide, by decide,
   by decide, by decide, rfl, rfl, rfl, by decide,
   C18_scenario_A (init_i2c_kbd State.init) 2500 38 (mkSample 1 0 0 321) 3000 38
     (mkSample 2 0 0 0) (by decide) (by decide) (by decide) (by decide) (by decide) (by decide)
     (by decide) (by decide) (by decide) (by decide) rfl rfl rfl (by decide)⟩

/-! ## C19: `init_i2c_kbd` -/

/-- C19 (as stated, refuted): after an init, a successful poll that decodes a
sample with bit 0 pressed and long-pressed and function long-press bit 2 set,
and a deinit, a second `init_i2c_kbd` leaves three events pending and the
histories non-zero. -/
theorem C19_reinit_keeps_state :
    (init_i2c_kbd (deinit_i2c_kbd (i2c_kbd_poll (init_i2c_kbd State.init) 2500 38
        (mkSample 1 1 4 0)))).queue.pending = [KEY_LEFT, KEY_LEFT, KEY_ENTER]
    ∧ queue_is_empty (init_i2c_kbd (deinit_i2c_kbd (i2c_kbd_poll (init_i2c_kbd State.init)
        2500 38 (mkSample 1 1 4 0)))).queue = false
    ∧ (init_i2c_kbd (deinit_i2c_kbd (i2c_kbd_poll (init_i2c_kbd State.init) 2500 38
        (mkSample 1 1 4 0)))).dir_last_btns = 1
    ∧ (init_i2c_kbd (deinit_i2c_kbd (i2c_kbd_poll (init_i2c_kbd State.init) 2500 38
        (mkSample 1 1 4 0)))).dir_last_long = 1
    ∧ (init_i2c_kbd (deinit_i2c_kbd (i2c_kbd_poll (init_i2c_kbd State.init) 2500 38
        (mkSample 1 1 4 0)))).repeat_ticks = [1, 0, 0, 0]
    ∧ (init_i2c_kbd (deinit_i2c_kbd (i2c_kbd_poll (init_i2c_kbd State.init) 2500 38
        (mkSample 1 1 4 0)))).last_long_fn = 4
    ∧ (init_i2c_kbd (deinit_i2c_kbd (i2c_kbd_poll (init_i2c_kbd State.init) 2500 38
        (mkSample 1 1 4 0)))).pager_last_btns = 1 := by
  decide

/-- C19 (amended): for every prior state `init_i2c_kbd` sets `i2c_inited` to 1
and leaves the event queue and every channel history (previous pressed and
long-pressed masks, repeat counters, previous function mask, previous pager
mask, potentiometer state) exactly as they were; after the first init that
follows static initialisation the queue is empty and all histories are zero. -/
theorem C19_init_preserves (s : State) :
    (init_i2c_kbd s).i2c_inited = 1
    ∧ (init_i2c_kbd s).queue = s.queue
    ∧ (init_i2c_kbd s).dir_last_btns = s.dir_last_btns
    ∧ (init_i2c_kbd s).dir_last_long = s.dir_last_long
    ∧ (init_i2c_kbd s).repeat_ticks = s.repeat_ticks
    ∧ (init_i2c_kbd s).last_long_fn = s.last_long_fn
    ∧ (init_i2c_kbd s).pager_last_btns = s.pager_last_btns
    ∧ (init_i2c_kbd s).last_position = s.last_position
    ∧ (init_i2c_kbd s).initialized = s.initialized
    ∧ (init_i2c_kbd s).pot_accumulator = s.pot_accumulator
    ∧ queue_is_empty (init_i2c_kbd State.init).queue = true
    ∧ (init_i2c_kbd State.init).queue.pending = []
    ∧ (init_i2c_kbd State.init).dir_last_btns = 0
    ∧ (init_i2c_kbd State.init).dir_last_long = 0
    ∧ (init_i2c_kbd State.init).repeat_ticks = [0, 0, 0, 0]
    ∧ (init_i2c_kbd State.init).last_long_fn = 0
    ∧ (init_i2c_kbd State.init).pager_last_btns = 0 := by
  refine ⟨rfl, rfl, rfl, rfl, rfl, rfl, rfl, rfl, rfl, rfl, ?_⟩
  decide

/-! ## C20: function-button group -/

theorem enqueue_function_keys_pushed (s : State) (buff : ui_data_t) :
    (enqueue_function_keys s buff).pushed = s.pushed ++ function_events s buff := by
  rw [enqueue_function_keys_eq]
  rfl

/-- C20: `enqueue_function_keys` pushes `KEY_ENTER` exactly when bit 2 of the
function long-press mask is set in the current sample and clear in the mask
stored by the previous pass, and pushes nothing otherwise; it stores the
current long-press mask; and two samples that agree on bit 2 of the long-press
mask produce the same pushes whatever their other bits and their non-long
function mask are. -/
theorem C20_function_group (s : State) (prev cur cur2 : ui_data_t)
    (hsame : bit_set cur.f_btns_long_press 2 = bit_set cur2.f_btns_long_press 2) :
    (enqueue_function_keys s cur).pushed
      = s.pushed ++ (if bit_set cur.f_btns_long_press 2 = true ∧ bit_set s.last_long_fn 2 = false
          then [KEY_ENTER] else [])
    ∧ (enqueue_function_keys s cur).queue
      = pushAll s.queue (if bit_set cur.f_btns_long_press 2 = true
          ∧ bit_set s.last_long_fn 2 = false then [KEY_ENTER] else [])
    ∧ (enqueue_function_keys s cur).last_long_fn = cur.f_btns_long_press
    ∧ (enqueue_function_keys (enqueue_function_keys s prev) cur).pushed
      = (enqueue_function_keys s prev).pushed
        ++ (if bit_set cur.f_btns_long_press 2 = true ∧ bit_set prev.f_btns_long_press 2 = false
            then [KEY_ENTER] else [])
    ∧ (enqueue_function_keys s cur).pushed = (enqueue_function_keys s cur2).pushed
    ∧ (enqueue_function_keys s cur).queue = (enqueue_function_keys s cur2).queue := by
  have hform : ∀ (t : State) (b : ui_data_t), function_events t b
      = (if bit_set b.f_btns_long_press 2 = true ∧ bit_set t.last_long_fn 2 = false
          then [KEY_ENTER] else []) := by
    intro t b
    unfold function_events
    cases bit_set b.f_btns_long_press 2 <;> cases bit_set t.last_long_fn 2 <;> rfl
  have hq : ∀ (t : State) (b : ui_data_t),
      (enqueue_function_keys t b).queue = pushAll t.queue (function_events t b) := by
    intro t b
    rw [enqueue_function_keys_eq]
    rfl
  have hl : ∀ (t : State) (b : ui_data_t),
      (enqueue_function_keys t b).last_long_fn = b.f_btns_long_press := by
    intro t b
    rw [enqueue_function_keys_eq]
  refine ⟨?_, ?_, hl s cur, ?_, ?_, ?_⟩
  · rw [enqueue_function_keys_pushed, hform]
  · rw [hq, hform]
  · rw [enqueue_function_keys_pushed, hform, hl]
  · rw [enqueue_function_keys_pushed, enqueue_function_keys_pushed, hform, hform, hsame]
  · rw [hq, hq, hform, hform, hsame]

theorem C20_function_group_witness :
    bit_set (mkSample 0 0 4 0).f_btns_long_press 2
      = bit_set ({ mkSample 0 0 63 0 with f_btns := 63 }).f_btns_long_press 2
    ∧ ((enqueue_function_keys demoState (mkSample 0 0 4 0)).pushed
        = demoState.pushed ++ (if bit_set (mkSample 0 0 4 0).f_btns_long_press 2 = true
            ∧ bit_set demoState.last_long_fn 2 = false then [KEY_ENTER] else [])
      ∧ (enqueue_function_keys demoState (mkSample 0 0 4 0)).queue
        = pushAll demoState.queue (if bit_set (mkSample 0 0 4 0).f_btns_long_press 2 = true
            ∧ bit_set demoState.last_long_fn 2 = false then [KEY_ENTER] else [])
      ∧ (enqueue_function_keys demoState (mkSample 0 0 4 0)).last_long_fn
        = (mkSample 0 0 4 0).f_btns_long_press
      ∧ (enqueue_function_keys (enqueue_function_keys demoState (mkSample 0 0 59 0))
            (mkSample 0 0 4 0)).pushed
        = (enqueue_function_keys demoState (mkSample 0 0 59 0)).pushed
          ++ (if bit_set (mkSample 0 0 4 0).f_btns_long_press 2 = true
              ∧ bit_set (mkSample 0 0 59 0).f_btns_long_press 2 = false
              then [KEY_ENTER] else [])
      ∧ (enqueue_function_keys demoState (mkSample 0 0 4 0)).pushed
        = (enqueue_function_keys demoState { mkSample 0 0 63 0 with f_btns := 63 }).pushed
      ∧ (enqueue_function_keys demoState (mkSample 0 0 4 0)).queue
        = (enqueue_function_keys demoState { mkSample 0 0 63 0 with f_btns := 63 }).queue) :=
  ⟨by decide,
   C20_function_group demoState (mkSample 0 0 59 0) (mkSample 0 0 4 0)
     { mkSample 0 0 63 0 with f_btns := 63 } (by decide)⟩

/-! ## C21: pager group -/

/-- C21: `enqueue_pager_keys` pushes `KEY_PG_UP` exactly when bit 3 of the
pressed mask is set and was clear in the mask stored by its previous pass, then
`KEY_PG_DOWN` exactly when bit 1 is, and nothing else; it compares with and
stores into its own history and leaves the history of the directional group
alone; two samples with the same pressed mask produce the same pushes and queue
whatever their long-pressed masks are. -/
theorem C21_pager_group (s : State) (prev cur cur2 : ui_data_t)
    (hsame : cur.mcl_btns = cur2.mcl_btns) :
    (enqueue_pager_keys s cur).pushed
      = s.pushed
        ++ (if bit_set cur.mcl_btns 3 = true ∧ bit_set s.pager_last_btns 3 = false
            then [KEY_PG_UP] else [])
        ++ (if bit_set cur.mcl_btns 1 = true ∧ bit_set s.pager_last_btns 1 = false
            then [KEY_PG_DOWN] else [])
    ∧ (enqueue_pager_keys s cur).pager_last_btns = cur.mcl_btns
    ∧ (enqueue_pager_keys s cur).dir_last_btns = s.dir_last_btns
    ∧ (enqueue_pager_keys s cur).dir_last_long = s.dir_last_long
    ∧ (enqueue_pager_keys (enqueue_pager_keys s prev) cur).pushed
      = (enqueue_pager_keys s prev).pushed
        ++ (if bit_set cur.mcl_btns 3 = true ∧ bit_set prev.mcl_btns 3 = false
            then [KEY_PG_UP] else [])
        ++ (if bit_set cur.mcl_btns 1 = true ∧ bit_set prev.mcl_btns 1 = false
            then [KEY_PG_DOWN] else [])
    ∧ (enqueue_pager_keys s cur).pushed = (enqueue_pager_keys s cur2).pushed
    ∧ (enqueue_pager_keys s cur).queue = (enqueue_pager_keys s cur2).queue := by
  have hform : ∀ (t : State) (b : ui_data_t), pager_events t b
      = (if bit_set b.mcl_btns 3 = true ∧ bit_set t.pager_last_btns 3 = false
          then [KEY_PG_UP] else [])
        ++ (if bit_set b.mcl_btns 1 = true ∧ bit_set t.pager_last_btns 1 = false
          then [KEY_PG_DOWN] else []) := by
    intro t b
    unfold pager_events
    cases bit_set b.mcl_btns 3 <;> cases bit_set t.pager_last_btns 3 <;>
      cases bit_set b.mcl_btns 1 <;> cases bit_set t.pager_last_btns 1 <;> rfl
  have hp : ∀ (t : State) (b : ui_data_t),
      (enqueue_pager_keys t b).pushed = t.pushed ++ pager_events t b := by
    intro t b
    rw [enqueue_pager_keys_eq]
    rfl
  have hq : ∀ (t : State) (b : ui_data_t),
      (enqueue_pager_keys t b).queue = pushAll t.queue (pager_events t b) := by
    intro t b
    rw [enqueue_pager_keys_eq]
    rfl
  have hl : ∀ (t : State) (b : ui_data_t),
      (enqueue_pager_keys t b).pager_last_btns = b.mcl_btns := by
    intro t b
    rw [enqueue_pager_keys_eq]
  refine ⟨?_, hl s cur, ?_, ?_, ?_, ?_, ?_⟩
  · rw [hp, hform, List.append_assoc]
  · rw [enqueue_pager_keys_eq]; rfl
  · rw [enqueue_pager_keys_eq]; rfl
  · rw [hp, hform, hl, List.append_assoc]
  · rw [hp, hp, hform, hform, hsame]
  · rw [hq, hq, hform, hform, hsame]

theorem C21_pager_group_witness :
    (mkSample 10 0 0 0).mcl_btns = (mkSample 10 63 0 0).mcl_btns
    ∧ ((enqueue_pager_keys demoState (mkSample 10 0 0 0)).pushed
        = demoState.pushed
          ++ (if bit_set (mkSample 10 0 0 0).mcl_btns 3 = true
              ∧ bit_set demoState.pager_last_btns 3 = false then [KEY_PG_UP] else [])
          ++ (if bit_set (mkSample 10 0 0 0).mcl_btns 1 = true
              ∧ bit_set demoState.pager_last_btns 1 = false then [KEY_PG_DOWN] else [])
      ∧ (enqueue_pager_keys demoState (mkSample 10 0 0 0)).pager_last_btns
        = (mkSample 10 0 0 0).mcl_btns
      ∧ (enqueue_pager_keys demoState (mkSample 10 0 0 0)).dir_last_btns
        = demoState.dir_last_btns
      ∧ (enqueue_pager_keys demoState (mkSample 10 0 0 0)).dir_last_long
        = demoState.dir_last_long
      ∧ (enqueue_pager_keys (enqueue_pager_keys demoState (mkSample 8 0 0 0))
            (mkSample 10 0 0 0)).pushed
        = (enqueue_pager_keys demoState (mkSample 8 0 0 0)).pushed
          ++ (if bit_set (mkSample 10 0 0 0).mcl_btns 3 = true
              ∧ bit_set (mkSample 8 0 0 0).mcl_btns 3 = false then [KEY_PG_UP] else [])
          ++ (if bit_set (mkSample 10 0 0 0).mcl_btns 1 = true
              ∧ bit_set (mkSample 8 0 0 0).mcl_btns 1 = false then [KEY_PG_DOWN] else [])
      ∧ (enqueue_pager_keys demoState (mkSample 10 0 0 0)).pushed
        = (enqueue_pager_keys demoState (mkSample 10 63 0 0)).pushed
      ∧ (enqueue_pager_keys demoState (mkSample 10 0 0 0)).queue
        = (enqueue_pager_keys demoState (mkSample 10 63 0 0)).queue) :=
  ⟨rfl,
   C21_pager_group demoState (mkSample 8 0 0 0) (mkSample 10 0 0 0) (mkSample 10 63 0 0) rfl⟩

/-! ## C23: `i2c_kbd_get_mcl_state` -/

/-- C23: when the poll made by `i2c_kbd_get_mcl_state` is successful it yields
the two masks of the sample just read; called again when its poll is rate-gated
or the bus read fails it yields the same masks (those of the most recent
successful poll) and leaves the state unchanged; in every case the state it
leaves is the one `i2c_kbd_poll` leaves, so the queue changes only by what that
poll enqueues. -/
theorem C23_get_mcl_state (s : State) (now : Nat) (retval : Int) (buf : ui_data_t)
    (now2 : Nat) (retval2 : Int) (buf2 : ui_data_t)
    (hlen : s.repeat_ticks.length = 4)
    (hinit : s.i2c_inited ≠ 0) (hgate : 2500 ≤ absolute_time_diff_us s.last_poll_time now)
    (hok : retval ≠ PICO_ERROR_GENERIC ∧ retval ≠ PICO_ERROR_TIMEOUT)
    (hno : absolute_time_diff_us now now2 < 2500
      ∨ retval2 = PICO_ERROR_TIMEOUT ∨ retval2 = PICO_ERROR_GENERIC) :
    (i2c_kbd_get_mcl_state s now retval buf).1 = (buf.mcl_btns, buf.mcl_btns_long_press)
    ∧ (i2c_kbd_get_mcl_state s now retval buf).2 = i2c_kbd_poll s now retval buf
    ∧ (i2c_kbd_get_mcl_state (i2c_kbd_poll s now retval buf) now2 retval2 buf2).1
        = (buf.mcl_btns, buf.mcl_btns_long_press)
    ∧ (i2c_kbd_get_mcl_state (i2c_kbd_poll s now retval buf) now2 retval2 buf2).2
        = i2c_kbd_poll s now retval buf
    ∧ (∀ (t : State) (n : Nat) (r : Int) (b : ui_data_t),
        (i2c_kbd_get_mcl_state t n r b).2 = i2c_kbd_poll t n r b) := by
  have hsucc := i2c_kbd_poll_success s now retval buf hinit hgate hok
  have hfields : (i2c_kbd_poll s now retval buf).latest_mcl_btns = buf.mcl_btns
      ∧ (i2c_kbd_poll s now retval buf).latest_mcl_btns_long = buf.mcl_btns_long_press
      ∧ (i2c_kbd_poll s now retval buf).last_poll_time = now := by
    rw [hsucc, decode_sample_eq { s with last_poll_time := now } buf hlen]
    exact ⟨rfl, rfl, rfl⟩
  have hsame : i2c_kbd_poll (i2c_kbd_poll s now retval buf) now2 retval2 buf2
      = i2c_kbd_poll s now retval buf := by
    rcases hno with h | h
    · exact i2c_kbd_poll_gated _ now2 retval2 buf2 (by rw [hfields.2.2]; exact h)
    · exact i2c_kbd_poll_failure _ now2 retval2 buf2 h
  refine ⟨?_, rfl, ?_, ?_, fun _ _ _ _ => rfl⟩
  · show ((i2c_kbd_poll s now retval buf).latest_mcl_btns,
      (i2c_kbd_poll s now retval buf).latest_mcl_btns_long) = _
    rw [hfields.1, hfields.2.1]
  · show ((i2c_kbd_poll (i2c_kbd_poll s now retval buf) now2 retval2 buf2).latest_mcl_btns,
      (i2c_kbd_poll (i2c_kbd_poll s now retval buf) now2 retval2 buf2).latest_mcl_btns_long) = _
    rw [hsame, hfields.1, hfields.2.1]
  · show i2c_kbd_poll (i2c_kbd_poll s now retval buf) now2 retval2 buf2 = _
    exact hsame

theorem C23_get_mcl_state_witness :
    demoState.repeat_ticks.length = 4
    ∧ demoState.i2c_inited ≠ 0
    ∧ 2500 ≤ absolute_time_diff_us demoState.last_poll_time 5000
    ∧ ((38 : Int) ≠ PICO_ERROR_GENERIC ∧ (38 : Int) ≠ PICO_ERROR_TIMEOUT)
    ∧ (absolute_time_diff_us 5000 9000 < 2500
        ∨ PICO_ERROR_GENERIC = PICO_ERROR_TIMEOUT ∨ PICO_ERROR_GENERIC = PICO_ERROR_GENERIC)
    ∧ ((i2c_kbd_get_mcl_state demoState 5000 38 (mkSample 5 4 0 0)).1
          = ((mkSample 5 4 0 0).mcl_btns, (mkSample 5 4 0 0).mcl_btns_long_press)
      ∧ (i2c_kbd_get_mcl_state demoState 5000 38 (mkSample 5 4 0 0)).2
          = i2c_kbd_poll demoState 5000 38 (mkSample 5 4 0 0)
      ∧ (i2c_kbd_get_mcl_state (i2c_kbd_poll demoState 5000 38 (mkSample 5 4 0 0))
            9000 PICO_ERROR_GENERIC (mkSample 9 9 9 9)).1
          = ((mkSample 5 4 0 0).mcl_btns, (mkSample 5 4 0 0).mcl_btns_long_press)
      ∧ (i2c_kbd_get_mcl_state (i2c_kbd_poll demoState 5000 38 (mkSample 5 4 0 0))
            9000 PICO_ERROR_GENERIC (mkSample 9 9 9 9)).2
          = i2c_kbd_poll demoState 5000 38 (mkSample 5 4 0 0)
      ∧ (∀ (t : State) (n : Nat) (r : Int) (b : ui_data_t),
          (i2c_kbd_get_mcl_state t n r b).2 = i2c_kbd_poll t n r b)) :=
  ⟨by decide, by decide, by decide, by decide, Or.inr (Or.inr rfl),
   C23_get_mcl_state demoState 5000 38 (mkSample 5 4 0 0) 9000 PICO_ERROR_GENERIC
     (mkSample 9 9 9 9) (by decide) (by decide) (by decide) (by decide) (Or.inr (Or.inr rfl))⟩

/-! ## C27: polling an uninitialised decoder -/

/-- C27: for every state with `i2c_inited = 0` (as after static initialisation
and after `deinit_i2c_kbd`) and every time and bus outcome, `i2c_kbd_poll` does
not reach the bus read and returns the state unchanged, so `read_i2c_kbd` is
just a `queue_pop` on the state it was given: it returns the oldest pending
event, or -1 when there is none, and pushes nothing. -/
theorem C27_poll_uninitialised (s : State) (now : Nat) (retval : Int) (buf : ui_data_t)
    (h0 : s.i2c_inited = 0) :
    i2c_kbd_poll_traced s now retval buf = (s, false)
    ∧ i2c_kbd_poll s now retval buf = s
    ∧ (read_i2c_kbd s now retval buf).2 = s.pop.2
    ∧ (read_i2c_kbd s now retval buf).1 = (if s.pop.1 = KEY_NONE then -1 else s.pop.1)
    ∧ (read_i2c_kbd s now retval buf).2.pushed = s.pushed
    ∧ State.init.i2c_inited = 0
    ∧ (∀ t : State, (deinit_i2c_kbd t).i2c_inited = 0) := by
  have e1 : i2c_kbd_poll_traced s now retval buf = (s, false) := by
    unfold i2c_kbd_poll_traced
    rw [if_pos h0]
  have e2 : i2c_kbd_poll s now retval buf = s := by
    rw [← i2c_kbd_poll_traced_fst, e1]
  refine ⟨e1, e2, ?_, ?_, ?_, rfl, ?_⟩
  · show (i2c_kbd_poll s now retval buf).pop.2 = s.pop.2
    rw [e2]
  · show (if (i2c_kbd_poll s now retval buf).pop.1 = KEY_NONE then (-1 : Int)
      else (i2c_kbd_poll s now retval buf).pop.1) = _
    rw [e2]
  · show (i2c_kbd_poll s now retval buf).pop.2.pushed = s.pushed
    rw [e2]
    rfl
  · intro t
    unfold deinit_i2c_kbd
    split
    · assumption
    · rfl

theorem C27_poll_uninitialised_witness :
    (deinit_i2c_kbd (i2c_kbd_poll demoState 5000 38 (mkSample 1 0 0 0))).i2c_inited = 0
    ∧ (i2c_kbd_poll_traced (deinit_i2c_kbd (i2c_kbd_poll demoState 5000 38 (mkSample 1 0 0 0)))
          9000 38 (mkSample 2 0 0 0)
        = (deinit_i2c_kbd (i2c_kbd_poll demoState 5000 38 (mkSample 1 0 0 0)), false)
      ∧ i2c_kbd_poll (deinit_i2c_kbd (i2c_kbd_poll demoState 5000 38 (mkSample 1 0 0 0)))
          9000 38 (mkSample 2 0 0 0)
        = deinit_i2c_kbd (i2c_kbd_poll demoState 5000 38 (mkSample 1 0 0 0))
      ∧ (read_i2c_kbd (deinit_i2c_kbd (i2c_kbd_poll demoState 5000 38 (mkSample 1 0 0 0)))
          9000 38 (mkSample 2 0 0 0)).2
        = (deinit_i2c_kbd (i2c_kbd_poll demoState 5000 38 (mkSample 1 0 0 0))).pop.2
      ∧ (read_i2c_kbd (deinit_i2c_kbd (i2c_kbd_poll demoState 5000 38 (mkSample 1 0 0 0)))
          9000 38 (mkSample 2 0 0 0)).1
        = (if (deinit_i2c_kbd (i2c_kbd_poll demoState 5000 38 (mkSample 1 0 0 0))).pop.1
              = KEY_NONE then -1
            else (deinit_i2c_kbd (i2c_kbd_poll demoState 5000 38 (mkSample 1 0 0 0))).pop.1)
      ∧ (read_i2c_kbd (deinit_i2c_kbd (i2c_kbd_poll demoState 5000 38 (mkSample 1 0 0 0)))
          9000 38 (mkSample 2 0 0 0)).2.pushed
        = (deinit_i2c_kbd (i2c_kbd_poll demoState 5000 38 (mkSample 1 0 0 0))).pushed
      ∧ State.init.i2c_inited = 0
      ∧ (∀ t : State, (deinit_i2c_kbd t).i2c_inited = 0)) :=
  ⟨by decide,
   C27_poll_uninitialised (deinit_i2c_kbd (i2c_kbd_poll demoState 5000 38 (mkSample 1 0 0 0)))
     9000 38 (mkSample 2 0 0 0) (by decide)⟩

/-! ## C22: the timestamp a successful poll records -/

theorem i2c_kbd_poll_clocked_fst (s : State) (clock read_us : Nat) (retval : Int)
    (buf : ui_data_t) :
    (i2c_kbd_poll_clocked s clock read_us retval buf).1 = i2c_kbd_poll s clock retval buf := by
  unfold i2c_kbd_poll_clocked i2c_kbd_poll
  split
  · rfl
  · simp only []
    split
    · rfl
    · split <;> rfl

/-- C22 (as stated, refuted): a successful poll entered at time 2500 whose bus
read blocks for 900 microseconds completes at 3400 but records 2500; a poll at
5000, only 1600 microseconds after the read completed, is not gated and reaches
the bus read. -/
theorem C22_records_entry_time :
    (i2c_kbd_poll_clocked (init_i2c_kbd State.init) 2500 900 38 (mkSample 0 0 0 0)).2 = 3400
    ∧ (i2c_kbd_poll_clocked (init_i2c_kbd State.init) 2500 900 38
        (mkSample 0 0 0 0)).1.last_poll_time = 2500
    ∧ (i2c_kbd_poll_clocked (init_i2c_kbd State.init) 2500 900 38
        (mkSample 0 0 0 0)).1.last_poll_time
      ≠ (i2c_kbd_poll_clocked (init_i2c_kbd State.init) 2500 900 38 (mkSample 0 0 0 0)).2
    ∧ absolute_time_diff_us 3400 5000 < 2500
    ∧ (i2c_kbd_poll_traced
        (i2c_kbd_poll_clocked (init_i2c_kbd State.init) 2500 900 38 (mkSample 0 0 0 0)).1
        5000 38 (mkSample 0 0 0 0)).2 = true := by
  decide

/-- C22 (amended): on a successful bus read `i2c_kbd_poll` records as
`last_poll_time` the time sampled on entry, before the read started, not the
time at which the read completed (the two differ by the duration of the read);
the 2500 microsecond gate of the next poll is measured from that entry time. -/
theorem C22_records_time_of_entry (s : State) (clock read_us : Nat) (retval : Int)
    (buf : ui_data_t) (t : Nat) (retval2 : Int) (buf2 : ui_data_t)
    (hlen : s.repeat_ticks.length = 4)
    (hinit : s.i2c_inited ≠ 0)
    (hgate : 2500 ≤ absolute_time_diff_us s.last_poll_time clock)
    (hok : retval ≠ PICO_ERROR_GENERIC ∧ retval ≠ PICO_ERROR_TIMEOUT) :
    (i2c_kbd_poll_clocked s clock read_us retval buf).1 = i2c_kbd_poll s clock retval buf
    ∧ (i2c_kbd_poll_clocked s clock read_us retval buf).2 = clock + read_us
    ∧ (i2c_kbd_poll s clock retval buf).last_poll_time = clock
    ∧ (i2c_kbd_poll_traced (i2c_kbd_poll s clock retval buf) t retval2 buf2).2
        = decide (2500 ≤ absolute_time_diff_us clock t) := by
  have hsucc := i2c_kbd_poll_success s clock retval buf hinit hgate hok
  have hf : (i2c_kbd_poll s clock retval buf).last_poll_time = clock
      ∧ (i2c_kbd_poll s clock retval buf).i2c_inited = s.i2c_inited := by
    rw [hsucc, decode_sample_eq { s with last_poll_time := clock } buf hlen]
    exact ⟨rfl, rfl⟩
  refine ⟨i2c_kbd_poll_clocked_fst s clock read_us retval buf, ?_, hf.1, ?_⟩
  · unfold i2c_kbd_poll_clocked
    rw [if_neg hinit]
    simp only []
    rw [if_neg (not_lt.mpr hgate)]
    split <;> rfl
  · unfold i2c_kbd_poll_traced
    rw [hf.1, hf.2, if_neg hinit]
    by_cases hg : absolute_time_diff_us clock t < 2500
    · rw [if_pos hg]
      simp [hg]
    · rw [if_neg hg]
      have : 2500 ≤ absolute_time_diff_us clock t := not_lt.mp hg
      split <;> simp [this]

theorem C22_records_time_of_entry_witness :
    demoState.repeat_ticks.length = 4
    ∧ demoState.i2c_inited ≠ 0
    ∧ 2500 ≤ absolute_time_diff_us demoState.last_poll_time 5000
    ∧ ((38 : Int) ≠ PICO_ERROR_GENERIC ∧ (38 : Int) ≠ PICO_ERROR_TIMEOUT)
    ∧ ((i2c_kbd_poll_clocked demoState 5000 1200 38 (mkSample 1 0 0 0)).1
          = i2c_kbd_poll demoState 5000 38 (mkSample 1 0 0 0)
      ∧ (i2c_kbd_poll_clocked demoState 5000 1200 38 (mkSample 1 0 0 0)).2 = 5000 + 1200
      ∧ (i2c_kbd_poll demoState 5000 38 (mkSample 1 0 0 0)).last_poll_time = 5000
      ∧ (i2c_kbd_poll_traced (i2c_kbd_poll demoState 5000 38 (mkSample 1 0 0 0))
            7500 38 (mkSample 0 0 0 0)).2
          = decide (2500 ≤ absolute_time_diff_us 5000 7500)) :=
  ⟨by decide, by decide, by decide, by decide,
   C22_records_time_of_entry demoState 5000 1200 38 (mkSample 1 0 0 0) 7500 38
     (mkSample 0 0 0 0) (by decide) (by decide) (by decide) (by decide)⟩

/-! ## C26: repeat-counter invariant -/

/-- In every reachable state the counters array has its four slots and every
counter is at most 3. -/
theorem Reachable.ticks_le {s : State} (h : Reachable s) :
    ∀ idx, s.repeat_ticks.getD idx 0 ≤ 3 := by
  induction h with
  | start => intro idx; simp [State.init, List.getD]; rcases idx with _ | _ | _ | _ | _ | n <;> simp
  | init_kbd s _ ih => exact ih
  | deinit_kbd s _ ih =>
    unfold deinit_i2c_kbd
    split
    · exact ih
    · exact ih
  | poll s now retval buf hs ih =>
    rcases i2c_kbd_poll_cases s now retval buf with h | h
    · rw [h]; exact ih
    · rw [h, decode_sample_ticks { s with last_poll_time := now } buf hs.inv.2.1]
      exact direction_ticks_le _ buf
  | pop s _ ih => exact ih

theorem direction_events_count_fast (s : State) (buf : ui_data_t) (b : Nat) (hb : b < 4) :
    List.count (mapping.getD b default).fast_key (direction_events s buf)
      = (repeat_events (bit_set buf.mcl_btns_long_press b) (s.repeat_ticks.getD b 0) b).length := by
  interval_cases b <;>
    simp [direction_events, eventsOf, edge_events, mapping,
      repeat_events, count_ite_single, List.count_append,
      KEY_LEFT, KEY_RIGHT, KEY_DOWN, KEY_UP, KEY_FIRE_A, KEY_FIRE_B, KEY_LEFT_FAST,
      KEY_RIGHT_FAST, KEY_DOWN_FAST, KEY_UP_FAST] <;>
    split <;> simp

/-- C26: in every reachable state each of the four repeat counters is at most
3, before and after `enqueue_direction_keys`; so the increment of the 8-bit
counter does not wrap, and `enqueue_direction_keys` pushes the fast code of
index `idx` once exactly when the long-press bit is set and the incremented
counter is 4, and not at all otherwise. -/
theorem C26_repeat_counter_invariant (s : State) (hr : Reachable s) (buff : ui_data_t)
    (idx : Nat) (hidx : idx < 4) :
    s.repeat_ticks.length = 4
    ∧ s.repeat_ticks.getD idx 0 ≤ 3
    ∧ (s.repeat_ticks.getD idx 0 + 1) % 256 = s.repeat_ticks.getD idx 0 + 1
    ∧ (enqueue_direction_keys s buff).repeat_ticks.getD idx 0 ≤ 3
    ∧ List.count (mapping.getD idx default).fast_key (enqueue_direction_keys s buff).pushed
        = List.count (mapping.getD idx default).fast_key s.pushed
          + (if bit_set buff.mcl_btns_long_press idx = true
                ∧ s.repeat_ticks.getD idx 0 + 1 = 4 then 1 else 0) := by
  have hlen := hr.inv.2.1
  have ht := hr.ticks_le idx
  refine ⟨hlen, ht, by omega, ?_, ?_⟩
  · rw [enqueue_direction_keys_eq s buff hlen]
    exact direction_ticks_le s buff idx
  · rw [enqueue_direction_keys_pushed s buff hlen, List.count_append,
      direction_events_count_fast s buff idx hidx]
    congr 1
    unfold repeat_events repeat_threshold
    cases bit_set buff.mcl_btns_long_press idx
    · simp
    · generalize s.repeat_ticks.getD idx 0 = t at ht
      interval_cases t <;> simp

theorem C26_repeat_counter_invariant_witness :
    Reachable (i2c_kbd_poll (i2c_kbd_poll (i2c_kbd_poll demoState 5000 38 (mkSample 4 4 0 0))
        7500 38 (mkSample 4 4 0 0)) 10000 38 (mkSample 4 4 0 0))
    ∧ 2 < 4
    ∧ ((i2c_kbd_poll (i2c_kbd_poll (i2c_kbd_poll demoState 5000 38 (mkSample 4 4 0 0))
          7500 38 (mkSample 4 4 0 0)) 10000 38 (mkSample 4 4 0 0)).repeat_ticks.length = 4
      ∧ (i2c_kbd_poll (i2c_kbd_poll (i2c_kbd_poll demoState 5000 38 (mkSample 4 4 0 0))
          7500 38 (mkSample 4 4 0 0)) 10000 38 (mkSample 4 4 0 0)).repeat_ticks.getD 2 0 ≤ 3
      ∧ ((i2c_kbd_poll (i2c_kbd_poll (i2c_kbd_poll demoState 5000 38 (mkSample 4 4 0 0))
          7500 38 (mkSample 4 4 0 0)) 10000 38 (mkSample 4 4 0 0)).repeat_ticks.getD 2 0 + 1)
            % 256
          = (i2c_kbd_poll (i2c_kbd_poll (i2c_kbd_poll demoState 5000 38 (mkSample 4 4 0 0))
              7500 38 (mkSample 4 4 0 0)) 10000 38 (mkSample 4 4 0 0)).repeat_ticks.getD 2 0 + 1
      ∧ (enqueue_direction_keys
          (i2c_kbd_poll (i2c_kbd_poll (i2c_kbd_poll demoState 5000 38 (mkSample 4 4 0 0))
            7500 38 (mkSample 4 4 0 0)) 10000 38 (mkSample 4 4 0 0))
          (mkSample 4 4 0 0)).repeat_ticks.getD 2 0 ≤ 3
      ∧ List.count (mapping.getD 2 default).fast_key
          (enqueue_direction_keys
            (i2c_kbd_poll (i2c_kbd_poll (i2c_kbd_poll demoState 5000 38 (mkSample 4 4 0 0))
              7500 38 (mkSample 4 4 0 0)) 10000 38 (mkSample 4 4 0 0))
            (mkSample 4 4 0 0)).pushed
          = List.count (mapping.getD 2 default).fast_key
              (i2c_kbd_poll (i2c_kbd_poll (i2c_kbd_poll demoState 5000 38 (mkSample 4 4 0 0))
                7500 38 (mkSample 4 4 0 0)) 10000 38 (mkSample 4 4 0 0)).pushed
            + (if bit_set (mkSample 4 4 0 0).mcl_btns_long_press 2 = true
                ∧ (i2c_kbd_poll (i2c_kbd_poll (i2c_kbd_poll demoState 5000 38
                    (mkSample 4 4 0 0)) 7500 38 (mkSample 4 4 0 0)) 10000 38
                    (mkSample 4 4 0 0)).repeat_ticks.getD 2 0 + 1 = 4 then 1 else 0)) :=
  have hreach : Reachable (i2c_kbd_poll (i2c_kbd_poll (i2c_kbd_poll demoState 5000 38
      (mkSample 4 4 0 0)) 7500 38 (mkSample 4 4 0 0)) 10000 38 (mkSample 4 4 0 0)) :=
    Reachable.poll _ _ _ _ (Reachable.poll _ _ _ _ (Reachable.poll _ _ _ _
      (Reachable.poll _ _ _ _ (Reachable.init_kbd _ Reachable.start))))
  ⟨hreach, by decide, C26_repeat_counter_invariant _ hreach (mkSample 4 4 0 0) 2 (by decide)⟩

/-! ## C24: the ring buffer refines a list of the 7 most recent events -/

/-- One `queue_push` is one step of the bounded list. -/
theorem queue_push_refines (q : Queue) (k : keycode_t) (hq : q.WF) :
    (queue_push q k).pending = bounded_push q.pending k := by
  unfold bounded_push
  by_cases hk : k ≤ KEY_NONE
  · rw [queue_push_none q k hk, if_pos hk]
  · rw [if_neg hk]
    have hk2 : KEY_NONE < k := not_le.mp hk
    have hsz := q.size_le
    cases hf : queue_is_full q with
    | false =>
      have hne : q.size ≠ 7 := fun h => by
        have := (queue_is_full_iff q hq).mpr h
        rw [hf] at this
        cases this
      rw [pending_push_of_not_full q k hq hk2 hf]
      have : (q.pending ++ [k]).length - 7 = 0 := by
        rw [List.length_append, Queue.pending_length]
        simp only [List.length_singleton]
        omega
      rw [this, List.drop_zero]
    | true =>
      have h7 : q.size = 7 := (queue_is_full_iff q hq).mp hf
      rw [pending_push_of_full q k hq hk2 hf]
      have : (q.pending ++ [k]).length - 7 = 1 := by
        rw [List.length_append, Queue.pending_length]
        simp only [List.length_singleton]
        omega
      rw [this]
      have hl : q.pending.length = 7 := by rw [Queue.pending_length, h7]
      cases hp : q.pending with
      | nil => rw [hp] at hl; cases hl
      | cons a l => rfl

theorem pushAll_refines (ks : List keycode_t) (q : Queue) (hq : q.WF) :
    (pushAll q ks).pending = bounded_pushAll q.pending ks := by
  induction ks generalizing q with
  | nil => rfl
  | cons k ks ih =>
    have := ih (queue_push q k) (queue_push_WF q k hq)
    rw [queue_push_refines q k hq] at this
    exact this

/-- The bounded list after keys above `KEY_NONE` is the last 7 elements of
everything that was put in. -/
theorem bounded_pushAll_eq (ks : List keycode_t) (l : List keycode_t)
    (hl : l.length ≤ 7) (hk : ∀ k ∈ ks, KEY_NONE < k) :
    bounded_pushAll l ks = (l ++ ks).drop ((l ++ ks).length - 7) := by
  induction ks generalizing l with
  | nil =>
    have : (l ++ []).length - 7 = 0 := by simp; omega
    rw [this]
    simp [bounded_pushAll]
  | cons k ks ih =>
    have hk1 : ¬ k ≤ KEY_NONE := not_le.mpr (hk k (List.mem_cons_self k ks))
    have hstep : bounded_push l k = (l ++ [k]).drop ((l ++ [k]).length - 7) := by
      unfold bounded_push
      rw [if_neg hk1]
    have hlen : (bounded_push l k).length ≤ 7 := by
      rw [hstep, List.length_drop]
      omega
    have e : bounded_pushAll l (k :: ks) = bounded_pushAll (bounded_push l k) ks := rfl
    rw [e, ih (bounded_push l k) hlen (fun x hx => hk x (List.mem_cons_of_mem k hx)), hstep]
    have hcat : l ++ k :: ks = (l ++ [k]) ++ ks := by simp
    rw [hcat]
    generalize l ++ [k] = m
    rw [← @List.drop_append_of_le_length _ m ks (m.length - 7) (by omega), List.drop_drop]
    congr 1
    simp only [List.length_append, List.length_drop]
    omega

theorem pop_until_empty_eq (fuel : Nat) (q : Queue) (hq : q.WF) (hf : q.size ≤ fuel) :
    pop_until_empty fuel q = q.pending := by
  induction fuel generalizing q with
  | zero =>
    have : q.pending.length = 0 := by rw [Queue.pending_length]; omega
    rw [List.length_eq_zero.mp this]
    rfl
  | succ n ih =>
    unfold pop_until_empty
    cases he : queue_is_empty q with
    | true =>
      have h0 := (queue_is_empty_iff q hq).mp he
      have : q.pending.length = 0 := by rw [Queue.pending_length]; omega
      rw [List.length_eq_zero.mp this]
      rfl
    | false =>
      have hp := pending_pop_of_not_empty q hq he
      have hsz : (queue_pop q).2.size ≤ n := by
        have h1 : q.pending.length = q.size := Queue.pending_length q
        rw [hp, List.length_cons, Queue.pending_length] at h1
        omega
      simp only [Bool.false_eq_true, if_false]
      rw [ih (queue_pop q).2 (queue_pop_WF q hq) hsz]
      exact hp.symm

/-- C24: for every list `xs` of key codes above `KEY_NONE` pushed with
`queue_push` onto the empty queue, the pending contents are those of the
bounded list that keeps the 7 most recent events, that is the last
`min |xs| 7` elements of `xs` in order, and popping until the queue is empty
returns exactly that list, with any fuel of 7 or more. -/
theorem C24_ring_refines_bounded_list (xs : List keycode_t) (fuel : Nat)
    (hk : ∀ k ∈ xs, KEY_NONE < k) (hfuel : 7 ≤ fuel) :
    (pushAll Queue.init xs).pending = bounded_pushAll [] xs
    ∧ (pushAll Queue.init xs).pending = xs.drop (xs.length - min xs.length 7)
    ∧ (pushAll Queue.init xs).pending.length = min xs.length 7
    ∧ pop_until_empty fuel (pushAll Queue.init xs) = xs.drop (xs.length - min xs.length 7) := by
  have h1 := pushAll_refines xs Queue.init Queue.init_WF
  rw [Queue.init_pending] at h1
  have h2 := bounded_pushAll_eq xs [] (by simp) hk
  rw [List.nil_append] at h2
  have h3 : xs.length - 7 = xs.length - min xs.length 7 := by omega
  rw [h3] at h2
  have hwf := pushAll_WF xs Queue.init Queue.init_WF
  refine ⟨h1, h1.trans h2, ?_, ?_⟩
  · rw [h1, h2, List.length_drop]
    omega
  · rw [pop_until_empty_eq fuel _ hwf (by have := (pushAll Queue.init xs).size_le; omega),
      h1, h2]

theorem C24_ring_refines_bounded_list_witness :
    (∀ k ∈ [KEY_LEFT, KEY_RIGHT, KEY_DOWN, KEY_UP, KEY_FIRE_A, KEY_FIRE_B, KEY_ENTER,
        KEY_PG_UP, KEY_PG_DOWN], KEY_NONE < k)
    ∧ 7 ≤ 8
    ∧ ((pushAll Queue.init [KEY_LEFT, KEY_RIGHT, KEY_DOWN, KEY_UP, KEY_FIRE_A, KEY_FIRE_B,
          KEY_ENTER, KEY_PG_UP, KEY_PG_DOWN]).pending
        = bounded_pushAll [] [KEY_LEFT, KEY_RIGHT, KEY_DOWN, KEY_UP, KEY_FIRE_A, KEY_FIRE_B,
            KEY_ENTER, KEY_PG_UP, KEY_PG_DOWN]
      ∧ (pushAll Queue.init [KEY_LEFT, KEY_RIGHT, KEY_DOWN, KEY_UP, KEY_FIRE_A, KEY_FIRE_B,
          KEY_ENTER, KEY_PG_UP, KEY_PG_DOWN]).pending
        = [KEY_LEFT, KEY_RIGHT, KEY_DOWN, KEY_UP, KEY_FIRE_A, KEY_FIRE_B, KEY_ENTER,
            KEY_PG_UP, KEY_PG_DOWN].drop
            ([KEY_LEFT, KEY_RIGHT, KEY_DOWN, KEY_UP, KEY_FIRE_A, KEY_FIRE_B, KEY_ENTER,
              KEY_PG_UP, KEY_PG_DOWN].length
              - min [KEY_LEFT, KEY_RIGHT, KEY_DOWN, KEY_UP, KEY_FIRE_A, KEY_FIRE_B, KEY_ENTER,
                  KEY_PG_UP, KEY_PG_DOWN].length 7)
      ∧ (pushAll Queue.init [KEY_LEFT, KEY_RIGHT, KEY_DOWN, KEY_UP, KEY_FIRE_A, KEY_FIRE_B,
          KEY_ENTER, KEY_PG_UP, KEY_PG_DOWN]).pending.length
        = min [KEY_LEFT, KEY_RIGHT, KEY_DOWN, KEY_UP, KEY_FIRE_A, KEY_FIRE_B, KEY_ENTER,
            KEY_PG_UP, KEY_PG_DOWN].length 7
      ∧ pop_until_empty 8 (pushAll Queue.init [KEY_LEFT, KEY_RIGHT, KEY_DOWN, KEY_UP,
          KEY_FIRE_A, KEY_FIRE_B, KEY_ENTER, KEY_PG_UP, KEY_PG_DOWN])
        = [KEY_LEFT, KEY_RIGHT, KEY_DOWN, KEY_UP, KEY_FIRE_A, KEY_FIRE_B, KEY_ENTER,
            KEY_PG_UP, KEY_PG_DOWN].drop
            ([KEY_LEFT, KEY_RIGHT, KEY_DOWN, KEY_UP, KEY_FIRE_A, KEY_FIRE_B, KEY_ENTER,
              KEY_PG_UP, KEY_PG_DOWN].length
              - min [KEY_LEFT, KEY_RIGHT, KEY_DOWN, KEY_UP, KEY_FIRE_A, KEY_FIRE_B, KEY_ENTER,
                  KEY_PG_UP, KEY_PG_DOWN].length 7)) :=
  ⟨by decide, by decide,
   C24_ring_refines_bounded_list [KEY_LEFT, KEY_RIGHT, KEY_DOWN, KEY_UP, KEY_FIRE_A,
     KEY_FIRE_B, KEY_ENTER, KEY_PG_UP, KEY_PG_DOWN] 8 (by decide) (by decide)⟩

/-! ## C25: events lost inside a single poll -/

theorem queue_push_count_le (q : Queue) (x k : keycode_t) (hq : q.WF) :
    List.count k (queue_push q x).pending ≤ List.count k q.pending + List.count k [x] := by
  by_cases hx : x ≤ KEY_NONE
  · rw [queue_push_none q x hx]
    omega
  · have hx2 : KEY_NONE < x := not_le.mp hx
    cases hf : queue_is_full q with
    | false =>
      rw [pending_push_of_not_full q x hq hx2 hf, List.count_append]
    | true =>
      rw [pending_push_of_full q x hq hx2 hf, List.count_append]
      have := (List.tail_sublist q.pending).count_le k
      omega

theorem pushAll_count_le (ks : List keycode_t) (q : Queue) (k : keycode_t) (hq : q.WF) :
    List.count k (pushAll q ks).pending ≤ List.count k q.pending + List.count k ks := by
  induction ks generalizing q with
  | nil => exact Nat.le_add_right _ _
  | cons x ks ih =>
    have h1 := ih (queue_push q x) (queue_push_WF q x hq)
    have h2 := queue_push_count_le q x k hq
    have e : pushAll q (x :: ks) = pushAll (queue_push q x) ks := rfl
    have h3 : List.count k (x :: ks) = List.count k [x] + List.count k ks := by
      rw [← List.count_append]; rfl
    rw [e, h3]
    omega

/-- A poll adds to the pending events at most what it pushes. -/
theorem i2c_kbd_poll_count_le (s : State) (now : Nat) (retval : Int) (buf : ui_data_t)
    (k : keycode_t) (hs : s.Inv) :
    List.count k (i2c_kbd_poll s now retval buf).queue.pending + List.count k s.pushed
      ≤ List.count k s.queue.pending + List.count k (i2c_kbd_poll s now retval buf).pushed := by
  rcases i2c_kbd_poll_cases s now retval buf with h | h
  · rw [h]
  · rw [h, decode_sample_eq { s with last_poll_time := now } buf hs.2.1]
    show List.count k (pushAll s.queue (decode_events { s with last_poll_time := now } buf)).pending
        + List.count k s.pushed
      ≤ List.count k s.queue.pending
        + List.count k (s.pushed ++ decode_events { s with last_poll_time := now } buf)
    rw [List.count_append]
    have := pushAll_count_le (decode_events { s with last_poll_time := now } buf) s.queue k hs.1
    omega

/-- A pop moves one event from the pending list to its result. -/
theorem queue_pop_count (q : Queue) (k : keycode_t) (hq : q.WF) (hk : k ≠ KEY_NONE) :
    List.count k [(queue_pop q).1] + List.count k (queue_pop q).2.pending
      = List.count k q.pending := by
  cases he : queue_is_empty q with
  | true =>
    have : queue_pop q = (KEY_NONE, q) := by simp [queue_pop, he]
    rw [this]
    simp [List.count_singleton, Ne.symm hk]
  | false =>
    have hp := pending_pop_of_not_empty q hq he
    have h3 : List.count k ((queue_pop q).1 :: (queue_pop q).2.pending)
        = List.count k [(queue_pop q).1] + List.count k (queue_pop q).2.pending := by
      rw [← List.count_append]; rfl
    rw [← h3, ← hp]

theorem read_i2c_kbd_fst (s : State) (now : Nat) (retval : Int) (buf : ui_data_t) :
    (read_i2c_kbd s now retval buf).1 = (i2c_kbd_poll s now retval buf).pop.1 := by
  show (if (i2c_kbd_poll s now retval buf).pop.1 = KEY_NONE then (-1 : Int)
      else (i2c_kbd_poll s now retval buf).pop.1) = _
  split
  · rename_i h; rw [h]; rfl
  · rfl

/-- Over any sequence of reads, the events of code `k` returned plus those left
pending are at most those pending at the start plus those pushed meanwhile. -/
theorem read_seq_count_le (calls : List (Nat × Int × ui_data_t)) (s : State) (k : keycode_t)
    (hs : s.Inv) (hk : k ≠ KEY_NONE) :
    List.count k (read_seq s calls).1 + List.count k (read_seq s calls).2.queue.pending
        + List.count k s.pushed
      ≤ List.count k s.queue.pending + List.count k (read_seq s calls).2.pushed := by
  induction calls generalizing s with
  | nil =>
    simp only [read_seq, List.count_nil]
    omega
  | cons c rest ih =>
    have hp := i2c_kbd_poll_Inv s c.1 c.2.1 c.2.2 hs
    have h1 := i2c_kbd_poll_count_le s c.1 c.2.1 c.2.2 k hs
    have h2 := queue_pop_count (i2c_kbd_poll s c.1 c.2.1 c.2.2).queue k hp.1 hk
    have hr : (read_i2c_kbd s c.1 c.2.1 c.2.2).2 = (i2c_kbd_poll s c.1 c.2.1 c.2.2).pop.2 := rfl
    have h3 := ih (read_i2c_kbd s c.1 c.2.1 c.2.2).2 (by rw [hr]; exact State.pop_Inv _ hp)
    have e1 : (read_seq s (c :: rest)).1
        = (read_i2c_kbd s c.1 c.2.1 c.2.2).1 :: (read_seq (read_i2c_kbd s c.1 c.2.1 c.2.2).2 rest).1 :=
      rfl
    have e2 : (read_seq s (c :: rest)).2 = (read_seq (read_i2c_kbd s c.1 c.2.1 c.2.2).2 rest).2 :=
      rfl
    have e3 : List.count k ((read_i2c_kbd s c.1 c.2.1 c.2.2).1
          :: (read_seq (read_i2c_kbd s c.1 c.2.1 c.2.2).2 rest).1)
        = List.count k [(queue_pop (i2c_kbd_poll s c.1 c.2.1 c.2.2).queue).1]
          + List.count k (read_seq (read_i2c_kbd s c.1 c.2.1 c.2.2).2 rest).1 := by
      rw [read_i2c_kbd_fst, ← List.count_append]; rfl
    have e4 : (read_i2c_kbd s c.1 c.2.1 c.2.2).2.queue
        = (queue_pop (i2c_kbd_poll s c.1 c.2.1 c.2.2).queue).2 := rfl
    have e5 : (read_i2c_kbd s c.1 c.2.1 c.2.2).2.pushed
        = (i2c_kbd_poll s c.1 c.2.1 c.2.2).pushed := rfl
    rw [e1, e2, e3]
    rw [e4, e5] at h3
    omega

/-- C25: a reachable state satisfying the accumulator invariant and a sample (a
press edge on bit 0 together with a potentiometer move of 200 positions) for
which one successful `i2c_kbd_poll` pushes 9 events, `KEY_LEFT` first and then 8
times `KEY_POT_UP`, of which the queue retains the last 7: `KEY_LEFT` is no
longer pending after that poll, and over every later sequence of `read_i2c_kbd`
calls no more `KEY_LEFT` are returned than later polls push, so the evicted
event is never returned. -/
theorem C25_event_lost_in_one_poll :
    Reachable demoState
    ∧ (-25 < demoState.pot_accumulator ∧ demoState.pot_accumulator < 25)
    ∧ demoState.queue.pending = []
    ∧ (i2c_kbd_poll demoState 5000 38 (mkSample 1 0 0 200)).pushed
        = demoState.pushed ++ KEY_LEFT :: List.replicate 8 KEY_POT_UP
    ∧ (i2c_kbd_poll demoState 5000 38 (mkSample 1 0 0 200)).queue.pending
        = List.replicate 7 KEY_POT_UP
    ∧ KEY_LEFT ∉ (i2c_kbd_poll demoState 5000 38 (mkSample 1 0 0 200)).queue.pending
    ∧ (read_seq (i2c_kbd_poll demoState 5000 38 (mkSample 1 0 0 200))
          (List.replicate 8 (5001, 38, mkSample 1 0 0 200))).1
        = [0xB6, 0xB6, 0xB6, 0xB6, 0xB6, 0xB6, 0xB6, -1]
    ∧ (∀ calls : List (Nat × Int × ui_data_t),
        List.count 0x81
            (read_seq (i2c_kbd_poll demoState 5000 38 (mkSample 1 0 0 200)) calls).1
          + List.count KEY_LEFT (i2c_kbd_poll demoState 5000 38 (mkSample 1 0 0 200)).pushed
        ≤ List.count KEY_LEFT
            (read_seq (i2c_kbd_poll demoState 5000 38 (mkSample 1 0 0 200)) calls).2.pushed) := by
  have hreach : Reachable demoState :=
    Reachable.poll _ _ _ _ (Reachable.init_kbd _ Reachable.start)
  have hinv := (Reachable.poll demoState 5000 38 (mkSample 1 0 0 200) hreach).inv
  refine ⟨hreach, by decide, by decide, by decide, by decide, by decide, by decide, ?_⟩
  intro calls
  have h := read_seq_count_le calls _ KEY_LEFT hinv (by decide)
  have h0 : List.count KEY_LEFT
      (i2c_kbd_poll demoState 5000 38 (mkSample 1 0 0 200)).queue.pending = 0 := by decide
  rw [h0] at h
  have e : (0x81 : Int) = KEY_LEFT := rfl
  rw [e]
  omega

/-! ## C28: line drawing terminates -/

theorem draw_line_loop_succ (x2 y2 dx dy sx sy : Int) (fuel : Nat) (x1 y1 err : Int) :
    draw_line_loop x2 y2 dx dy sx sy (fuel + 1) x1 y1 err
      = if x1 = x2 ∧ y1 = y2 then some [(x1, y1)]
        else
          (draw_line_loop x2 y2 dx dy sx sy fuel
            (if err > -dx then toInt32 (x1 + sx) else x1)
            (if err < dy then toInt32 (y1 + sy) else y1)
            (if err < dy then toInt32 ((if err > -dx then toInt32 (err - dy) else err) + dx)
              else (if err > -dx then toInt32 (err - dy) else err))).map
            (fun pts => (x1, y1) :: pts) := rfl

/-- Prepending a point to a run that ends at `p`. -/
theorem cons_run (q p : Int × Int) (n : Nat) (o : Option (List (Int × Int)))
    (h : ∃ pts, o = some pts ∧ pts.length = n + 1 ∧ pts.getLast? = some p) :
    ∃ pts, o.map (fun pts => q :: pts) = some pts ∧ pts.length = n + 2
      ∧ pts.getLast? = some p := by
  obtain ⟨pts, rfl, hl, hlast⟩ := h
  refine ⟨q :: pts, rfl, by simp [hl], ?_⟩
  cases pts with
  | nil => simp at hl
  | cons a l => rw [List.getLast?_cons_cons]; exact hlast

/-- The loop when `dx > dy`: every iteration steps `x1`. With `r` steps of `x1`
and `j` steps of `y1` still to go and `err - r * dy + j * dx` inside `[0, dx)`,
the loop breaks after `r + 1` points, the last being `(x2, y2)`. -/
theorem draw_line_x_major (x2 y2 dx dy sx sy : Int)
    (hsx : sx = 1 ∨ sx = -1) (hsy : sy = 1 ∨ sy = -1)
    (hdy : 0 ≤ dy) (hlt : dy < dx) (hdx : dx < 2147483648)
    (hx2 : -2147483648 ≤ x2 ∧ x2 < 2147483648) (hy2 : -2147483648 ≤ y2 ∧ y2 < 2147483648)
    (r : Nat) :
    ∀ (x y err j A B : Int) (fuel : Nat),
      x2 = x + sx * r → y2 = y + sy * j → 0 ≤ j →
      A = r * dy → B = j * dx →
      0 ≤ err → err < dx → 0 ≤ err - A + B → err - A + B < dx →
      (-2147483648 ≤ x ∧ x < 2147483648) → (-2147483648 ≤ y ∧ y < 2147483648) →
      r + 1 ≤ fuel →
      ∃ pts, draw_line_loop x2 y2 dx dy sx sy fuel x y err = some pts
        ∧ pts.length = r + 1 ∧ pts.getLast? = some (x2, y2) := by
  induction r with
  | zero =>
    intro x y err j A B fuel hx hy hj hA hB he0 he1 hp0 hp1 hxr hyr hfuel
    simp only [Nat.cast_zero, mul_zero, add_zero, zero_mul] at hx hA
    have hj0 : j = 0 := by
      by_contra hne
      have h1 : 1 ≤ j := by omega
      have h2 : 1 * dx ≤ j * dx := mul_le_mul_of_nonneg_right h1 (by omega)
      omega
    have hyy : y = y2 := by rw [hy, hj0, mul_zero, add_zero]
    obtain ⟨f, rfl⟩ : ∃ f, fuel = f + 1 := ⟨fuel - 1, by omega⟩
    rw [draw_line_loop_succ, if_pos ⟨hx.symm, hyy⟩]
    exact ⟨[(x, y)], rfl, rfl, by rw [hx, hyy]; rfl⟩
  | succ r ih =>
    intro x y err j A B fuel hx hy hj hA hB he0 he1 hp0 hp1 hxr hyr hfuel
    obtain ⟨f, rfl⟩ : ∃ f, fuel = f + 1 := ⟨fuel - 1, by omega⟩
    have hA2 : A = (r : Int) * dy + dy := by rw [hA]; push_cast; ring
    have hA0 : 0 ≤ (r : Int) * dy := mul_nonneg (by omega) hdy
    have hxs : x2 = (x + sx) + sx * r := by rw [hx]; push_cast; ring
    have hne : ¬ (x = x2 ∧ y = y2) := by
      intro h
      rcases hsx with rfl | rfl <;> omega
    have hgt : err > -dx := by omega
    have hxn : toInt32 (x + sx) = x + sx := by
      unfold toInt32
      rcases hsx with rfl | rfl <;> omega
    rw [draw_line_loop_succ, if_neg hne]
    simp only [if_pos hgt]
    rw [hxn]
    have hxr2 : -2147483648 ≤ x + sx ∧ x + sx < 2147483648 := by
      rcases hsx with rfl | rfl <;> omega
    by_cases herr : err < dy
    · simp only [if_pos herr]
      have hj1 : 1 ≤ j := by
        by_contra hne
        have : j = 0 := by omega
        rw [this, zero_mul] at hB
        omega
      have hB2 : B - dx = (j - 1) * dx := by rw [hB]; ring
      have hys : y2 = (y + sy) + sy * (j - 1) := by rw [hy]; ring
      have hyn : toInt32 (y + sy) = y + sy := by
        unfold toInt32
        rcases hsy with rfl | rfl <;> omega
      have hen : toInt32 (toInt32 (err - dy) + dx) = err - dy + dx := by
        unfold toInt32
        omega
      rw [hyn, hen]
      have hyr2 : -2147483648 ≤ y + sy ∧ y + sy < 2147483648 := by
        rcases hsy with rfl | rfl <;> omega
      exact cons_run (x, y) (x2, y2) r _
        (ih (x + sx) (y + sy) (err - dy + dx) (j - 1) ((r : Int) * dy) (B - dx) f
          hxs hys (by omega) rfl hB2 (by omega) (by omega) (by omega) (by omega)
          hxr2 hyr2 (by omega))
    · simp only [if_neg herr]
      have hen : toInt32 (err - dy) = err - dy := by
        unfold toInt32
        omega
      rw [hen]
      exact cons_run (x, y) (x2, y2) r _
        (ih (x + sx) y (err - dy) j ((r : Int) * dy) B f
          hxs hy hj rfl hB (by omega) (by omega) (by omega) (by omega)
          hxr2 hyr (by omega))

/-- The loop when `dx <= dy` and `dy > 0`: every iteration steps `y1`. With `r`
steps of `y1` and `j` steps of `x1` still to go and `err + r * dx - j * dy`
inside `(-dy, 0]`, the loop breaks after `r + 1` points, the last being
`(x2, y2)`. -/
theorem draw_line_y_major (x2 y2 dx dy sx sy : Int)
    (hsx : sx = 1 ∨ sx = -1) (hsy : sy = 1 ∨ sy = -1)
    (hdx : 0 ≤ dx) (hle : dx ≤ dy) (hpos : 0 < dy) (hdy : dy < 2147483648)
    (hx2 : -2147483648 ≤ x2 ∧ x2 < 2147483648) (hy2 : -2147483648 ≤ y2 ∧ y2 < 2147483648)
    (r : Nat) :
    ∀ (x y err j A B : Int) (fuel : Nat),
      y2 = y + sy * r → x2 = x + sx * j → 0 ≤ j →
      A = r * dx → B = j * dy →
      -dy < err → err ≤ 0 → -dy < err + A - B → err + A - B ≤ 0 →
      (-2147483648 ≤ x ∧ x < 2147483648) → (-2147483648 ≤ y ∧ y < 2147483648) →
      r + 1 ≤ fuel →
      ∃ pts, draw_line_loop x2 y2 dx dy sx sy fuel x y err = some pts
        ∧ pts.length = r + 1 ∧ pts.getLast? = some (x2, y2) := by
  induction r with
  | zero =>
    intro x y err j A B fuel hy hx hj hA hB he0 he1 hp0 hp1 hxr hyr hfuel
    simp only [Nat.cast_zero, mul_zero, add_zero, zero_mul] at hy hA
    have hj0 : j = 0 := by
      by_contra hne
      have h1 : 1 ≤ j := by omega
      have h2 : 1 * dy ≤ j * dy := mul_le_mul_of_nonneg_right h1 (by omega)
      omega
    have hxx : x = x2 := by rw [hx, hj0, mul_zero, add_zero]
    obtain ⟨f, rfl⟩ : ∃ f, fuel = f + 1 := ⟨fuel - 1, by omega⟩
    rw [draw_line_loop_succ, if_pos ⟨hxx, hy.symm⟩]
    exact ⟨[(x, y)], rfl, rfl, by rw [hxx, hy]; rfl⟩
  | succ r ih =>
    intro x y err j A B fuel hy hx hj hA hB he0 he1 hp0 hp1 hxr hyr hfuel
    obtain ⟨f, rfl⟩ : ∃ f, fuel = f + 1 := ⟨fuel - 1, by omega⟩
    have hA2 : A = (r : Int) * dx + dx := by rw [hA]; push_cast; ring
    have hA0 : 0 ≤ (r : Int) * dx := mul_nonneg (by omega) hdx
    have hys : y2 = (y + sy) + sy * r := by rw [hy]; push_cast; ring
    have hne : ¬ (x = x2 ∧ y = y2) := by
      intro h
      rcases hsy with rfl | rfl <;> omega
    have hlt : err < dy := by omega
    have hyn : toInt32 (y + sy) = y + sy := by
      unfold toInt32
      rcases hsy with rfl | rfl <;> omega
    have hyr2 : -2147483648 ≤ y + sy ∧ y + sy < 2147483648 := by
      rcases hsy with rfl | rfl <;> omega
    rw [draw_line_loop_succ, if_neg hne]
    simp only [if_pos hlt]
    rw [hyn]
    by_cases hgt : err > -dx
    · simp only [if_pos hgt]
      have hj1 : 1 ≤ j := by
        by_contra hne
        have : j = 0 := by omega
        rw [this, zero_mul] at hB
        omega
      have hB2 : B - dy = (j - 1) * dy := by rw [hB]; ring
      have hxs : x2 = (x + sx) + sx * (j - 1) := by rw [hx]; ring
      have hxn : toInt32 (x + sx) = x + sx := by
        unfold toInt32
        rcases hsx with rfl | rfl <;> omega
      have hen : toInt32 (toInt32 (err - dy) + dx) = err - dy + dx := by
        unfold toInt32
        omega
      rw [hxn, hen]
      have hxr2 : -2147483648 ≤ x + sx ∧ x + sx < 2147483648 := by
        rcases hsx with rfl | rfl <;> omega
      exact cons_run (x, y) (x2, y2) r _
        (ih (x + sx) (y + sy) (err - dy + dx) (j - 1) ((r : Int) * dx) (B - dy) f
          hys hxs (by omega) rfl hB2 (by omega) (by omega) (by omega) (by omega)
          hxr2 hyr2 (by omega))
    · simp only [if_neg hgt]
      have hen : toInt32 (err + dx) = err + dx := by
        unfold toInt32
        omega
      rw [hen]
      exact cons_run (x, y) (x2, y2) r _
        (ih x (y + sy) (err + dx) j ((r : Int) * dx) B f
          hys hx hj rfl hB (by omega) (by omega) (by omega) (by omega)
          hxr hyr2 (by omega))

/-- C28: for all `int` endpoints whose differences do not overflow `int`, the
loop of `ssd1309_draw_line` reaches its `break` (with any fuel of at least
`max |x2 - x1| |y2 - y1| + 1` iterations) after passing exactly
`max |x2 - x1| |y2 - y1| + 1` points to `ssd1309_set_pixel`, the last of which
is `(x2, y2)`. -/
theorem C28_draw_line_terminates (x1 y1 x2 y2 : Int) (fuel : Nat)
    (hx1 : -2147483648 ≤ x1 ∧ x1 < 2147483648) (hy1 : -2147483648 ≤ y1 ∧ y1 < 2147483648)
    (hx2 : -2147483648 ≤ x2 ∧ x2 < 2147483648) (hy2 : -2147483648 ≤ y2 ∧ y2 < 2147483648)
    (hdx : -2147483648 < x2 - x1 ∧ x2 - x1 < 2147483648)
    (hdy : -2147483648 < y2 - y1 ∧ y2 - y1 < 2147483648)
    (hfuel : max (x2 - x1).natAbs (y2 - y1).natAbs + 1 ≤ fuel) :
    ∃ pts, ssd1309_draw_line fuel x1 y1 x2 y2 = some pts
      ∧ pts.length = max (x2 - x1).natAbs (y2 - y1).natAbs + 1
      ∧ pts.getLast? = some (x2, y2) := by
  have hdxv : c_abs (toInt32 (x2 - x1)) = ((x2 - x1).natAbs : Int) := by
    unfold c_abs toInt32
    split <;> omega
  have hdyv : c_abs (toInt32 (y2 - y1)) = ((y2 - y1).natAbs : Int) := by
    unfold c_abs toInt32
    split <;> omega
  unfold ssd1309_draw_line
  simp only [hdxv, hdyv]
  generalize hdxe : (x2 - x1).natAbs = dxn at hfuel ⊢
  generalize hdye : (y2 - y1).natAbs = dyn at hfuel ⊢
  have hsx : (if x1 < x2 then (1 : Int) else -1) = 1 ∨ (if x1 < x2 then (1 : Int) else -1) = -1 := by
    split
    · exact Or.inl rfl
    · exact Or.inr rfl
  have hsy : (if y1 < y2 then (1 : Int) else -1) = 1 ∨ (if y1 < y2 then (1 : Int) else -1) = -1 := by
    split
    · exact Or.inl rfl
    · exact Or.inr rfl
  have hxe : x2 = x1 + (if x1 < x2 then (1 : Int) else -1) * (dxn : Int) := by
    split <;> omega
  have hye : y2 = y1 + (if y1 < y2 then (1 : Int) else -1) * (dyn : Int) := by
    split <;> omega
  by_cases hcmp : (dxn : Int) > (dyn : Int)
  · rw [if_pos hcmp, Int.tdiv_eq_ediv (by omega) (by decide)]
    have hmax : max dxn dyn = dxn := by omega
    rw [hmax] at hfuel ⊢
    have hAB : (dxn : Int) * (dyn : Int) = (dyn : Int) * (dxn : Int) := mul_comm _ _
    exact draw_line_x_major x2 y2 dxn dyn _ _ hsx hsy (by omega) hcmp (by omega) hx2 hy2 dxn
      x1 y1 ((dxn : Int) / 2) dyn ((dxn : Int) * (dyn : Int)) ((dyn : Int) * (dxn : Int)) fuel
      hxe hye (by omega) rfl rfl (by omega) (by omega) (by rw [hAB]; omega)
      (by rw [hAB]; omega) hx1 hy1 hfuel
  · rw [if_neg hcmp, Int.neg_tdiv, Int.tdiv_eq_ediv (by omega) (by decide)]
    have hmax : max dxn dyn = dyn := by omega
    rw [hmax] at hfuel ⊢
    by_cases hz : dyn = 0
    · subst hz
      have hdx0 : dxn = 0 := by omega
      subst hdx0
      obtain ⟨f, rfl⟩ : ∃ f, fuel = f + 1 := ⟨fuel - 1, by omega⟩
      have hxx : x1 = x2 := by omega
      have hyy : y1 = y2 := by omega
      rw [draw_line_loop_succ, if_pos ⟨hxx, hyy⟩]
      exact ⟨[(x1, y1)], rfl, rfl, by rw [hxx, hyy]; rfl⟩
    · have hAB : (dyn : Int) * (dxn : Int) = (dxn : Int) * (dyn : Int) := mul_comm _ _
      exact draw_line_y_major x2 y2 dxn dyn _ _ hsx hsy (by omega) (by omega) (by omega)
        (by omega) hx2 hy2 dyn
        x1 y1 (-((dyn : Int) / 2)) dxn ((dyn : Int) * (dxn : Int)) ((dxn : Int) * (dyn : Int))
        fuel hye hxe (by omega) rfl rfl (by omega) (by omega) (by rw [hAB]; omega)
        (by rw [hAB]; omega) hx1 hy1 hfuel

theorem C28_draw_line_terminates_witness :
    (-2147483648 ≤ (3 : Int) ∧ (3 : Int) < 2147483648)
    ∧ (-2147483648 ≤ (10 : Int) ∧ (10 : Int) < 2147483648)
    ∧ (-2147483648 ≤ (-4 : Int) ∧ (-4 : Int) < 2147483648)
    ∧ (-2147483648 ≤ (12 : Int) ∧ (12 : Int) < 2147483648)
    ∧ (-2147483648 < (-4 : Int) - 3 ∧ (-4 : Int) - 3 < 2147483648)
    ∧ (-2147483648 < (12 : Int) - 10 ∧ (12 : Int) - 10 < 2147483648)
    ∧ max ((-4 : Int) - 3).natAbs ((12 : Int) - 10).natAbs + 1 ≤ 8
    ∧ ssd1309_draw_line 8 3 10 (-4) 12
        = some [(3, 10), (2, 10), (1, 11), (0, 11), (-1, 11), (-2, 11), (-3, 12), (-4, 12)]
    ∧ ∃ pts, ssd1309_draw_line 8 3 10 (-4) 12 = some pts
      ∧ pts.length = max ((-4 : Int) - 3).natAbs ((12 : Int) - 10).natAbs + 1
      ∧ pts.getLast? = some (-4, 12) :=
  ⟨by decide, by decide, by decide, by decide, by decide, by decide, by decide, by decide,
   C28_draw_line_terminates 3 10 (-4) 12 8 (by decide) (by decide) (by decide) (by decide)
     (by decide) (by decide) (by decide)⟩

end I2cKbd
